import Mathlib

/-!
# bad-cad: the procedural geometry kernel of `src/main.c`

A shallow embedding of the vertex buffer (`mb_t`), the range views (`mb_view_t`),
the strip emitter (`mb_strip_t`) and the generators (`create_face`, `create_plank`,
`create_plank_angled`, `create_wall`), followed by theorems about them.

Conventions of the embedding.

* `f32` values are elements of an ordered field `F` (exact arithmetic); the loops of
  `create_face` additionally need `FloorRing F`, which makes `F` archimedean.  The
  rationals and the reals are instances.
* `u32` values are natural numbers.  A sum of `u32` values is taken without
  wraparound: every sum the kernel forms is a vertex count that has been reserved in
  a buffer whose capacity is itself a `u32`.  A difference of `u32` values wraps
  modulo `2 ^ 32` (`u32_sub`), as it does in C when a stale view is used.
* The `i32` tile counters of `create_face` are natural numbers.
* A pointer to a buffer is the buffer value; a function that writes through the
  pointer returns the new buffer.
* A C array is a function from indices to values, so a slot keeps its value while
  the count is reset, and a read is defined at every index.
-/

namespace BadCad

set_option autoImplicit false

/-! ## raylib value types -/

/-- Vector2 of raylib.h: two `float` components. -/
@[ext] structure Vector2 (F : Type) where
  x : F
  y : F

/-- Vector3 of raylib.h: three `float` components. -/
@[ext] structure Vector3 (F : Type) where
  x : F
  y : F
  z : F

/-- Matrix of raylib.h: sixteen `float` components, `m0 m4 m8 m12` being the first
row, `m1 m5 m9 m13` the second, `m2 m6 m10 m14` the third and `m3 m7 m11 m15` the
fourth. -/
@[ext] structure Matrix (F : Type) where
  m0 : F
  m4 : F
  m8 : F
  m12 : F
  m1 : F
  m5 : F
  m9 : F
  m13 : F
  m2 : F
  m6 : F
  m10 : F
  m14 : F
  m3 : F
  m7 : F
  m11 : F
  m15 : F

/-- The functions of `math.h` that the kernel calls, and the constant `DEG2RAD`
(`PI/180`) of raylib.h.  They are parameters of the embedding. -/
structure math_h (F : Type) where
  sinf : F → F
  cosf : F → F
  sqrtf : F → F
  DEG2RAD : F

section raymath

variable {F : Type} [LinearOrderedField F]

/-- Modelled from the spec: `Vector3Transform` of raymath.h (raylib, not among the
sources), the "4×4 affine transform" applied to a position: the first three rows of
the matrix act on `(x, y, z, 1)`, the fourth row is ignored. -/
def Vector3Transform (v : Vector3 F) (mat : Matrix F) : Vector3 F :=
  { x := mat.m0 * v.x + mat.m4 * v.y + mat.m8 * v.z + mat.m12
    y := mat.m1 * v.x + mat.m5 * v.y + mat.m9 * v.z + mat.m13
    z := mat.m2 * v.x + mat.m6 * v.y + mat.m10 * v.z + mat.m14 }

/-- Modelled from the spec: `MatrixTranspose` of raymath.h (raylib, not among the
sources). -/
def MatrixTranspose (mat : Matrix F) : Matrix F :=
  { m0 := mat.m0, m1 := mat.m4, m2 := mat.m8, m3 := mat.m12
    m4 := mat.m1, m5 := mat.m5, m6 := mat.m9, m7 := mat.m13
    m8 := mat.m2, m9 := mat.m6, m10 := mat.m10, m11 := mat.m14
    m12 := mat.m3, m13 := mat.m7, m14 := mat.m11, m15 := mat.m15 }

/-- The determinant that `MatrixInvert` of raymath.h divides by. -/
def MatrixDeterminant (mat : Matrix F) : F :=
  let a00 := mat.m0; let a01 := mat.m1; let a02 := mat.m2; let a03 := mat.m3
  let a10 := mat.m4; let a11 := mat.m5; let a12 := mat.m6; let a13 := mat.m7
  let a20 := mat.m8; let a21 := mat.m9; let a22 := mat.m10; let a23 := mat.m11
  let a30 := mat.m12; let a31 := mat.m13; let a32 := mat.m14; let a33 := mat.m15
  let b00 := a00 * a11 - a01 * a10
  let b01 := a00 * a12 - a02 * a10
  let b02 := a00 * a13 - a03 * a10
  let b03 := a01 * a12 - a02 * a11
  let b04 := a01 * a13 - a03 * a11
  let b05 := a02 * a13 - a03 * a12
  let b06 := a20 * a31 - a21 * a30
  let b07 := a20 * a32 - a22 * a30
  let b08 := a20 * a33 - a23 * a30
  let b09 := a21 * a32 - a22 * a31
  let b10 := a21 * a33 - a23 * a31
  let b11 := a22 * a33 - a23 * a32
  b00 * b11 - b01 * b10 + b02 * b09 + b03 * b08 - b04 * b07 + b05 * b06

/-- Modelled from the spec: `MatrixInvert` of raymath.h (raylib, not among the
sources), the inverse by cofactors, every cofactor multiplied by
`1 / determinant`. -/
def MatrixInvert (mat : Matrix F) : Matrix F :=
  let a00 := mat.m0; let a01 := mat.m1; let a02 := mat.m2; let a03 := mat.m3
  let a10 := mat.m4; let a11 := mat.m5; let a12 := mat.m6; let a13 := mat.m7
  let a20 := mat.m8; let a21 := mat.m9; let a22 := mat.m10; let a23 := mat.m11
  let a30 := mat.m12; let a31 := mat.m13; let a32 := mat.m14; let a33 := mat.m15
  let b00 := a00 * a11 - a01 * a10
  let b01 := a00 * a12 - a02 * a10
  let b02 := a00 * a13 - a03 * a10
  let b03 := a01 * a12 - a02 * a11
  let b04 := a01 * a13 - a03 * a11
  let b05 := a02 * a13 - a03 * a12
  let b06 := a20 * a31 - a21 * a30
  let b07 := a20 * a32 - a22 * a30
  let b08 := a20 * a33 - a23 * a30
  let b09 := a21 * a32 - a22 * a31
  let b10 := a21 * a33 - a23 * a31
  let b11 := a22 * a33 - a23 * a32
  let invDet := 1 / (b00 * b11 - b01 * b10 + b02 * b09 + b03 * b08 - b04 * b07 + b05 * b06)
  { m0 := (a11 * b11 - a12 * b10 + a13 * b09) * invDet
    m1 := (-a01 * b11 + a02 * b10 - a03 * b09) * invDet
    m2 := (a31 * b05 - a32 * b04 + a33 * b03) * invDet
    m3 := (-a21 * b05 + a22 * b04 - a23 * b03) * invDet
    m4 := (-a10 * b11 + a12 * b08 - a13 * b07) * invDet
    m5 := (a00 * b11 - a02 * b08 + a03 * b07) * invDet
    m6 := (-a30 * b05 + a32 * b02 - a33 * b01) * invDet
    m7 := (a20 * b05 - a22 * b02 + a23 * b01) * invDet
    m8 := (a10 * b10 - a11 * b08 + a13 * b06) * invDet
    m9 := (-a00 * b10 + a01 * b08 - a03 * b06) * invDet
    m10 := (a30 * b04 - a31 * b02 + a33 * b00) * invDet
    m11 := (-a20 * b04 + a21 * b02 - a23 * b00) * invDet
    m12 := (-a10 * b09 + a11 * b07 - a12 * b06) * invDet
    m13 := (a00 * b09 - a01 * b07 + a02 * b06) * invDet
    m14 := (-a30 * b03 + a31 * b01 - a32 * b00) * invDet
    m15 := (a20 * b03 - a21 * b01 + a22 * b00) * invDet }

/-- Modelled from the spec: `MatrixMultiply` of raymath.h (raylib, not among the
sources); `MatrixMultiply left right` applies `left` first and `right` second. -/
def MatrixMultiply (left right : Matrix F) : Matrix F :=
  { m0 := left.m0 * right.m0 + left.m1 * right.m4 + left.m2 * right.m8 + left.m3 * right.m12
    m1 := left.m0 * right.m1 + left.m1 * right.m5 + left.m2 * right.m9 + left.m3 * right.m13
    m2 := left.m0 * right.m2 + left.m1 * right.m6 + left.m2 * right.m10 + left.m3 * right.m14
    m3 := left.m0 * right.m3 + left.m1 * right.m7 + left.m2 * right.m11 + left.m3 * right.m15
    m4 := left.m4 * right.m0 + left.m5 * right.m4 + left.m6 * right.m8 + left.m7 * right.m12
    m5 := left.m4 * right.m1 + left.m5 * right.m5 + left.m6 * right.m9 + left.m7 * right.m13
    m6 := left.m4 * right.m2 + left.m5 * right.m6 + left.m6 * right.m10 + left.m7 * right.m14
    m7 := left.m4 * right.m3 + left.m5 * right.m7 + left.m6 * right.m11 + left.m7 * right.m15
    m8 := left.m8 * right.m0 + left.m9 * right.m4 + left.m10 * right.m8 + left.m11 * right.m12
    m9 := left.m8 * right.m1 + left.m9 * right.m5 + left.m10 * right.m9 + left.m11 * right.m13
    m10 := left.m8 * right.m2 + left.m9 * right.m6 + left.m10 * right.m10 + left.m11 * right.m14
    m11 := left.m8 * right.m3 + left.m9 * right.m7 + left.m10 * right.m11 + left.m11 * right.m15
    m12 := left.m12 * right.m0 + left.m13 * right.m4 + left.m14 * right.m8 + left.m15 * right.m12
    m13 := left.m12 * right.m1 + left.m13 * right.m5 + left.m14 * right.m9 + left.m15 * right.m13
    m14 := left.m12 * right.m2 + left.m13 * right.m6 + left.m14 * right.m10 + left.m15 * right.m14
    m15 := left.m12 * right.m3 + left.m13 * right.m7 + left.m14 * right.m11 + left.m15 * right.m15 }

/-- Modelled from the spec: `MatrixIdentity` of raymath.h (raylib, not among the
sources). -/
def MatrixIdentity : Matrix F :=
  { m0 := 1, m4 := 0, m8 := 0, m12 := 0
    m1 := 0, m5 := 1, m9 := 0, m13 := 0
    m2 := 0, m6 := 0, m10 := 1, m14 := 0
    m3 := 0, m7 := 0, m11 := 0, m15 := 1 }

/-- Modelled from the spec: `MatrixTranslate` of raymath.h (raylib, not among the
sources): the identity with `(x, y, z)` in `m12, m13, m14`. -/
def MatrixTranslate (x y z : F) : Matrix F :=
  { m0 := 1, m4 := 0, m8 := 0, m12 := x
    m1 := 0, m5 := 1, m9 := 0, m13 := y
    m2 := 0, m6 := 0, m10 := 1, m14 := z
    m3 := 0, m7 := 0, m11 := 0, m15 := 1 }

/-- Modelled from the spec: `MatrixScale` of raymath.h (raylib, not among the
sources): the diagonal matrix `(x, y, z, 1)`. -/
def MatrixScale (x y z : F) : Matrix F :=
  { m0 := x, m4 := 0, m8 := 0, m12 := 0
    m1 := 0, m5 := y, m9 := 0, m13 := 0
    m2 := 0, m6 := 0, m10 := z, m14 := 0
    m3 := 0, m7 := 0, m11 := 0, m15 := 1 }

/-- Modelled from the spec: `MatrixRotate` of raymath.h (raylib, not among the
sources): rotation by `angle` radians about `axis`, which is normalised first when
its squared length is neither 1 nor 0. -/
def MatrixRotate (m : math_h F) (axis : Vector3 F) (angle : F) : Matrix F :=
  let lengthSquared := axis.x * axis.x + axis.y * axis.y + axis.z * axis.z
  let ilength := 1 / m.sqrtf lengthSquared
  let x := if lengthSquared ≠ 1 ∧ lengthSquared ≠ 0 then axis.x * ilength else axis.x
  let y := if lengthSquared ≠ 1 ∧ lengthSquared ≠ 0 then axis.y * ilength else axis.y
  let z := if lengthSquared ≠ 1 ∧ lengthSquared ≠ 0 then axis.z * ilength else axis.z
  let sinres := m.sinf angle
  let cosres := m.cosf angle
  let t := 1 - cosres
  { m0 := x * x * t + cosres
    m1 := y * x * t + z * sinres
    m2 := z * x * t - y * sinres
    m3 := 0
    m4 := x * y * t - z * sinres
    m5 := y * y * t + cosres
    m6 := z * y * t + x * sinres
    m7 := 0
    m8 := x * z * t + y * sinres
    m9 := y * z * t - x * sinres
    m10 := z * z * t + cosres
    m11 := 0
    m12 := 0
    m13 := 0
    m14 := 0
    m15 := 1 }

/-- The function matrix_from of main.c: scale, then rotate (angle in degrees), then
translate. -/
def matrix_from (m : math_h F) (position rotation_axis : Vector3 F) (rotation_angle : F)
    (scale : Vector3 F) : Matrix F :=
  let mat_scale := MatrixScale scale.x scale.y scale.z
  let mat_rotation := MatrixRotate m rotation_axis (rotation_angle * m.DEG2RAD)
  let mat_translation := MatrixTranslate position.x position.y position.z
  MatrixMultiply (MatrixMultiply mat_scale mat_rotation) mat_translation

end raymath

/-! ## The vertex buffer -/

/-- Modelled from the spec: `dck_stretchy_t (T, u32)` of core/dck.h (not among the
sources), one growable sequence: the storage `data`, the number `count` of elements
in use and the number `capacity` of elements allocated.  The elements of the
sequence are `data 0 .. data (count - 1)`. -/
structure dck_stretchy_t (α : Type) where
  data : Nat → α
  count : Nat
  capacity : Nat

/-- Writing `v` to slot `i` of a C array: `a[i] = v`. -/
def store {α : Type} (a : Nat → α) (i : Nat) (v : α) : Nat → α :=
  fun j => if j = i then v else a j

/-- The call `memcpy(dst + dst_off, src + src_off, n * sizeof(T))` on arrays whose
two ranges do not overlap. -/
def memcpy {α : Type} (dst : Nat → α) (dst_off : Nat) (src : Nat → α) (src_off n : Nat) :
    Nat → α :=
  fun j => if dst_off ≤ j ∧ j < dst_off + n then src (src_off + (j - dst_off)) else dst j

/-- Modelled from the spec: `dck_stretchy_reserve` of core/dck.h (not among the
sources): "ensures capacity for `additional` more vertices", growing geometrically
and preserving the contents; count and contents never change. -/
def dck_stretchy_reserve {α : Type} (s : dck_stretchy_t α) (additional : Nat) :
    dck_stretchy_t α :=
  if s.count + additional ≤ s.capacity then s
  else { s with capacity := max (2 * s.capacity) (s.count + additional) }

/-- Modelled from the spec: `dck_stretchy_push` of core/dck.h (not among the
sources): "appends one" element, after making room for it. -/
def dck_stretchy_push {α : Type} (s : dck_stretchy_t α) (x : α) : dck_stretchy_t α :=
  let r := dck_stretchy_reserve s 1
  { r with data := store r.data r.count x, count := r.count + 1 }

/-- The struct mb_t of main.c: three sequences, each with its own count. -/
structure mb_t (F : Type) where
  positions : dck_stretchy_t (Vector3 F)
  normals : dck_stretchy_t (Vector3 F)
  texcoords : dck_stretchy_t (Vector2 F)

/-- The struct mb_view_t of main.c. -/
structure mb_view_t where
  vertex_start : Nat
  vertex_count : Nat
deriving DecidableEq, Repr

/-- Subtraction of two `u32` values, wrapping modulo `2 ^ 32`. -/
def u32_sub (a b : Nat) : Nat := (a + 4294967296 - b) % 4294967296

section buffer

variable {F : Type} [LinearOrderedField F]

/-- The buffer `mb_t mb = {0}` of `main`: no storage, all counts zero.  The value of
an unallocated slot is never read; the embedding makes it the zero vector. -/
def mb_zero : mb_t F :=
  { positions := { data := fun _ => ⟨0, 0, 0⟩, count := 0, capacity := 0 }
    normals := { data := fun _ => ⟨0, 0, 0⟩, count := 0, capacity := 0 }
    texcoords := { data := fun _ => ⟨0, 0⟩, count := 0, capacity := 0 } }

/-- The function mb_clear of main.c. -/
def mb_clear (mb : mb_t F) : mb_t F :=
  { positions := { mb.positions with count := 0 }
    normals := { mb.normals with count := 0 }
    texcoords := { mb.texcoords with count := 0 } }

/-- The counts that mb_to_mesh of main.c hands to the renderer: `vertexCount` and
`triangleCount`. -/
def mb_to_mesh (mb : mb_t F) : Nat × Nat :=
  (mb.positions.count, mb.positions.count / 3)

/-- The function mb_vertex of main.c. -/
def mb_vertex (mb : mb_t F) (position normal : Vector3 F) (texcoord : Vector2 F) : mb_t F :=
  { positions := dck_stretchy_push mb.positions position
    normals := dck_stretchy_push mb.normals normal
    texcoords := dck_stretchy_push mb.texcoords texcoord }

/-- The struct mb_strip_t of main.c.  The field `mb` is the buffer the strip points
to; the three windows have four slots each (indices 0 to 3). -/
structure mb_strip_t (F : Type) where
  mb : mb_t F
  positions : Nat → Vector3 F
  normals : Nat → Vector3 F
  texcoords : Nat → Vector2 F
  count : Nat
  vertex_start : Nat

/-- The function mb_strip_create of main.c; the fields it does not name are zero. -/
def mb_strip_create (mb : mb_t F) : mb_strip_t F :=
  { mb := mb
    positions := fun _ => ⟨0, 0, 0⟩
    normals := fun _ => ⟨0, 0, 0⟩
    texcoords := fun _ => ⟨0, 0⟩
    count := 0
    vertex_start := mb.positions.count }

/-- The function mb_strip_push of main.c. -/
def mb_strip_push (strip : mb_strip_t F) (position normal : Vector3 F) (texcoord : Vector2 F) :
    mb_strip_t F :=
  let s1 : mb_strip_t F :=
    { strip with
      positions := store strip.positions strip.count position
      normals := store strip.normals strip.count normal
      texcoords := store strip.texcoords strip.count texcoord
      count := strip.count + 1 }
  if s1.count = 4 then
    let mb1 := mb_vertex s1.mb (s1.positions 0) (s1.normals 0) (s1.texcoords 0)
    let mb2 := mb_vertex mb1 (s1.positions 1) (s1.normals 1) (s1.texcoords 1)
    let mb3 := mb_vertex mb2 (s1.positions 2) (s1.normals 2) (s1.texcoords 2)
    let mb4 := mb_vertex mb3 (s1.positions 3) (s1.normals 3) (s1.texcoords 3)
    let mb5 := mb_vertex mb4 (s1.positions 2) (s1.normals 2) (s1.texcoords 2)
    let mb6 := mb_vertex mb5 (s1.positions 1) (s1.normals 1) (s1.texcoords 1)
    { mb := mb6
      positions := store (store s1.positions 0 (s1.positions 2)) 1 (s1.positions 3)
      normals := store (store s1.normals 0 (s1.normals 2)) 1 (s1.normals 3)
      texcoords := store (store s1.texcoords 0 (s1.texcoords 2)) 1 (s1.texcoords 3)
      count := 2
      vertex_start := s1.vertex_start }
  else s1

/-- The function mb_strip_reset of main.c. -/
def mb_strip_reset (strip : mb_strip_t F) : mb_strip_t F :=
  { strip with count := 0 }

/-- The function mb_strip_get_view of main.c. -/
def mb_strip_get_view (strip : mb_strip_t F) : mb_view_t :=
  { vertex_start := strip.vertex_start
    vertex_count := u32_sub strip.mb.positions.count strip.vertex_start }

/-- The function mb_view_begin of main.c; the count it does not name is zero. -/
def mb_view_begin (mb : mb_t F) : mb_view_t :=
  { vertex_start := mb.positions.count, vertex_count := 0 }

/-- The function mb_view_end of main.c. -/
def mb_view_end (mb : mb_t F) (view : mb_view_t) : mb_view_t :=
  { vertex_start := view.vertex_start
    vertex_count := u32_sub mb.positions.count view.vertex_start }

/-- The function mb_view_copy of main.c.  All three copies land at offset
`mb_dst->positions.count`; each count grows on its own.  When `mb_dst` and `mb_src`
are the same buffer the source is read after the reservation, which changes neither
contents nor counts, so the call is `mb_view_copy mb mb view`. -/
def mb_view_copy (mb_dst mb_src : mb_t F) (view_src : mb_view_t) : mb_t F × mb_view_t :=
  let vertex_start := mb_dst.positions.count
  let positions := dck_stretchy_reserve mb_dst.positions view_src.vertex_count
  let normals := dck_stretchy_reserve mb_dst.normals view_src.vertex_count
  let texcoords := dck_stretchy_reserve mb_dst.texcoords view_src.vertex_count
  let positions_data := memcpy positions.data positions.count
    mb_src.positions.data view_src.vertex_start view_src.vertex_count
  let normals_data := memcpy normals.data positions.count
    mb_src.normals.data view_src.vertex_start view_src.vertex_count
  let texcoords_data := memcpy texcoords.data positions.count
    mb_src.texcoords.data view_src.vertex_start view_src.vertex_count
  ({ positions :=
       { positions with data := positions_data, count := positions.count + view_src.vertex_count }
     normals :=
       { normals with data := normals_data, count := normals.count + view_src.vertex_count }
     texcoords :=
       { texcoords with
         data := texcoords_data, count := texcoords.count + view_src.vertex_count } },
   { vertex_start := vertex_start, vertex_count := view_src.vertex_count })

/-- The loop of mb_view_transform: `n` iterations remain and the loop variable is
`i`. -/
def mb_view_transform_loop (matrix normal_matrix : Matrix F) :
    Nat → Nat → mb_t F → mb_t F
  | _, 0, mb => mb
  | i, n + 1, mb =>
    mb_view_transform_loop matrix normal_matrix (i + 1) n
      { mb with
        positions :=
          { mb.positions with
            data := store mb.positions.data i (Vector3Transform (mb.positions.data i) matrix) }
        normals :=
          { mb.normals with
            data := store mb.normals.data i
              (Vector3Transform (mb.normals.data i) normal_matrix) } }

/-- The function mb_view_transform of main.c: the loop runs from `view.vertex_start`
for `view.vertex_count` iterations. -/
def mb_view_transform (mb : mb_t F) (view : mb_view_t) (matrix : Matrix F) : mb_t F :=
  let normal_matrix := MatrixTranspose (MatrixInvert matrix)
  mb_view_transform_loop matrix normal_matrix view.vertex_start view.vertex_count mb

/-- The function mb_view_dupe of main.c. -/
def mb_view_dupe (mb : mb_t F) (view : mb_view_t) (matrix : Matrix F) : mb_t F × mb_view_t :=
  let r := mb_view_copy mb mb view
  (mb_view_transform r.1 r.2 matrix, r.2)

end buffer

/-! ## The generators -/

section generators

variable {F : Type} [LinearOrderedField F]

/-- The body of the inner loop of create_face of main.c: the reset and the four
pushes of the tile whose integer origin is `(xi, yi)`. -/
def create_face_tile (strip : mb_strip_t F) (xi yi : Nat) (width height : F) : mb_strip_t F :=
  let strip := mb_strip_reset strip
  let x : F := (xi : F)
  let y : F := (yi : F)
  let strip := mb_strip_push strip ⟨x, y, 0⟩ ⟨0, 0, 1⟩ ⟨0, 0⟩
  let strip := mb_strip_push strip ⟨x + width, y, 0⟩ ⟨0, 0, 1⟩ ⟨width, 0⟩
  let strip := mb_strip_push strip ⟨x, y + height, 0⟩ ⟨0, 0, 1⟩ ⟨0, height⟩
  mb_strip_push strip ⟨x + width, y + height, 0⟩ ⟨0, 0, 1⟩ ⟨width, height⟩

/-- The inner loop of create_face of main.c,
`for (i32 xi = 0; x_left > 0.0f; ++xi, x_left -= 1.0f)`, from the state `(xi, x_left)`. -/
def create_face_row [FloorRing F] (strip : mb_strip_t F) (yi : Nat) (height : F) (xi : Nat) (x_left : F) :
    mb_strip_t F :=
  if x_left > 0 then
    let width := if x_left > 1 then 1 else x_left
    create_face_row (create_face_tile strip xi yi width height) yi height (xi + 1) (x_left - 1)
  else strip
termination_by Int.toNat ⌈x_left⌉
decreasing_by
  rename_i h
  have h1 : (0 : Int) < ⌈x_left⌉ := Int.ceil_pos.mpr h
  rw [Int.ceil_sub_one]
  omega

/-- The outer loop of create_face of main.c,
`for (i32 yi = 0; y_left > 0.0f; ++yi, y_left -= 1.0f)`, from the state `(yi, y_left)`. -/
def create_face_rows [FloorRing F] (strip : mb_strip_t F) (xs : F) (yi : Nat) (y_left : F) : mb_strip_t F :=
  if y_left > 0 then
    let height := if y_left > 1 then 1 else y_left
    create_face_rows (create_face_row strip yi height 0 xs) xs (yi + 1) (y_left - 1)
  else strip
termination_by Int.toNat ⌈y_left⌉
decreasing_by
  rename_i h
  have h1 : (0 : Int) < ⌈y_left⌉ := Int.ceil_pos.mpr h
  rw [Int.ceil_sub_one]
  omega

/-- The function create_face of main.c: the new buffer and the returned view. -/
def create_face [FloorRing F] (mb : mb_t F) (xs ys : F) : mb_t F × mb_view_t :=
  let strip := mb_strip_create mb
  let strip := create_face_rows strip xs 0 ys
  (strip.mb, mb_strip_get_view strip)

/-- The function create_plank of main.c. -/
def create_plank [FloorRing F] (m : math_h F) (mb : mb_t F) (xs ys zs : F) : mb_t F × mb_view_t :=
  let view := mb_view_begin mb
  let front := create_face mb xs ys
  let mb := (mb_view_dupe front.1 front.2
    (matrix_from m ⟨0, ys, -zs⟩ ⟨1, 0, 0⟩ 180 ⟨1, 1, 1⟩)).1
  let bottom := create_face mb xs zs
  let mb := mb_view_transform bottom.1 bottom.2
    (matrix_from m ⟨0, 0, -zs⟩ ⟨1, 0, 0⟩ 90 ⟨1, 1, 1⟩)
  let mb := (mb_view_dupe mb bottom.2
    (matrix_from m ⟨0, ys, -zs⟩ ⟨1, 0, 0⟩ 180 ⟨1, 1, 1⟩)).1
  let end_ := create_face mb zs ys
  let mb := mb_view_transform end_.1 end_.2
    (matrix_from m ⟨0, 0, -zs⟩ ⟨0, 1, 0⟩ (-90) ⟨1, 1, 1⟩)
  let mb := (mb_view_dupe mb end_.2
    (matrix_from m ⟨xs, 0, -zs⟩ ⟨0, 1, 0⟩ 180 ⟨1, 1, 1⟩)).1
  (mb, mb_view_end mb view)

/-- The twelve direct mb_vertex calls of create_plank_angled of main.c, in source
order. -/
def create_plank_angled_caps (mb : mb_t F) (xs ys zs wd1 wd2 : F) : mb_t F :=
  let mb := mb_vertex mb ⟨0, 0, 0⟩ ⟨0, 0, 1⟩ ⟨0, 0⟩
  let mb := mb_vertex mb ⟨wd1, 0, 0⟩ ⟨0, 0, 1⟩ ⟨wd1, 0⟩
  let mb := mb_vertex mb ⟨wd1, ys, 0⟩ ⟨0, 0, 1⟩ ⟨wd1, ys⟩
  let mb := mb_vertex mb ⟨0, 0, -zs⟩ ⟨0, 0, -1⟩ ⟨0, 0⟩
  let mb := mb_vertex mb ⟨wd1, ys, -zs⟩ ⟨0, 0, -1⟩ ⟨wd1, ys⟩
  let mb := mb_vertex mb ⟨wd1, 0, -zs⟩ ⟨0, 0, -1⟩ ⟨wd1, 0⟩
  let mb := mb_vertex mb ⟨xs - wd2, 0, 0⟩ ⟨0, 0, 1⟩ ⟨0, 0⟩
  let mb := mb_vertex mb ⟨xs, 0, 0⟩ ⟨0, 0, 1⟩ ⟨wd2, 0⟩
  let mb := mb_vertex mb ⟨xs - wd2, ys, 0⟩ ⟨0, 0, 1⟩ ⟨0, ys⟩
  let mb := mb_vertex mb ⟨xs - wd2, 0, -zs⟩ ⟨0, 0, -1⟩ ⟨0, 0⟩
  let mb := mb_vertex mb ⟨xs - wd2, ys, -zs⟩ ⟨0, 0, -1⟩ ⟨0, ys⟩
  mb_vertex mb ⟨xs, 0, -zs⟩ ⟨0, 0, -1⟩ ⟨wd2, 0⟩

/-- The function create_plank_angled of main.c. -/
def create_plank_angled [FloorRing F] (m : math_h F) (mb : mb_t F) (xs ys zs a1 a2 : F) :
    mb_t F × mb_view_t :=
  let view := mb_view_begin mb
  let bottom := create_face mb xs zs
  let mb := mb_view_transform bottom.1 bottom.2
    (matrix_from m ⟨0, 0, -zs⟩ ⟨1, 0, 0⟩ 90 ⟨1, 1, 1⟩)
  let wd1 := (ys / m.sinf (a1 * m.DEG2RAD)) * m.sinf ((90 - a1) * m.DEG2RAD)
  let wd2 := (ys / m.sinf (a2 * m.DEG2RAD)) * m.sinf ((90 - a2) * m.DEG2RAD)
  let mb := create_plank_angled_caps mb xs ys zs wd1 wd2
  let rat1 := m.sqrtf (wd1 * wd1 + ys * ys) / ys
  let rat2 := m.sqrtf (wd2 * wd2 + ys * ys) / ys
  let end1 := create_face mb zs ys
  let mb := mb_view_transform end1.1 end1.2
    (matrix_from m ⟨0, 0, -zs⟩ ⟨0, 1, 0⟩ (-90) ⟨1, rat1, 1⟩)
  let mb := mb_view_transform mb end1.2
    (matrix_from m ⟨0, 0, 0⟩ ⟨0, 0, 1⟩ (-a1) ⟨1, 1, 1⟩)
  let end2 := create_face mb zs ys
  let mb := mb_view_transform end2.1 end2.2
    (matrix_from m ⟨0, 0, 0⟩ ⟨0, 1, 0⟩ 90 ⟨1, rat2, 1⟩)
  let mb := mb_view_transform mb end2.2
    (matrix_from m ⟨xs, 0, 0⟩ ⟨0, 0, 1⟩ a2 ⟨1, 1, 1⟩)
  let side := create_face mb (xs - wd1 - wd2) ys
  let mb := mb_view_transform side.1 side.2
    (matrix_from m ⟨wd1, 0, 0⟩ ⟨0, 0, 1⟩ 0 ⟨1, 1, 1⟩)
  let mb := (mb_view_dupe mb side.2
    (matrix_from m ⟨0, ys, -zs⟩ ⟨1, 0, 0⟩ 180 ⟨1, 1, 1⟩)).1
  let top := create_face mb (xs - wd1 - wd2) zs
  let mb := mb_view_transform top.1 top.2
    (matrix_from m ⟨wd1, ys, 0⟩ ⟨1, 0, 0⟩ (-90) ⟨1, 1, 1⟩)
  (mb, mb_view_end mb view)

/-- The first block of create_wall of main.c: the view `side`. -/
def create_wall_side [FloorRing F] (m : math_h F) (mb : mb_t F) (lw sw height : F) : mb_t F × mb_view_t :=
  let side := mb_view_begin mb
  let plank := create_plank m mb height lw sw
  let mb := mb_view_transform plank.1 plank.2
    (matrix_from m ⟨lw, 0, 0⟩ ⟨0, 0, 1⟩ 90 ⟨1, 1, 1⟩)
  let mb := (mb_view_dupe mb plank.2
    (matrix_from m ⟨0, 0, -(lw + sw)⟩ ⟨0, 1, 0⟩ 0 ⟨1, 1, 1⟩)).1
  let plank_middle := create_plank m mb (height - 2 * (lw - sw)) sw lw
  let mb := mb_view_transform plank_middle.1 plank_middle.2
    (matrix_from m ⟨lw, lw - sw, -sw⟩ ⟨0, 0, 1⟩ 90 ⟨1, 1, 1⟩)
  (mb, mb_view_end mb side)

/-- The second block of create_wall of main.c: the view `bottom`. -/
def create_wall_bottom [FloorRing F] (m : math_h F) (mb : mb_t F) (lw sw width : F) : mb_t F × mb_view_t :=
  let bottom := mb_view_begin mb
  let plank := create_plank m mb width lw sw
  let mb := mb_view_transform plank.1 plank.2
    (matrix_from m ⟨lw, 0, 0⟩ ⟨0, 1, 0⟩ 0 ⟨1, 1, 1⟩)
  let mb := (mb_view_dupe mb plank.2
    (matrix_from m ⟨0, lw - sw, -(sw + lw)⟩ ⟨1, 0, 0⟩ 90 ⟨1, 1, 1⟩)).1
  let mb := (mb_view_dupe mb plank.2
    (matrix_from m ⟨0, 0, -(sw + lw)⟩ ⟨0, 1, 0⟩ 0 ⟨1, 1, 1⟩)).1
  (mb, mb_view_end mb bottom)

/-- The third block of create_wall of main.c: the view `angleds`. -/
def create_wall_angleds [FloorRing F] (m : math_h F) (mb : mb_t F) (lw sw height angled_width
    angled_length : F) : mb_t F × mb_view_t :=
  let angleds := mb_view_begin mb
  let inset := -(sw + (lw - sw) * 0.5)
  let angled := create_plank_angled m mb angled_length lw sw 45 45
  let mb := mb_view_transform angled.1 angled.2
    (matrix_from m ⟨lw + angled_width, lw, inset⟩ ⟨0, 0, 1⟩ (90 + 45) ⟨1, 1, 1⟩)
  let angled := create_plank_angled m mb angled_length lw sw 45 45
  let mb := mb_view_transform angled.1 angled.2
    (matrix_from m ⟨lw, height - lw - angled_width, inset⟩ ⟨0, 0, 1⟩ 45 ⟨1, 1, 1⟩)
  (mb, mb_view_end mb angleds)

/-- The function create_wall of main.c. -/
def create_wall [FloorRing F] (m : math_h F) (mb : mb_t F) : mb_t F × mb_view_t :=
  let lw : F := 0.12
  let sw : F := 0.06
  let height : F := 2
  let width : F := 1.5 - lw * 2
  let full := mb_view_begin mb
  let side := create_wall_side m mb lw sw height
  let mb := (mb_view_dupe side.1 side.2
    (matrix_from m ⟨width + lw * 2, 0, -(lw + 2 * sw)⟩ ⟨0, 1, 0⟩ 180 ⟨1, 1, 1⟩)).1
  let bottom := create_wall_bottom m mb lw sw width
  let mb := (mb_view_dupe bottom.1 bottom.2
    (matrix_from m ⟨0, height, -(lw + 2 * sw)⟩ ⟨1, 0, 0⟩ 180 ⟨1, 1, 1⟩)).1
  let angled_width := width / 4
  let angled_length := m.sqrtf (angled_width * angled_width * 2)
  let angleds := create_wall_angleds m mb lw sw height angled_width angled_length
  let mb := (mb_view_dupe angleds.1 angleds.2
    (matrix_from m ⟨width + lw * 2, 0, -(lw + sw * 2)⟩ ⟨0, 1, 0⟩ 180 ⟨1, 1, 1⟩)).1
  (mb, mb_view_end mb full)

end generators

/-! ## Vocabulary of the statements -/

section statement_predicates

variable {F : Type} [LinearOrderedField F]

/-- One vertex: the position, normal and texcoord that share an index. -/
@[ext] structure vertex_t (F : Type) where
  position : Vector3 F
  normal : Vector3 F
  texcoord : Vector2 F

/-- The vertex stored at index `i` of a buffer. -/
def mb_get (mb : mb_t F) (i : Nat) : vertex_t F :=
  { position := mb.positions.data i
    normal := mb.normals.data i
    texcoord := mb.texcoords.data i }

/-- The three sequences of a buffer have the same length. -/
def mb_parallel (mb : mb_t F) : Prop :=
  mb.positions.count = mb.normals.count ∧ mb.normals.count = mb.texcoords.count

instance (mb : mb_t F) : Decidable (mb_parallel mb) := by
  unfold mb_parallel; infer_instance

/-- Each of the three sequences of `mb2` is `n` longer than that of `mb1`. -/
def mb_grows (mb1 mb2 : mb_t F) (n : Nat) : Prop :=
  mb2.positions.count = mb1.positions.count + n ∧
  mb2.normals.count = mb1.normals.count + n ∧
  mb2.texcoords.count = mb1.texcoords.count + n

instance (mb1 mb2 : mb_t F) (n : Nat) : Decidable (mb_grows mb1 mb2 n) := by
  unfold mb_grows; infer_instance

/-- A view lies inside a buffer: `start + count <= buffer.count`. -/
def mb_view_in_range (mb : mb_t F) (view : mb_view_t) : Prop :=
  view.vertex_start + view.vertex_count ≤ mb.positions.count

instance (mb : mb_t F) (view : mb_view_t) : Decidable (mb_view_in_range mb view) := by
  unfold mb_view_in_range; infer_instance

/-- Pushing a list of corners into a strip, one mb_strip_push call each, in order. -/
def mb_strip_pushes (strip : mb_strip_t F) (cs : List (vertex_t F)) : mb_strip_t F :=
  cs.foldl (fun s c => mb_strip_push s c.position c.normal c.texcoord) strip

end statement_predicates

section vertex_lists

variable {F : Type} [LinearOrderedField F]

/-- Appending a list of vertices to a buffer, one mb_vertex call each, in order. -/
def mb_vertices (mb : mb_t F) (vs : List (vertex_t F)) : mb_t F :=
  vs.foldl (fun b v => mb_vertex b v.position v.normal v.texcoord) mb

/-- The corner held in slot `i` of the window of a strip. -/
def mb_strip_slot (strip : mb_strip_t F) (i : Nat) : vertex_t F :=
  { position := strip.positions i
    normal := strip.normals i
    texcoord := strip.texcoords i }

end vertex_lists

section face_vertices

variable {F : Type} [LinearOrderedField F]

/-- The six vertices of one tile of create_face, in the order the strip emits them:
corners 0, 1, 2, 3, 2, 1 of the tile with integer origin `(xi, yi)`. -/
def face_tile_vertices (xi yi : Nat) (width height : F) : List (vertex_t F) :=
  let x : F := (xi : F)
  let y : F := (yi : F)
  let c0 : vertex_t F := ⟨⟨x, y, 0⟩, ⟨0, 0, 1⟩, ⟨0, 0⟩⟩
  let c1 : vertex_t F := ⟨⟨x + width, y, 0⟩, ⟨0, 0, 1⟩, ⟨width, 0⟩⟩
  let c2 : vertex_t F := ⟨⟨x, y + height, 0⟩, ⟨0, 0, 1⟩, ⟨0, height⟩⟩
  let c3 : vertex_t F := ⟨⟨x + width, y + height, 0⟩, ⟨0, 0, 1⟩, ⟨width, height⟩⟩
  [c0, c1, c2, c3, c2, c1]

/-- The vertices of `n` consecutive tiles of one row of create_face, starting from the
loop state `(xi, x_left)`. -/
def face_row_vertices (yi : Nat) (height : F) : Nat → F → Nat → List (vertex_t F)
  | _, _, 0 => []
  | xi, x_left, n + 1 =>
    face_tile_vertices xi yi (if x_left > 1 then 1 else x_left) height ++
      face_row_vertices yi height (xi + 1) (x_left - 1) n

/-- The vertices of `k` consecutive rows of create_face, each of `n` tiles, starting
from the loop state `(yi, y_left)`. -/
def face_rows_vertices (xs : F) (n : Nat) : Nat → F → Nat → List (vertex_t F)
  | _, _, 0 => []
  | yi, y_left, k + 1 =>
    face_row_vertices yi (if y_left > 1 then 1 else y_left) 0 xs n ++
      face_rows_vertices xs n (yi + 1) (y_left - 1) k

end face_vertices

section reachability

variable {F : Type} [LinearOrderedField F]

/-- The three sequences of `mb2` are longer than those of `mb1` by one common
amount. -/
def mb_extends (mb1 mb2 : mb_t F) : Prop := ∃ n, mb_grows mb1 mb2 n

/-- The buffers that the kernel can build: from the zeroed buffer of `main` by
mb_vertex, mb_clear, mb_view_copy (into the buffer, from any source), mb_view_transform,
mb_view_dupe, mb_strip_push (through a strip that points to the buffer) and the four
generators. -/
inductive mb_reachable [FloorRing F] (m : math_h F) : mb_t F → Prop
  | zero : mb_reachable m mb_zero
  | vertex (mb : mb_t F) (p n : Vector3 F) (t : Vector2 F) :
      mb_reachable m mb → mb_reachable m (mb_vertex mb p n t)
  | clear (mb : mb_t F) : mb_reachable m mb → mb_reachable m (mb_clear mb)
  | view_copy (mb src : mb_t F) (view : mb_view_t) :
      mb_reachable m mb → mb_reachable m (mb_view_copy mb src view).1
  | view_transform (mb : mb_t F) (view : mb_view_t) (M : Matrix F) :
      mb_reachable m mb → mb_reachable m (mb_view_transform mb view M)
  | view_dupe (mb : mb_t F) (view : mb_view_t) (M : Matrix F) :
      mb_reachable m mb → mb_reachable m (mb_view_dupe mb view M).1
  | strip_push (s : mb_strip_t F) (p n : Vector3 F) (t : Vector2 F) :
      mb_reachable m s.mb → mb_reachable m (mb_strip_push s p n t).mb
  | face (mb : mb_t F) (xs ys : F) :
      mb_reachable m mb → mb_reachable m (create_face mb xs ys).1
  | plank (mb : mb_t F) (xs ys zs : F) :
      mb_reachable m mb → mb_reachable m (create_plank m mb xs ys zs).1
  | plank_angled (mb : mb_t F) (xs ys zs a1 a2 : F) :
      mb_reachable m mb → mb_reachable m (create_plank_angled m mb xs ys zs a1 a2).1
  | wall (mb : mb_t F) : mb_reachable m mb → mb_reachable m (create_wall m mb).1

end reachability

section view_ranges

variable {F : Type} [LinearOrderedField F]

/-- The index `i` lies in the range of a view. -/
def mb_view_mem (view : mb_view_t) (i : Nat) : Prop :=
  view.vertex_start ≤ i ∧ i < view.vertex_start + view.vertex_count

instance (view : mb_view_t) (i : Nat) : Decidable (mb_view_mem view i) := by
  unfold mb_view_mem; infer_instance

end view_ranges

section call_sequences

variable {F : Type} [LinearOrderedField F]

/-- The calls that can stand between mb_view_begin and mb_view_end in a bracket: the
append-only operations on the buffer, and nested mb_view_begin and mb_view_end
calls.  A strip push names the strip, whose `mb` pointer is the buffer; a copy reads
from another buffer or from the buffer itself. -/
inductive mb_call (F : Type) where
  | vertex (position normal : Vector3 F) (texcoord : Vector2 F)
  | strip_push (strip : mb_strip_t F) (position normal : Vector3 F) (texcoord : Vector2 F)
  | view_copy (src : mb_t F) (view : mb_view_t)
  | view_copy_self (view : mb_view_t)
  | view_dupe (view : mb_view_t) (matrix : Matrix F)
  | face (xs ys : F)
  | plank (xs ys zs : F)
  | plank_angled (xs ys zs a1 a2 : F)
  | wall
  | view_begin
  | view_end (view : mb_view_t)

/-- The buffer after one call of a bracket.  mb_view_begin and mb_view_end only read
the buffer. -/
def mb_call_run [FloorRing F] (m : math_h F) (mb : mb_t F) : mb_call F → mb_t F
  | .vertex p n t => mb_vertex mb p n t
  | .strip_push s p n t => (mb_strip_push { s with mb := mb } p n t).mb
  | .view_copy src v => (mb_view_copy mb src v).1
  | .view_copy_self v => (mb_view_copy mb mb v).1
  | .view_dupe v M => (mb_view_dupe mb v M).1
  | .face xs ys => (create_face mb xs ys).1
  | .plank xs ys zs => (create_plank m mb xs ys zs).1
  | .plank_angled xs ys zs a1 a2 => (create_plank_angled m mb xs ys zs a1 a2).1
  | .wall => (create_wall m mb).1
  | .view_begin => mb
  | .view_end _ => mb

/-- The buffer after a sequence of calls, run in order. -/
def mb_calls_run [FloorRing F] (m : math_h F) (mb : mb_t F) (calls : List (mb_call F)) :
    mb_t F :=
  calls.foldl (mb_call_run m) mb

/-- The two calls on a strip. -/
inductive mb_strip_call (F : Type) where
  | push (v : vertex_t F)
  | reset

/-- The strip after one call. -/
def mb_strip_call_run (strip : mb_strip_t F) : mb_strip_call F → mb_strip_t F
  | .push v => mb_strip_push strip v.position v.normal v.texcoord
  | .reset => mb_strip_reset strip

/-- The strip after a sequence of calls, run in order. -/
def mb_strip_calls_run (strip : mb_strip_t F) (calls : List (mb_strip_call F)) : mb_strip_t F :=
  calls.foldl mb_strip_call_run strip

/-- The six vertices a strip emits for the `j`-th quad of the corner sequence `c`:
corners `2j, 2j+1, 2j+2, 2j+3, 2j+2, 2j+1`. -/
def strip_quad (c : Nat → vertex_t F) (j : Nat) : List (vertex_t F) :=
  [c (2 * j), c (2 * j + 1), c (2 * j + 2), c (2 * j + 3), c (2 * j + 2), c (2 * j + 1)]

/-- The vertices of the first `k` quads of the corner sequence `c`. -/
def strip_quads (c : Nat → vertex_t F) : Nat → List (vertex_t F)
  | 0 => []
  | k + 1 => strip_quads c k ++ strip_quad c k

end call_sequences

/-! ## Concrete inputs -/

section concrete_inputs

/-- A rational stand-in for `math.h`, to run the generators on concrete inputs:
`sinf` and `cosf` are Taylor polynomials, `sqrtf` is one Newton step from 1 and
`DEG2RAD` is `(355/113)/180`. -/
def math_rat : math_h ℚ :=
  { sinf := fun x => x - x ^ 3 / 6
    cosf := fun x => 1 - x ^ 2 / 2
    sqrtf := fun x => (1 + x) / 2
    DEG2RAD := 355 / 113 / 180 }

/-- The buffer that holds the single vertex `((1,2,3), (0,0,1), (4,5))`. -/
def mb_one : mb_t ℚ := mb_vertex mb_zero ⟨1, 2, 3⟩ ⟨0, 0, 1⟩ ⟨4, 5⟩

/-- The two-vertex buffer `((1,2,3), (0,0,1), (4,5))`, `((6,7,8), (0,1,0), (9,10))`. -/
def mb_two : mb_t ℚ := mb_vertex mb_one ⟨6, 7, 8⟩ ⟨0, 1, 0⟩ ⟨9, 10⟩

/-- A bracket body on rationals: a nested bracket around `create_face(2.5, 1.0)`, one
direct vertex, and a duplication of the view `(0, 1)`. -/
def calls_example : List (mb_call ℚ) :=
  [mb_call.view_begin, mb_call.face (5 / 2) 1, mb_call.view_end ⟨1, 0⟩,
   mb_call.vertex ⟨0, 0, 0⟩ ⟨0, 0, 1⟩ ⟨0, 0⟩, mb_call.view_dupe ⟨0, 1⟩ MatrixIdentity]

/-- A corner sequence on rationals: corner `i` sits at `(i, 0, 0)` with normal
`(0, 0, 1)` and texcoord `(i, 0)`. -/
def corner_example (i : Nat) : vertex_t ℚ :=
  { position := ⟨(i : ℚ), 0, 0⟩, normal := ⟨0, 0, 1⟩, texcoord := ⟨(i : ℚ), 0⟩ }

/-- A strip on the one-vertex buffer `mb_one` that has buffered corners 0, 1 and 2 of
`corner_example` (fill count 3). -/
def strip_example : mb_strip_t ℚ :=
  mb_strip_pushes (mb_strip_create mb_one)
    [corner_example 0, corner_example 1, corner_example 2]

end concrete_inputs

section face_closed_form_defs

variable {F : Type} [LinearOrderedField F]

/-- The width (or height) of the tile that starts where `x_left` remains: the
clamping `if (width > 1.0f) width = 1.0f` of create_face. -/
def face_tile_size (x_left : F) : F := if x_left > 1 then 1 else x_left

/-- The `j`-th of the six vertices of a tile (`j < 6`), in emission order. -/
def face_tile_vertex (xi yi : Nat) (width height : F) (j : Nat) : vertex_t F :=
  match j with
  | 0 => ⟨⟨(xi : F), (yi : F), 0⟩, ⟨0, 0, 1⟩, ⟨0, 0⟩⟩
  | 1 => ⟨⟨(xi : F) + width, (yi : F), 0⟩, ⟨0, 0, 1⟩, ⟨width, 0⟩⟩
  | 2 => ⟨⟨(xi : F), (yi : F) + height, 0⟩, ⟨0, 0, 1⟩, ⟨0, height⟩⟩
  | 3 => ⟨⟨(xi : F) + width, (yi : F) + height, 0⟩, ⟨0, 0, 1⟩, ⟨width, height⟩⟩
  | 4 => ⟨⟨(xi : F), (yi : F) + height, 0⟩, ⟨0, 0, 1⟩, ⟨0, height⟩⟩
  | _ => ⟨⟨(xi : F) + width, (yi : F), 0⟩, ⟨0, 0, 1⟩, ⟨width, 0⟩⟩

/-- The `i`-th vertex that create_face emits for a face of `a` tiles per row: vertex
`i % 6` of the tile in column `(i / 6) % a` and row `(i / 6) / a`. -/
def face_vertex (xs ys : F) (a i : Nat) : vertex_t F :=
  face_tile_vertex ((i / 6) % a) ((i / 6) / a)
    (face_tile_size (xs - (((i / 6) % a : Nat) : F)))
    (face_tile_size (ys - (((i / 6) / a : Nat) : F))) (i % 6)

end face_closed_form_defs

section emitted_defs

variable {F : Type} [LinearOrderedField F]

/-- The `i`-th vertex that has been appended to `mb` in `mb2`: the position, normal and
texcoord found `i` slots after the old count of their sequence.  When the sequences
of `mb` have equal length this is the vertex of `mb2` at index `old count + i`. -/
def mb_emitted (mb mb2 : mb_t F) (i : Nat) : vertex_t F :=
  { position := mb2.positions.data (mb.positions.count + i)
    normal := mb2.normals.data (mb.normals.count + i)
    texcoord := mb2.texcoords.data (mb.texcoords.count + i) }

/-- The triangle `a, b, c` in the xy-plane is not degenerate and is wound
counter-clockwise when seen from `+z`. -/
def ccw_xy (a b c : Vector3 F) : Prop :=
  (b.x - a.x) * (c.y - a.y) - (b.y - a.y) * (c.x - a.x) > 0

instance (a b c : Vector3 F) : Decidable (ccw_xy a b c) := by
  unfold ccw_xy; infer_instance

end emitted_defs

section plank_angled_stages_defs

variable {F : Type} [LinearOrderedField F]

/-- The miter width `wd1` (or `wd2`) of create_plank_angled for the angle `a`. -/
def miter_width (m : math_h F) (ys a : F) : F :=
  (ys / m.sinf (a * m.DEG2RAD)) * m.sinf ((90 - a) * m.DEG2RAD)

/-- The scale `rat1` (or `rat2`) of create_plank_angled for the miter width `wd`. -/
def miter_ratio (m : math_h F) (ys wd : F) : F :=
  m.sqrtf (wd * wd + ys * ys) / ys

/-- First stage of create_plank_angled: the bottom face and its transform. -/
def create_plank_angled_bottom [FloorRing F] (m : math_h F) (mb : mb_t F) (xs zs : F) :
    mb_t F :=
  mb_view_transform (create_face mb xs zs).1 (create_face mb xs zs).2
    (matrix_from m ⟨0, 0, -zs⟩ ⟨1, 0, 0⟩ 90 ⟨1, 1, 1⟩)

/-- Third stage of create_plank_angled: the face `end1` and its two transforms. -/
def create_plank_angled_end1 [FloorRing F] (m : math_h F) (mb : mb_t F) (ys zs rat1 a1 : F) :
    mb_t F :=
  mb_view_transform
    (mb_view_transform (create_face mb zs ys).1 (create_face mb zs ys).2
      (matrix_from m ⟨0, 0, -zs⟩ ⟨0, 1, 0⟩ (-90) ⟨1, rat1, 1⟩))
    (create_face mb zs ys).2 (matrix_from m ⟨0, 0, 0⟩ ⟨0, 0, 1⟩ (-a1) ⟨1, 1, 1⟩)

/-- Fourth stage of create_plank_angled: the face `end2` and its two transforms. -/
def create_plank_angled_end2 [FloorRing F] (m : math_h F) (mb : mb_t F)
    (xs ys zs rat2 a2 : F) : mb_t F :=
  mb_view_transform
    (mb_view_transform (create_face mb zs ys).1 (create_face mb zs ys).2
      (matrix_from m ⟨0, 0, 0⟩ ⟨0, 1, 0⟩ 90 ⟨1, rat2, 1⟩))
    (create_face mb zs ys).2 (matrix_from m ⟨xs, 0, 0⟩ ⟨0, 0, 1⟩ a2 ⟨1, 1, 1⟩)

/-- Fifth stage of create_plank_angled: the face `side`, its transform and its
duplicate. -/
def create_plank_angled_side [FloorRing F] (m : math_h F) (mb : mb_t F)
    (xs ys zs wd1 wd2 : F) : mb_t F :=
  (mb_view_dupe
    (mb_view_transform (create_face mb (xs - wd1 - wd2) ys).1
      (create_face mb (xs - wd1 - wd2) ys).2
      (matrix_from m ⟨wd1, 0, 0⟩ ⟨0, 0, 1⟩ 0 ⟨1, 1, 1⟩))
    (create_face mb (xs - wd1 - wd2) ys).2
    (matrix_from m ⟨0, ys, -zs⟩ ⟨1, 0, 0⟩ 180 ⟨1, 1, 1⟩)).1

/-- Sixth stage of create_plank_angled: the face `top` and its transform. -/
def create_plank_angled_top [FloorRing F] (m : math_h F) (mb : mb_t F)
    (xs ys zs wd1 wd2 : F) : mb_t F :=
  mb_view_transform (create_face mb (xs - wd1 - wd2) zs).1
    (create_face mb (xs - wd1 - wd2) zs).2
    (matrix_from m ⟨wd1, ys, 0⟩ ⟨1, 0, 0⟩ (-90) ⟨1, 1, 1⟩)

/-- The twelve vertices that create_plank_angled writes with direct mb_vertex calls:
four triangles, the front (`z = 0`) and back (`z = -zs`) end-cap triangle of the first
end and of the second end. -/
def plank_angled_cap_vertices (xs ys zs wd1 wd2 : F) : List (vertex_t F) :=
  [⟨⟨0, 0, 0⟩, ⟨0, 0, 1⟩, ⟨0, 0⟩⟩,
   ⟨⟨wd1, 0, 0⟩, ⟨0, 0, 1⟩, ⟨wd1, 0⟩⟩,
   ⟨⟨wd1, ys, 0⟩, ⟨0, 0, 1⟩, ⟨wd1, ys⟩⟩,
   ⟨⟨0, 0, -zs⟩, ⟨0, 0, -1⟩, ⟨0, 0⟩⟩,
   ⟨⟨wd1, ys, -zs⟩, ⟨0, 0, -1⟩, ⟨wd1, ys⟩⟩,
   ⟨⟨wd1, 0, -zs⟩, ⟨0, 0, -1⟩, ⟨wd1, 0⟩⟩,
   ⟨⟨xs - wd2, 0, 0⟩, ⟨0, 0, 1⟩, ⟨0, 0⟩⟩,
   ⟨⟨xs, 0, 0⟩, ⟨0, 0, 1⟩, ⟨wd2, 0⟩⟩,
   ⟨⟨xs - wd2, ys, 0⟩, ⟨0, 0, 1⟩, ⟨0, ys⟩⟩,
   ⟨⟨xs - wd2, 0, -zs⟩, ⟨0, 0, -1⟩, ⟨0, 0⟩⟩,
   ⟨⟨xs - wd2, ys, -zs⟩, ⟨0, 0, -1⟩, ⟨0, ys⟩⟩,
   ⟨⟨xs, 0, -zs⟩, ⟨0, 0, -1⟩, ⟨wd2, 0⟩⟩]

end plank_angled_stages_defs

section kept_defs

variable {F : Type} [LinearOrderedField F]

/-- The vertex count of a buffer is a value of the `u32` counter. -/
def u32_fits (mb : mb_t F) : Prop := mb.positions.count < 4294967296

instance (mb : mb_t F) : Decidable (u32_fits mb) := by
  unfold u32_fits; infer_instance

/-- The buffer `mb` continues `mb0`: its sequences have equal length, each is longer
than that of `mb0` by one common multiple of three, and every vertex of `mb0` is
still there. -/
def mb_kept (mb0 mb : mb_t F) : Prop :=
  mb_parallel mb ∧ (∃ n, mb_grows mb0 mb (3 * n)) ∧
  ∀ i, i < mb0.positions.count → mb_get mb i = mb_get mb0 i

/-- The buffer `mb` continues `mb0`, provided its count fits the `u32` counter. -/
def mb_kept_if (mb0 mb : mb_t F) : Prop := u32_fits mb → mb_kept mb0 mb

/-- The view `v` lies in `mb`, starts at or after the end of `mb0` and holds a multiple
of three vertices. -/
def mb_view_good (mb0 mb : mb_t F) (v : mb_view_t) : Prop :=
  mb0.positions.count ≤ v.vertex_start ∧ 3 ∣ v.vertex_count ∧
  v.vertex_start + v.vertex_count ≤ mb.positions.count

/-- The view `v` is good in `mb`, provided the count of `mb` fits the `u32` counter. -/
def mb_view_good_if (mb0 mb : mb_t F) (v : mb_view_t) : Prop :=
  u32_fits mb → mb_view_good mb0 mb v

/-- What a generator call `r = G(mb)` owes: it extends the buffer, and when the
sequences of `mb` have equal length and the new count fits the `u32` counter, the new
buffer continues `mb` and the returned view is exactly the appended range. -/
def mb_gen_spec (mb : mb_t F) (r : mb_t F × mb_view_t) : Prop :=
  mb_extends mb r.1 ∧
  (mb_parallel mb → u32_fits r.1 →
    mb_kept mb r.1 ∧ r.2.vertex_start = mb.positions.count ∧
    r.2.vertex_start + r.2.vertex_count = r.1.positions.count)

end kept_defs

section built_defs

variable {F : Type} [LinearOrderedField F]

/-- The returned view is exactly the range the call wrote: it starts at the old vertex
count, ends at the new one, and every vertex below its start is unchanged. -/
def mb_view_owns (mb : mb_t F) (r : mb_t F × mb_view_t) : Prop :=
  r.2.vertex_start = mb.positions.count ∧
  r.2.vertex_start + r.2.vertex_count = r.1.positions.count ∧
  ∀ i, i < r.2.vertex_start → mb_get r.1 i = mb_get mb i

/-- The views that the generators return: the view of a generator call on a buffer
with sequences of equal length whose result fits the `u32` counter. -/
inductive mb_gen_view [FloorRing F] (m : math_h F) : mb_view_t → Prop
  | face (mb : mb_t F) (xs ys : F) :
      mb_parallel mb → u32_fits (create_face mb xs ys).1 →
      mb_gen_view m (create_face mb xs ys).2
  | plank (mb : mb_t F) (xs ys zs : F) :
      mb_parallel mb → u32_fits (create_plank m mb xs ys zs).1 →
      mb_gen_view m (create_plank m mb xs ys zs).2
  | plank_angled (mb : mb_t F) (xs ys zs a1 a2 : F) :
      mb_parallel mb → u32_fits (create_plank_angled m mb xs ys zs a1 a2).1 →
      mb_gen_view m (create_plank_angled m mb xs ys zs a1 a2).2
  | wall (mb : mb_t F) :
      mb_parallel mb → u32_fits (create_wall m mb).1 → mb_gen_view m (create_wall m mb).2

/-- The buffers built from the zeroed buffer by the generators, by mb_view_transform
and by mb_view_dupe of a generator's view, every count fitting the `u32` counter. -/
inductive mb_built [FloorRing F] (m : math_h F) : mb_t F → Prop
  | zero : mb_built m mb_zero
  | face (mb : mb_t F) (xs ys : F) :
      mb_built m mb → u32_fits (create_face mb xs ys).1 → mb_built m (create_face mb xs ys).1
  | plank (mb : mb_t F) (xs ys zs : F) :
      mb_built m mb → u32_fits (create_plank m mb xs ys zs).1 →
      mb_built m (create_plank m mb xs ys zs).1
  | plank_angled (mb : mb_t F) (xs ys zs a1 a2 : F) :
      mb_built m mb → u32_fits (create_plank_angled m mb xs ys zs a1 a2).1 →
      mb_built m (create_plank_angled m mb xs ys zs a1 a2).1
  | wall (mb : mb_t F) :
      mb_built m mb → u32_fits (create_wall m mb).1 → mb_built m (create_wall m mb).1
  | view_transform (mb : mb_t F) (view : mb_view_t) (M : Matrix F) :
      mb_built m mb → mb_built m (mb_view_transform mb view M)
  | view_dupe (mb : mb_t F) (view : mb_view_t) (M : Matrix F) :
      mb_built m mb → mb_gen_view m view → mb_built m (mb_view_dupe mb view M).1

end built_defs

section block_defs

variable {F : Type} [LinearOrderedField F]

/-- A face followed by a transform of its view, as in create_plank_angled
(`bottom`, `top`). -/
def face_transform [FloorRing F] (mb : mb_t F) (xs ys : F) (Mt : Matrix F) : mb_t F :=
  mb_view_transform (create_face mb xs ys).1 (create_face mb xs ys).2 Mt

/-- A face followed by two transforms of its view, as in create_plank_angled
(`end1`, `end2`). -/
def face_transform2 [FloorRing F] (mb : mb_t F) (xs ys : F) (M1 M2 : Matrix F) : mb_t F :=
  mb_view_transform (mb_view_transform (create_face mb xs ys).1 (create_face mb xs ys).2 M1)
    (create_face mb xs ys).2 M2

/-- A face followed by a duplicate of its view, as in create_plank (`front`). -/
def face_dupe [FloorRing F] (mb : mb_t F) (xs ys : F) (Md : Matrix F) : mb_t F :=
  (mb_view_dupe (create_face mb xs ys).1 (create_face mb xs ys).2 Md).1

/-- A face followed by a transform and a duplicate of its view, as in create_plank
(`bottom`, `end`) and create_plank_angled (`side`). -/
def face_transform_dupe [FloorRing F] (mb : mb_t F) (xs ys : F) (Mt Md : Matrix F) : mb_t F :=
  (mb_view_dupe (mb_view_transform (create_face mb xs ys).1 (create_face mb xs ys).2 Mt)
    (create_face mb xs ys).2 Md).1

end block_defs

section plank_positions_defs

variable {F : Type} [LinearOrderedField F]

/-- The number of vertices of a face: six per tile. -/
def face_count [FloorRing F] (xs ys : F) : Nat := 6 * (Int.toNat ⌈xs⌉ * Int.toNat ⌈ys⌉)

/-- The point `p` lies in the axis-aligned box with corners `lo` and `hi`. -/
def in_box (lo hi p : Vector3 F) : Prop :=
  (lo.x ≤ p.x ∧ p.x ≤ hi.x) ∧ (lo.y ≤ p.y ∧ p.y ≤ hi.y) ∧ (lo.z ≤ p.z ∧ p.z ≤ hi.z)

instance (lo hi p : Vector3 F) : Decidable (in_box lo hi p) := by
  unfold in_box; infer_instance

end plank_positions_defs

section quarter_defs

/-- A rational table for `math.h` that is exact at the quarter turns: with angles in
degrees (`DEG2RAD = 1`), `sinf` and `cosf` take their exact values at 90, -90 and 180
(and 0), `sqrtf` is the identity. -/
def math_quarter : math_h ℚ :=
  { sinf := fun x => if x = 90 then 1 else if x = -90 then -1 else 0
    cosf := fun x => if x = 180 then -1 else if x = 90 ∨ x = -90 then 0 else 1
    sqrtf := fun x => x
    DEG2RAD := 1 }

end quarter_defs

section exact_defs

variable {F : Type} [LinearOrderedField F]

/-- Exact arithmetic for the functions of `math.h`: `sinf` is odd, `cosf` is even, their
squares add up to 1, `sin(90 deg - a) = cos(a)`, `sin(90 deg) = 1`, and `sqrtf` gives
the root that is not negative. -/
def math_exact (m : math_h F) : Prop :=
  (∀ x, m.sinf (-x) = -m.sinf x) ∧ (∀ x, m.cosf (-x) = m.cosf x) ∧
  (∀ x, m.sinf x ^ 2 + m.cosf x ^ 2 = 1) ∧
  (∀ a, m.sinf ((90 - a) * m.DEG2RAD) = m.cosf (a * m.DEG2RAD)) ∧
  m.sinf (90 * m.DEG2RAD) = 1 ∧
  (∀ x, 0 ≤ x → 0 ≤ m.sqrtf x ∧ m.sqrtf x * m.sqrtf x = x)

end exact_defs

/-! ## Basic facts about the buffer primitives -/

section lemmas

set_option linter.unusedSectionVars false

variable {F : Type} [LinearOrderedField F]

theorem u32_sub_add (a n : Nat) (h : a + n < 4294967296) : u32_sub (a + n) a = n := by
  unfold u32_sub
  omega

@[simp] theorem store_same {α : Type} (a : Nat → α) (i : Nat) (v : α) : store a i v i = v := by
  simp [store]

@[simp] theorem store_other {α : Type} (a : Nat → α) (i j : Nat) (v : α) (h : j ≠ i) :
    store a i v j = a j := by
  simp [store, h]

@[simp] theorem reserve_count {α : Type} (s : dck_stretchy_t α) (k : Nat) :
    (dck_stretchy_reserve s k).count = s.count := by
  unfold dck_stretchy_reserve; split <;> rfl

@[simp] theorem reserve_data {α : Type} (s : dck_stretchy_t α) (k : Nat) :
    (dck_stretchy_reserve s k).data = s.data := by
  unfold dck_stretchy_reserve; split <;> rfl

theorem reserve_capacity {α : Type} (s : dck_stretchy_t α) (k : Nat) :
    s.count + k ≤ (dck_stretchy_reserve s k).capacity ∧
      s.capacity ≤ (dck_stretchy_reserve s k).capacity := by
  unfold dck_stretchy_reserve; split
  · exact ⟨by assumption, le_rfl⟩
  · simp only [le_max_iff]; omega

@[simp] theorem push_count {α : Type} (s : dck_stretchy_t α) (x : α) :
    (dck_stretchy_push s x).count = s.count + 1 := by
  simp [dck_stretchy_push]

@[simp] theorem push_data {α : Type} (s : dck_stretchy_t α) (x : α) :
    (dck_stretchy_push s x).data = store s.data s.count x := by
  simp [dck_stretchy_push]

theorem mb_grows_refl (mb : mb_t F) : mb_grows mb mb 0 := by
  simp [mb_grows]

theorem mb_grows_trans {a b c : mb_t F} {n k : Nat} (h1 : mb_grows a b n)
    (h2 : mb_grows b c k) : mb_grows a c (n + k) := by
  obtain ⟨p1, n1, t1⟩ := h1
  obtain ⟨p2, n2, t2⟩ := h2
  exact ⟨by omega, by omega, by omega⟩

theorem mb_grows_parallel {a b : mb_t F} {n : Nat} (h : mb_grows a b n) (ha : mb_parallel a) :
    mb_parallel b := by
  obtain ⟨p1, n1, t1⟩ := h
  obtain ⟨e1, e2⟩ := ha
  exact ⟨by omega, by omega⟩

theorem mb_vertex_grows (mb : mb_t F) (p n : Vector3 F) (t : Vector2 F) :
    mb_grows mb (mb_vertex mb p n t) 1 := by
  simp [mb_grows, mb_vertex]

theorem mb_view_copy_grows (dst src : mb_t F) (view : mb_view_t) :
    mb_grows dst (mb_view_copy dst src view).1 view.vertex_count := by
  simp [mb_grows, mb_view_copy]

@[simp] theorem transform_loop_positions_count (M N : Matrix F) (n i : Nat) (mb : mb_t F) :
    (mb_view_transform_loop M N i n mb).positions.count = mb.positions.count := by
  induction n generalizing i mb with
  | zero => rfl
  | succ n ih => simp [mb_view_transform_loop, ih]

@[simp] theorem transform_loop_normals_count (M N : Matrix F) (n i : Nat) (mb : mb_t F) :
    (mb_view_transform_loop M N i n mb).normals.count = mb.normals.count := by
  induction n generalizing i mb with
  | zero => rfl
  | succ n ih => simp [mb_view_transform_loop, ih]

@[simp] theorem transform_loop_texcoords (M N : Matrix F) (n i : Nat) (mb : mb_t F) :
    (mb_view_transform_loop M N i n mb).texcoords = mb.texcoords := by
  induction n generalizing i mb with
  | zero => rfl
  | succ n ih => simp [mb_view_transform_loop, ih]

theorem transform_loop_positions_data (M N : Matrix F) (n i : Nat) (mb : mb_t F) (j : Nat) :
    (mb_view_transform_loop M N i n mb).positions.data j =
      if i ≤ j ∧ j < i + n then Vector3Transform (mb.positions.data j) M
      else mb.positions.data j := by
  induction n generalizing i mb with
  | zero =>
    have h0 : ¬ (i ≤ j ∧ j < i + 0) := by omega
    rw [if_neg h0]; rfl
  | succ n ih =>
    simp only [mb_view_transform_loop, ih]
    by_cases h1 : j = i
    · subst h1; simp
    · by_cases h2 : i + 1 ≤ j ∧ j < i + 1 + n
      · have h3 : i ≤ j ∧ j < i + (n + 1) := by omega
        simp [h1, h2, h3]
      · have h3 : ¬ (i ≤ j ∧ j < i + (n + 1)) := by omega
        simp [h1, h2, h3]

theorem transform_loop_normals_data (M N : Matrix F) (n i : Nat) (mb : mb_t F) (j : Nat) :
    (mb_view_transform_loop M N i n mb).normals.data j =
      if i ≤ j ∧ j < i + n then Vector3Transform (mb.normals.data j) N
      else mb.normals.data j := by
  induction n generalizing i mb with
  | zero =>
    have h0 : ¬ (i ≤ j ∧ j < i + 0) := by omega
    rw [if_neg h0]; rfl
  | succ n ih =>
    simp only [mb_view_transform_loop, ih]
    by_cases h1 : j = i
    · subst h1; simp
    · by_cases h2 : i + 1 ≤ j ∧ j < i + 1 + n
      · have h3 : i ≤ j ∧ j < i + (n + 1) := by omega
        simp [h1, h2, h3]
      · have h3 : ¬ (i ≤ j ∧ j < i + (n + 1)) := by omega
        simp [h1, h2, h3]

theorem mb_view_transform_grows (mb : mb_t F) (view : mb_view_t) (M : Matrix F) :
    mb_grows mb (mb_view_transform mb view M) 0 := by
  simp [mb_grows, mb_view_transform]

theorem mb_view_dupe_grows (mb : mb_t F) (view : mb_view_t) (M : Matrix F) :
    mb_grows mb (mb_view_dupe mb view M).1 view.vertex_count := by
  have h := mb_grows_trans (mb_view_copy_grows mb mb view)
    (mb_view_transform_grows (mb_view_copy mb mb view).1 (mb_view_copy mb mb view).2 M)
  simpa [mb_view_dupe] using h

end lemmas

/-! ## Appending vertices -/

section append_lemmas

set_option linter.unusedSectionVars false

variable {F : Type} [LinearOrderedField F]

@[simp] theorem mb_vertices_nil (mb : mb_t F) : mb_vertices mb [] = mb := rfl

@[simp] theorem mb_vertices_cons (mb : mb_t F) (v : vertex_t F) (vs : List (vertex_t F)) :
    mb_vertices mb (v :: vs) = mb_vertices (mb_vertex mb v.position v.normal v.texcoord) vs := rfl

theorem mb_vertices_append (mb : mb_t F) (vs ws : List (vertex_t F)) :
    mb_vertices mb (vs ++ ws) = mb_vertices (mb_vertices mb vs) ws := by
  simp [mb_vertices, List.foldl_append]

theorem mb_vertices_grows (mb : mb_t F) (vs : List (vertex_t F)) :
    mb_grows mb (mb_vertices mb vs) vs.length := by
  induction vs generalizing mb with
  | nil => exact mb_grows_refl mb
  | cons v vs ih =>
    have h := mb_grows_trans (mb_vertex_grows mb v.position v.normal v.texcoord) (ih _)
    simpa [Nat.add_comm] using h

/-- What mb_vertices leaves alone: every slot of each sequence below that sequence's
old count. -/
theorem mb_vertices_frame (mb : mb_t F) (vs : List (vertex_t F)) :
    (∀ j, j < mb.positions.count →
      (mb_vertices mb vs).positions.data j = mb.positions.data j) ∧
    (∀ j, j < mb.normals.count →
      (mb_vertices mb vs).normals.data j = mb.normals.data j) ∧
    (∀ j, j < mb.texcoords.count →
      (mb_vertices mb vs).texcoords.data j = mb.texcoords.data j) := by
  induction vs generalizing mb with
  | nil => simp
  | cons v vs ih =>
    obtain ⟨hp, hn, ht⟩ := ih (mb_vertex mb v.position v.normal v.texcoord)
    refine ⟨fun j hj => ?_, fun j hj => ?_, fun j hj => ?_⟩
    · rw [mb_vertices_cons, hp j (by simp [mb_vertex]; omega)]
      simp [mb_vertex, store, Nat.ne_of_lt hj]
    · rw [mb_vertices_cons, hn j (by simp [mb_vertex]; omega)]
      simp [mb_vertex, store, Nat.ne_of_lt hj]
    · rw [mb_vertices_cons, ht j (by simp [mb_vertex]; omega)]
      simp [mb_vertex, store, Nat.ne_of_lt hj]

/-- What mb_vertices writes: the `i`-th vertex of the list lands `i` slots after the
old count of each sequence. -/
theorem mb_vertices_new (mb : mb_t F) (vs : List (vertex_t F)) (i : Nat) (v : vertex_t F)
    (h : vs[i]? = some v) :
    (mb_vertices mb vs).positions.data (mb.positions.count + i) = v.position ∧
    (mb_vertices mb vs).normals.data (mb.normals.count + i) = v.normal ∧
    (mb_vertices mb vs).texcoords.data (mb.texcoords.count + i) = v.texcoord := by
  induction vs generalizing mb i with
  | nil => simp at h
  | cons w vs ih =>
    cases i with
    | zero =>
      simp at h
      subst h
      obtain ⟨hp, hn, ht⟩ := mb_vertices_frame (mb_vertex mb w.position w.normal w.texcoord) vs
      rw [mb_vertices_cons]
      refine ⟨?_, ?_, ?_⟩
      · rw [Nat.add_zero, hp _ (by simp [mb_vertex])]; simp [mb_vertex]
      · rw [Nat.add_zero, hn _ (by simp [mb_vertex])]; simp [mb_vertex]
      · rw [Nat.add_zero, ht _ (by simp [mb_vertex])]; simp [mb_vertex]
    | succ i =>
      simp at h
      have h2 := ih (mb_vertex mb w.position w.normal w.texcoord) i h
      simp only [mb_vertex, push_count] at h2
      rw [mb_vertices_cons]
      simpa [mb_vertex, Nat.add_assoc, Nat.add_comm 1 i] using h2

end append_lemmas

/-! ## The strip emitter -/

section strip_lemmas

set_option linter.unusedSectionVars false

variable {F : Type} [LinearOrderedField F]

/-- A push that does not fill the window only writes the window slot. -/
theorem mb_strip_push_below (s : mb_strip_t F) (p n : Vector3 F) (t : Vector2 F)
    (h : s.count + 1 ≠ 4) :
    mb_strip_push s p n t =
      { s with
        positions := store s.positions s.count p
        normals := store s.normals s.count n
        texcoords := store s.texcoords s.count t
        count := s.count + 1 } := by
  simp [mb_strip_push, h]

/-- The push that fills the window: buffer, window and count afterwards. -/
theorem mb_strip_push_flush (s : mb_strip_t F) (p n : Vector3 F) (t : Vector2 F)
    (h : s.count = 3) :
    (mb_strip_push s p n t).mb =
      mb_vertices s.mb [mb_strip_slot s 0, mb_strip_slot s 1, mb_strip_slot s 2, ⟨p, n, t⟩,
        mb_strip_slot s 2, mb_strip_slot s 1] ∧
    mb_strip_slot (mb_strip_push s p n t) 0 = mb_strip_slot s 2 ∧
    mb_strip_slot (mb_strip_push s p n t) 1 = ⟨p, n, t⟩ ∧
    (mb_strip_push s p n t).count = 2 ∧
    (mb_strip_push s p n t).vertex_start = s.vertex_start := by
  simp [mb_strip_push, h, mb_vertices, mb_strip_slot, store]

@[simp] theorem mb_strip_push_vertex_start (s : mb_strip_t F) (p n : Vector3 F) (t : Vector2 F) :
    (mb_strip_push s p n t).vertex_start = s.vertex_start := by
  unfold mb_strip_push; simp only; split <;> rfl

theorem mb_strip_push_grows (s : mb_strip_t F) (p n : Vector3 F) (t : Vector2 F) :
    mb_grows s.mb (mb_strip_push s p n t).mb (if s.count + 1 = 4 then 6 else 0) := by
  by_cases h : s.count + 1 = 4
  · have h3 : s.count = 3 := by omega
    rw [if_pos h, (mb_strip_push_flush s p n t h3).1]
    exact mb_vertices_grows _ _
  · rw [if_neg h, mb_strip_push_below s p n t h]
    exact mb_grows_refl _

end strip_lemmas

/-! ## The face generator -/

section face_lemmas

set_option linter.unusedSectionVars false

variable {F : Type} [LinearOrderedField F]

/-- One tile: six vertices appended, whatever the window held before. -/
theorem create_face_tile_spec (s : mb_strip_t F) (xi yi : Nat) (width height : F) :
    (create_face_tile s xi yi width height).mb =
      mb_vertices s.mb (face_tile_vertices xi yi width height) ∧
    (create_face_tile s xi yi width height).vertex_start = s.vertex_start := by
  simp [create_face_tile, mb_strip_reset, mb_strip_push, mb_vertices, face_tile_vertices, store]

theorem face_row_vertices_length (yi : Nat) (height : F) (n xi : Nat) (x_left : F) :
    (face_row_vertices yi height xi x_left n).length = 6 * n := by
  induction n generalizing xi x_left with
  | zero => rfl
  | succ n ih => simp [face_row_vertices, ih, face_tile_vertices]; omega

theorem face_rows_vertices_length (xs : F) (n k yi : Nat) (y_left : F) :
    (face_rows_vertices xs n yi y_left k).length = 6 * n * k := by
  induction k generalizing yi y_left with
  | zero => rfl
  | succ k ih =>
    simp [face_rows_vertices, ih, face_row_vertices_length]
    ring

variable [FloorRing F]

/-- The inner loop terminates after `ceil x_left` tiles (none when `x_left <= 0`) and
appends their vertices. -/
theorem create_face_row_spec (yi : Nat) (height : F) (n : Nat) (s : mb_strip_t F) (xi : Nat)
    (x_left : F) (hn : Int.toNat ⌈x_left⌉ = n) :
    (create_face_row s yi height xi x_left).mb =
      mb_vertices s.mb (face_row_vertices yi height xi x_left n) ∧
    (create_face_row s yi height xi x_left).vertex_start = s.vertex_start := by
  induction n generalizing s xi x_left with
  | zero =>
    have h0 : ¬ x_left > 0 := by
      intro h
      have := Int.ceil_pos.mpr h
      omega
    rw [create_face_row, if_neg h0]
    simp [face_row_vertices]
  | succ n ih =>
    have h0 : x_left > 0 := by
      by_contra h
      have : ⌈x_left⌉ ≤ 0 := Int.ceil_le.mpr (by simpa using h)
      omega
    have h1 : Int.toNat ⌈x_left - 1⌉ = n := by
      rw [Int.ceil_sub_one]; omega
    rw [create_face_row, if_pos h0]
    obtain ⟨e1, e2⟩ := ih (create_face_tile s xi yi (if x_left > 1 then 1 else x_left) height)
      (xi + 1) (x_left - 1) h1
    obtain ⟨t1, t2⟩ := create_face_tile_spec s xi yi (if x_left > 1 then 1 else x_left) height
    simp only [e1, e2, t1, t2, face_row_vertices, mb_vertices_append, and_self]

/-- The outer loop terminates after `ceil y_left` rows (none when `y_left <= 0`). -/
theorem create_face_rows_spec (xs : F) (k : Nat) (s : mb_strip_t F) (yi : Nat)
    (y_left : F) (hk : Int.toNat ⌈y_left⌉ = k) :
    (create_face_rows s xs yi y_left).mb =
      mb_vertices s.mb (face_rows_vertices xs (Int.toNat ⌈xs⌉) yi y_left k) ∧
    (create_face_rows s xs yi y_left).vertex_start = s.vertex_start := by
  induction k generalizing s yi y_left with
  | zero =>
    have h0 : ¬ y_left > 0 := by
      intro h
      have := Int.ceil_pos.mpr h
      omega
    rw [create_face_rows, if_neg h0]
    simp [face_rows_vertices]
  | succ k ih =>
    have h0 : y_left > 0 := by
      by_contra h
      have : ⌈y_left⌉ ≤ 0 := Int.ceil_le.mpr (by simpa using h)
      omega
    have h1 : Int.toNat ⌈y_left - 1⌉ = k := by
      rw [Int.ceil_sub_one]; omega
    rw [create_face_rows, if_pos h0]
    obtain ⟨e1, e2⟩ := ih (create_face_row s yi (if y_left > 1 then 1 else y_left) 0 xs)
      (yi + 1) (y_left - 1) h1
    obtain ⟨r1, r2⟩ := create_face_row_spec yi (if y_left > 1 then 1 else y_left)
      (Int.toNat ⌈xs⌉) s 0 xs rfl
    simp only [e1, e2, r1, r2, face_rows_vertices, mb_vertices_append, and_self]

/-- The buffer create_face returns: the old buffer with the vertices of all tiles
appended. -/
theorem create_face_mb (mb : mb_t F) (xs ys : F) :
    (create_face mb xs ys).1 =
      mb_vertices mb (face_rows_vertices xs (Int.toNat ⌈xs⌉) 0 ys (Int.toNat ⌈ys⌉)) := by
  have h := (create_face_rows_spec xs (Int.toNat ⌈ys⌉) (mb_strip_create mb) 0 ys rfl).1
  simpa [create_face, mb_strip_create] using h

theorem create_face_grows (mb : mb_t F) (xs ys : F) :
    mb_grows mb (create_face mb xs ys).1 (6 * Int.toNat ⌈xs⌉ * Int.toNat ⌈ys⌉) := by
  rw [create_face_mb]
  have h := mb_vertices_grows mb (face_rows_vertices xs (Int.toNat ⌈xs⌉) 0 ys (Int.toNat ⌈ys⌉))
  rwa [face_rows_vertices_length] at h

/-- The view create_face returns starts at the old vertex count. -/
theorem create_face_view (mb : mb_t F) (xs ys : F) :
    (create_face mb xs ys).2 =
      { vertex_start := mb.positions.count
        vertex_count := u32_sub (create_face mb xs ys).1.positions.count mb.positions.count } := by
  have h := (create_face_rows_spec xs (Int.toNat ⌈ys⌉) (mb_strip_create mb) 0 ys rfl).2
  simp only [create_face, mb_strip_get_view, h]
  simp [mb_strip_create]

end face_lemmas

/-! ## Every operation but mb_clear extends the buffer -/

section extends_lemmas

set_option linter.unusedSectionVars false

variable {F : Type} [LinearOrderedField F]

theorem mb_extends_refl (mb : mb_t F) : mb_extends mb mb := ⟨0, mb_grows_refl mb⟩

theorem mb_extends_trans {a b c : mb_t F} (h1 : mb_extends a b) (h2 : mb_extends b c) :
    mb_extends a c := by
  obtain ⟨n, hn⟩ := h1
  obtain ⟨k, hk⟩ := h2
  exact ⟨n + k, mb_grows_trans hn hk⟩

theorem mb_extends_parallel {a b : mb_t F} (h : mb_extends a b) (ha : mb_parallel a) :
    mb_parallel b := by
  obtain ⟨n, hn⟩ := h
  exact mb_grows_parallel hn ha

theorem mb_extends_le {a b : mb_t F} (h : mb_extends a b) :
    a.positions.count ≤ b.positions.count := by
  obtain ⟨n, hn, _⟩ := h
  omega

theorem mb_vertex_extends (mb : mb_t F) (p n : Vector3 F) (t : Vector2 F) :
    mb_extends mb (mb_vertex mb p n t) := ⟨1, mb_vertex_grows mb p n t⟩

theorem mb_view_copy_extends (dst src : mb_t F) (view : mb_view_t) :
    mb_extends dst (mb_view_copy dst src view).1 := ⟨_, mb_view_copy_grows dst src view⟩

theorem mb_view_transform_extends (mb : mb_t F) (view : mb_view_t) (M : Matrix F) :
    mb_extends mb (mb_view_transform mb view M) := ⟨0, mb_view_transform_grows mb view M⟩

theorem mb_view_dupe_extends (mb : mb_t F) (view : mb_view_t) (M : Matrix F) :
    mb_extends mb (mb_view_dupe mb view M).1 := ⟨_, mb_view_dupe_grows mb view M⟩

theorem mb_strip_push_extends (s : mb_strip_t F) (p n : Vector3 F) (t : Vector2 F) :
    mb_extends s.mb (mb_strip_push s p n t).mb := ⟨_, mb_strip_push_grows s p n t⟩

theorem create_plank_angled_caps_grows (mb : mb_t F) (xs ys zs wd1 wd2 : F) :
    mb_grows mb (create_plank_angled_caps mb xs ys zs wd1 wd2) 12 := by
  simp [mb_grows, create_plank_angled_caps, mb_vertex]

theorem create_plank_angled_caps_extends (mb : mb_t F) (xs ys zs wd1 wd2 : F) :
    mb_extends mb (create_plank_angled_caps mb xs ys zs wd1 wd2) :=
  ⟨12, create_plank_angled_caps_grows mb xs ys zs wd1 wd2⟩

variable [FloorRing F]

theorem create_face_extends (mb : mb_t F) (xs ys : F) :
    mb_extends mb (create_face mb xs ys).1 := ⟨_, create_face_grows mb xs ys⟩

theorem create_plank_extends (m : math_h F) (mb : mb_t F) (xs ys zs : F) :
    mb_extends mb (create_plank m mb xs ys zs).1 := by
  simp only [create_plank]
  repeat first
    | with_reducible refine mb_extends_trans ?_ (create_face_extends _ _ _)
    | with_reducible refine mb_extends_trans ?_ (mb_view_dupe_extends _ _ _)
    | with_reducible refine mb_extends_trans ?_ (mb_view_transform_extends _ _ _)
  exact mb_extends_refl _

theorem create_plank_angled_extends (m : math_h F) (mb : mb_t F) (xs ys zs a1 a2 : F) :
    mb_extends mb (create_plank_angled m mb xs ys zs a1 a2).1 := by
  simp only [create_plank_angled]
  repeat first
    | with_reducible refine mb_extends_trans ?_ (create_face_extends _ _ _)
    | with_reducible refine mb_extends_trans ?_ (create_plank_angled_caps_extends _ _ _ _ _ _)
    | with_reducible refine mb_extends_trans ?_ (mb_view_dupe_extends _ _ _)
    | with_reducible refine mb_extends_trans ?_ (mb_view_transform_extends _ _ _)
  exact mb_extends_refl _

theorem create_wall_side_extends (m : math_h F) (mb : mb_t F) (lw sw height : F) :
    mb_extends mb (create_wall_side m mb lw sw height).1 := by
  simp only [create_wall_side]
  repeat first
    | with_reducible refine mb_extends_trans ?_ (create_plank_extends _ _ _ _ _)
    | with_reducible refine mb_extends_trans ?_ (mb_view_dupe_extends _ _ _)
    | with_reducible refine mb_extends_trans ?_ (mb_view_transform_extends _ _ _)
  exact mb_extends_refl _

theorem create_wall_bottom_extends (m : math_h F) (mb : mb_t F) (lw sw width : F) :
    mb_extends mb (create_wall_bottom m mb lw sw width).1 := by
  simp only [create_wall_bottom]
  repeat first
    | with_reducible refine mb_extends_trans ?_ (create_plank_extends _ _ _ _ _)
    | with_reducible refine mb_extends_trans ?_ (mb_view_dupe_extends _ _ _)
    | with_reducible refine mb_extends_trans ?_ (mb_view_transform_extends _ _ _)
  exact mb_extends_refl _

theorem create_wall_angleds_extends (m : math_h F) (mb : mb_t F)
    (lw sw height angled_width angled_length : F) :
    mb_extends mb (create_wall_angleds m mb lw sw height angled_width angled_length).1 := by
  simp only [create_wall_angleds]
  repeat first
    | with_reducible refine mb_extends_trans ?_ (create_plank_angled_extends _ _ _ _ _ _ _)
    | with_reducible refine mb_extends_trans ?_ (mb_view_transform_extends _ _ _)
  exact mb_extends_refl _

theorem create_wall_extends (m : math_h F) (mb : mb_t F) :
    mb_extends mb (create_wall m mb).1 := by
  simp only [create_wall]
  repeat first
    | with_reducible refine mb_extends_trans ?_ (create_wall_side_extends _ _ _ _ _)
    | with_reducible refine mb_extends_trans ?_ (create_wall_bottom_extends _ _ _ _ _)
    | with_reducible refine mb_extends_trans ?_ (create_wall_angleds_extends _ _ _ _ _ _ _)
    | with_reducible refine mb_extends_trans ?_ (mb_view_dupe_extends _ _ _)
  exact mb_extends_refl _

end extends_lemmas

/-! ## raymath -/

section raymath_lemmas

set_option linter.unusedSectionVars false

variable {F : Type} [LinearOrderedField F]

set_option maxHeartbeats 2000000 in
/-- When the determinant is not zero, `MatrixInvert` returns the two-sided inverse. -/
theorem MatrixInvert_mul (M : Matrix F) (h : MatrixDeterminant M ≠ 0) :
    MatrixMultiply (MatrixInvert M) M = MatrixIdentity ∧
    MatrixMultiply M (MatrixInvert M) = MatrixIdentity := by
  obtain ⟨m0, m4, m8, m12, m1, m5, m9, m13, m2, m6, m10, m14, m3, m7, m11, m15⟩ := M
  simp only [MatrixDeterminant] at h
  have hde := mul_one_div_cancel h
  simp only [MatrixMultiply, MatrixInvert, MatrixIdentity, Matrix.mk.injEq]
  generalize 1 / ((m0 * m5 - m1 * m4) * (m10 * m15 - m11 * m14) -
            (m0 * m6 - m2 * m4) * (m9 * m15 - m11 * m13) +
          (m0 * m7 - m3 * m4) * (m9 * m14 - m10 * m13) +
        (m1 * m6 - m2 * m5) * (m8 * m15 - m11 * m12) -
      (m1 * m7 - m3 * m5) * (m8 * m14 - m10 * m12) +
    (m2 * m7 - m3 * m6) * (m8 * m13 - m9 * m12)) = e at hde ⊢
  refine ⟨⟨?_, ?_, ?_, ?_, ?_, ?_, ?_, ?_, ?_, ?_, ?_, ?_, ?_, ?_, ?_, ?_⟩,
    ⟨?_, ?_, ?_, ?_, ?_, ?_, ?_, ?_, ?_, ?_, ?_, ?_, ?_, ?_, ?_, ?_⟩⟩ <;>
  first | ring1 | linear_combination hde

end raymath_lemmas

/-! ## Copy, transform, duplicate -/

section view_lemmas

set_option linter.unusedSectionVars false

variable {F : Type} [LinearOrderedField F]

/-- The vertex that mb_view_copy leaves at index `j` of the destination. -/
theorem mb_view_copy_get (dst src : mb_t F) (view : mb_view_t) (j : Nat) :
    mb_get (mb_view_copy dst src view).1 j =
      if dst.positions.count ≤ j ∧ j < dst.positions.count + view.vertex_count then
        mb_get src (view.vertex_start + (j - dst.positions.count))
      else mb_get dst j := by
  by_cases h : dst.positions.count ≤ j ∧ j < dst.positions.count + view.vertex_count
  · simp [mb_get, mb_view_copy, memcpy, h]
  · simp [mb_get, mb_view_copy, memcpy, h]

theorem mb_view_copy_view (dst src : mb_t F) (view : mb_view_t) :
    (mb_view_copy dst src view).2 =
      { vertex_start := dst.positions.count, vertex_count := view.vertex_count } := rfl

/-- The vertex that mb_view_transform leaves at index `j`. -/
theorem mb_view_transform_get (mb : mb_t F) (view : mb_view_t) (M : Matrix F) (j : Nat) :
    mb_get (mb_view_transform mb view M) j =
      if mb_view_mem view j then
        { position := Vector3Transform (mb.positions.data j) M
          normal := Vector3Transform (mb.normals.data j) (MatrixTranspose (MatrixInvert M))
          texcoord := mb.texcoords.data j }
      else mb_get mb j := by
  simp only [mb_get, mb_view_transform, transform_loop_positions_data,
    transform_loop_normals_data, transform_loop_texcoords, mb_view_mem]
  split <;> rfl

theorem mb_view_dupe_view (mb : mb_t F) (view : mb_view_t) (M : Matrix F) :
    (mb_view_dupe mb view M).2 =
      { vertex_start := mb.positions.count, vertex_count := view.vertex_count } := rfl

/-- Below the old vertex count mb_view_dupe changes nothing. -/
theorem mb_view_dupe_frame (mb : mb_t F) (view : mb_view_t) (M : Matrix F) (j : Nat)
    (hj : j < mb.positions.count) : mb_get (mb_view_dupe mb view M).1 j = mb_get mb j := by
  have h1 : ¬ mb_view_mem (mb_view_copy mb mb view).2 j := by
    simp only [mb_view_copy_view, mb_view_mem]; omega
  have h2 : ¬ (mb.positions.count ≤ j ∧ j < mb.positions.count + view.vertex_count) := by
    omega
  simp only [mb_view_dupe, mb_view_transform_get, if_neg h1, mb_view_copy_get, if_neg h2]

/-- The vertices that mb_view_dupe appends: the copy of vertex `view.vertex_start + i`
sits at index `old count + i`, its position transformed by the matrix, its normal by
the transpose of the inverse, its texcoord as it was. -/
theorem mb_view_dupe_new (mb : mb_t F) (view : mb_view_t) (M : Matrix F) (i : Nat)
    (hi : i < view.vertex_count) :
    mb_get (mb_view_dupe mb view M).1 (mb.positions.count + i) =
      { position := Vector3Transform (mb_get mb (view.vertex_start + i)).position M
        normal := Vector3Transform (mb_get mb (view.vertex_start + i)).normal
          (MatrixTranspose (MatrixInvert M))
        texcoord := (mb_get mb (view.vertex_start + i)).texcoord } := by
  have hmem : mb_view_mem (mb_view_copy mb mb view).2 (mb.positions.count + i) := by
    simp only [mb_view_copy_view, mb_view_mem]; omega
  have h := mb_view_transform_get (mb_view_copy mb mb view).1 (mb_view_copy mb mb view).2 M
    (mb.positions.count + i)
  rw [if_pos hmem] at h
  have hc := mb_view_copy_get mb mb view (mb.positions.count + i)
  rw [if_pos (by omega), Nat.add_sub_cancel_left] at hc
  have hp := congrArg vertex_t.position hc
  have hn := congrArg vertex_t.normal hc
  have ht := congrArg vertex_t.texcoord hc
  simp only [mb_get] at hp hn ht
  simp only [mb_view_dupe, mb_get] at h ⊢
  rw [h, hp, hn, ht]

end view_lemmas

/-! ## The strip recurrence -/

section recurrence_lemmas

set_option linter.unusedSectionVars false

variable {F : Type} [LinearOrderedField F]

theorem strip_quads_length (c : Nat → vertex_t F) (k : Nat) :
    (strip_quads c k).length = 6 * k := by
  induction k with
  | zero => rfl
  | succ k ih => simp [strip_quads, strip_quad, ih]; omega

theorem strip_quads_get (c : Nat → vertex_t F) (k j i : Nat) (hj : j < k) (hi : i < 6) :
    (strip_quads c k)[6 * j + i]? = (strip_quad c j)[i]? := by
  induction k with
  | zero => omega
  | succ k ih =>
    by_cases h : j < k
    · rw [strip_quads, List.getElem?_append_left (by rw [strip_quads_length]; omega)]
      exact ih h
    · have hjk : j = k := by omega
      subst hjk
      rw [strip_quads, List.getElem?_append_right (by rw [strip_quads_length]; omega),
        strip_quads_length, Nat.add_sub_cancel_left]

theorem mb_strip_pushes_append (s : mb_strip_t F) (xs ys : List (vertex_t F)) :
    mb_strip_pushes s (xs ++ ys) = mb_strip_pushes (mb_strip_pushes s xs) ys := by
  simp [mb_strip_pushes, List.foldl_append]

theorem range_two_more (k : Nat) :
    List.range (2 * (k + 1) + 2) = List.range (2 * k + 2) ++ [2 * k + 2, 2 * k + 3] := by
  have h : 2 * (k + 1) + 2 = (2 * k + 2 + 1) + 1 := by ring
  rw [h, List.range_succ, List.range_succ]
  simp

/-- The state of a strip that had fill count 0 after `2k + 2` pushes: the window holds
the last two corners, and the buffer has received the first `k` quads. -/
theorem mb_strip_pushes_pairs (s : mb_strip_t F) (c : Nat → vertex_t F) (k : Nat)
    (h0 : s.count = 0) :
    (mb_strip_pushes s ((List.range (2 * k + 2)).map c)).count = 2 ∧
    mb_strip_slot (mb_strip_pushes s ((List.range (2 * k + 2)).map c)) 0 = c (2 * k) ∧
    mb_strip_slot (mb_strip_pushes s ((List.range (2 * k + 2)).map c)) 1 = c (2 * k + 1) ∧
    (mb_strip_pushes s ((List.range (2 * k + 2)).map c)).vertex_start = s.vertex_start ∧
    (mb_strip_pushes s ((List.range (2 * k + 2)).map c)).mb =
      mb_vertices s.mb (strip_quads c k) := by
  induction k with
  | zero =>
    simp [mb_strip_pushes, List.range_succ, mb_strip_push, h0, mb_strip_slot, store,
      strip_quads]
  | succ k ih =>
    obtain ⟨hc, hs0, hs1, hv, hmb⟩ := ih
    rw [range_two_more, List.map_append, mb_strip_pushes_append]
    generalize mb_strip_pushes s ((List.range (2 * k + 2)).map c) = s1 at hc hs0 hs1 hv hmb
    have e1 := mb_strip_push_below s1 (c (2 * k + 2)).position (c (2 * k + 2)).normal
      (c (2 * k + 2)).texcoord (by omega)
    have hmid : mb_strip_pushes s1 ([2 * k + 2, 2 * k + 3].map c) =
        mb_strip_push (mb_strip_push s1 (c (2 * k + 2)).position (c (2 * k + 2)).normal
          (c (2 * k + 2)).texcoord) (c (2 * k + 3)).position (c (2 * k + 3)).normal
          (c (2 * k + 3)).texcoord := rfl
    rw [hmid]
    generalize hs2 : mb_strip_push s1 (c (2 * k + 2)).position (c (2 * k + 2)).normal
      (c (2 * k + 2)).texcoord = s2 at e1 ⊢
    have hc2 : s2.count = 3 := by rw [e1]; simp [hc]
    have hm2 : s2.mb = s1.mb := by rw [e1]
    have hv2 : s2.vertex_start = s1.vertex_start := by rw [e1]
    have hq0 : mb_strip_slot s2 0 = c (2 * k) := by
      rw [← hs0, e1]; simp [mb_strip_slot, store, hc]
    have hq1 : mb_strip_slot s2 1 = c (2 * k + 1) := by
      rw [← hs1, e1]; simp [mb_strip_slot, store, hc]
    have hq2 : mb_strip_slot s2 2 = c (2 * k + 2) := by
      rw [e1]; simp [mb_strip_slot, store, hc]
    obtain ⟨f1, f2, f3, f4, f5⟩ := mb_strip_push_flush s2 (c (2 * k + 3)).position
      (c (2 * k + 3)).normal (c (2 * k + 3)).texcoord hc2
    refine ⟨f4, ?_, ?_, ?_, ?_⟩
    · rw [f2, hq2]; congr 1
    · rw [f3]; congr 1
    · rw [f5, hv2, hv]
    · rw [f1, hm2, hmb, hq0, hq1, hq2, strip_quads, mb_vertices_append]
      rfl

end recurrence_lemmas

section face_closed_form_lemmas

set_option linter.unusedSectionVars false

variable {F : Type} [LinearOrderedField F]

theorem face_tile_vertices_get (xi yi : Nat) (width height : F) (j : Nat) (hj : j < 6) :
    (face_tile_vertices xi yi width height)[j]? =
      some (face_tile_vertex xi yi width height j) := by
  have h : j = 0 ∨ j = 1 ∨ j = 2 ∨ j = 3 ∨ j = 4 ∨ j = 5 := by omega
  rcases h with rfl | rfl | rfl | rfl | rfl | rfl <;> rfl

theorem face_row_vertices_get (yi : Nat) (height : F) (n xi : Nat) (x_left : F) (t j : Nat)
    (ht : t < n) (hj : j < 6) :
    (face_row_vertices yi height xi x_left n)[6 * t + j]? =
      some (face_tile_vertex (xi + t) yi (face_tile_size (x_left - (t : F))) height j) := by
  induction n generalizing xi x_left t with
  | zero => omega
  | succ n ih =>
    cases t with
    | zero =>
      rw [face_row_vertices, List.getElem?_append_left (by simp [face_tile_vertices]; omega)]
      simpa [face_tile_size] using face_tile_vertices_get xi yi _ height j hj
    | succ t =>
      have hlen : (face_tile_vertices xi yi (if x_left > 1 then 1 else x_left) height).length
          = 6 := rfl
      rw [face_row_vertices, List.getElem?_append_right (by rw [hlen]; omega), hlen]
      have hidx : 6 * (t + 1) + j - 6 = 6 * t + j := by omega
      rw [hidx, ih (xi + 1) (x_left - 1) t (by omega)]
      have e1 : xi + 1 + t = xi + (t + 1) := by omega
      have e2 : x_left - 1 - (t : F) = x_left - ((t + 1 : Nat) : F) := by push_cast; ring
      rw [e1, e2]

theorem face_rows_vertices_get (xs : F) (a k yi : Nat) (y_left : F) (r t j : Nat)
    (hr : r < k) (ht : t < a) (hj : j < 6) :
    (face_rows_vertices xs a yi y_left k)[6 * (a * r + t) + j]? =
      some (face_tile_vertex t (yi + r) (face_tile_size (xs - (t : F)))
        (face_tile_size (y_left - (r : F))) j) := by
  induction k generalizing yi y_left r with
  | zero => omega
  | succ k ih =>
    cases r with
    | zero =>
      rw [face_rows_vertices, List.getElem?_append_left
        (by rw [face_row_vertices_length]; simp; omega)]
      have h := face_row_vertices_get yi (if y_left > 1 then 1 else y_left) a 0 xs t j ht hj
      simpa [face_tile_size] using h
    | succ r =>
      have hlen := face_row_vertices_length yi (if y_left > 1 then 1 else y_left) a 0 xs
      rw [face_rows_vertices, List.getElem?_append_right (by rw [hlen]; nlinarith), hlen]
      have hidx : 6 * (a * (r + 1) + t) + j - 6 * a = 6 * (a * r + t) + j := by
        have : 6 * (a * (r + 1) + t) + j = 6 * a + (6 * (a * r + t) + j) := by ring
        omega
      rw [hidx, ih (yi + 1) (y_left - 1) r (by omega)]
      have e1 : yi + 1 + r = yi + (r + 1) := by omega
      have e2 : y_left - 1 - (r : F) = y_left - ((r + 1 : Nat) : F) := by push_cast; ring
      rw [e1, e2]

/-- Closed form of the list of vertices of a face: its `i`-th element. -/
theorem face_rows_vertices_vertex (xs ys : F) (a b i : Nat) (hi : i < 6 * a * b) :
    (face_rows_vertices xs a 0 ys b)[i]? = some (face_vertex xs ys a i) := by
  have ha : 0 < a := by
    rcases Nat.eq_zero_or_pos a with h | h
    · subst h; omega
    · exact h
  have hT : i / 6 < a * b := by
    rw [Nat.div_lt_iff_lt_mul (by norm_num)]
    calc i < 6 * a * b := hi
      _ = a * b * 6 := by ring
  have hr : (i / 6) / a < b := by
    rw [Nat.div_lt_iff_lt_mul ha]
    calc i / 6 < a * b := hT
      _ = b * a := by ring
  have ht : (i / 6) % a < a := Nat.mod_lt _ ha
  have hj : i % 6 < 6 := Nat.mod_lt _ (by norm_num)
  have h := face_rows_vertices_get xs a b 0 ys ((i / 6) / a) ((i / 6) % a) (i % 6) hr ht hj
  have hidx : 6 * (a * ((i / 6) / a) + (i / 6) % a) + i % 6 = i := by
    rw [Nat.div_add_mod (i / 6) a, Nat.div_add_mod i 6]
  rw [hidx] at h
  simpa [face_vertex] using h

end face_closed_form_lemmas

section face_emitted_lemmas

set_option linter.unusedSectionVars false

variable {F : Type} [LinearOrderedField F]

theorem mb_emitted_eq_get (mb mb2 : mb_t F) (i : Nat) (h : mb_parallel mb) :
    mb_emitted mb mb2 i = mb_get mb2 (mb.positions.count + i) := by
  obtain ⟨h1, h2⟩ := h
  simp [mb_emitted, mb_get, ← h2, ← h1]

theorem mb_vertices_emitted (mb : mb_t F) (vs : List (vertex_t F)) (i : Nat) (v : vertex_t F)
    (h : vs[i]? = some v) : mb_emitted mb (mb_vertices mb vs) i = v := by
  obtain ⟨h1, h2, h3⟩ := mb_vertices_new mb vs i v h
  exact vertex_t.ext h1 h2 h3

theorem face_tile_size_pos (x : F) (h : 0 < x) : 0 < face_tile_size x := by
  unfold face_tile_size; split
  · exact zero_lt_one
  · exact h

theorem face_tile_size_le_one (x : F) : face_tile_size x ≤ 1 := by
  unfold face_tile_size; split
  · exact le_rfl
  · exact not_lt.mp (by assumption)

theorem face_tile_size_le (x : F) : face_tile_size x ≤ x := by
  unfold face_tile_size; split
  · exact le_of_lt (by assumption)
  · exact le_rfl

theorem face_tile_size_of_le_one (x : F) (h : x ≤ 1) : face_tile_size x = x := by
  unfold face_tile_size; rw [if_neg (not_lt.mpr h)]

variable [FloorRing F]

theorem cast_lt_of_lt_toNat_ceil (x : F) (t : Nat) (h : t < Int.toNat ⌈x⌉) : (t : F) < x := by
  have h1 : (t : ℤ) < ⌈x⌉ := by omega
  have h2 := Int.lt_ceil.mp h1
  simpa using h2

theorem toNat_ceil_pos (x : F) (h : 0 < x) : 0 < Int.toNat ⌈x⌉ := by
  have h1 := Int.ceil_pos.mpr h
  omega

theorem cast_toNat_ceil (x : F) (h : 0 < x) : ((Int.toNat ⌈x⌉ : Nat) : F) = ((⌈x⌉ : ℤ) : F) := by
  have h1 := Int.ceil_pos.mpr h
  have h2 : ((Int.toNat ⌈x⌉ : Nat) : ℤ) = ⌈x⌉ := Int.toNat_of_nonneg (le_of_lt h1)
  exact_mod_cast congrArg (fun z : ℤ => (z : F)) h2

/-- The `i`-th vertex that create_face appends. -/
theorem create_face_emitted (mb : mb_t F) (xs ys : F) (i : Nat)
    (hi : i < 6 * Int.toNat ⌈xs⌉ * Int.toNat ⌈ys⌉) :
    mb_emitted mb (create_face mb xs ys).1 i = face_vertex xs ys (Int.toNat ⌈xs⌉) i := by
  rw [create_face_mb]
  exact mb_vertices_emitted mb _ i _ (face_rows_vertices_vertex xs ys _ _ i hi)

/-- Column and row of the tile of the `i`-th vertex of a face lie inside the face. -/
theorem face_tile_index_lt (xs ys : F) (i : Nat)
    (hi : i < 6 * Int.toNat ⌈xs⌉ * Int.toNat ⌈ys⌉) :
    (i / 6) % Int.toNat ⌈xs⌉ < Int.toNat ⌈xs⌉ ∧ (i / 6) / Int.toNat ⌈xs⌉ < Int.toNat ⌈ys⌉ ∧
    (((i / 6) % Int.toNat ⌈xs⌉ : Nat) : F) < xs ∧ (((i / 6) / Int.toNat ⌈xs⌉ : Nat) : F) < ys := by
  have ha : 0 < Int.toNat ⌈xs⌉ := by
    rcases Nat.eq_zero_or_pos (Int.toNat ⌈xs⌉) with h | h
    · rw [h] at hi; omega
    · exact h
  have hT : i / 6 < Int.toNat ⌈xs⌉ * Int.toNat ⌈ys⌉ := by
    rw [Nat.div_lt_iff_lt_mul (by norm_num)]
    calc i < 6 * Int.toNat ⌈xs⌉ * Int.toNat ⌈ys⌉ := hi
      _ = Int.toNat ⌈xs⌉ * Int.toNat ⌈ys⌉ * 6 := by ring
  have hr : (i / 6) / Int.toNat ⌈xs⌉ < Int.toNat ⌈ys⌉ := by
    rw [Nat.div_lt_iff_lt_mul ha]
    calc i / 6 < Int.toNat ⌈xs⌉ * Int.toNat ⌈ys⌉ := hT
      _ = Int.toNat ⌈ys⌉ * Int.toNat ⌈xs⌉ := by ring
  have ht : (i / 6) % Int.toNat ⌈xs⌉ < Int.toNat ⌈xs⌉ := Nat.mod_lt _ ha
  exact ⟨ht, hr, cast_lt_of_lt_toNat_ceil xs _ ht, cast_lt_of_lt_toNat_ceil ys _ hr⟩

end face_emitted_lemmas

section face_last_tile_lemmas

set_option linter.unusedSectionVars false

variable {F : Type} [LinearOrderedField F]

theorem last_tile_index (a b j : Nat) (ha : 0 < a) (hb : 0 < b) (hj : j < 6) :
    (6 * (a * b - 1) + j) / 6 = a * b - 1 ∧ (6 * (a * b - 1) + j) % 6 = j ∧
    (a * b - 1) % a = a - 1 ∧ (a * b - 1) / a = b - 1 := by
  have h1 : a * b - 1 = (a - 1) + a * (b - 1) := by
    obtain ⟨b', rfl⟩ : ∃ b', b = b' + 1 := ⟨b - 1, by omega⟩
    simp only [Nat.add_sub_cancel, Nat.mul_add, Nat.mul_one]
    omega
  refine ⟨by omega, by omega, ?_, ?_⟩
  · rw [h1, Nat.add_mul_mod_self_left, Nat.mod_eq_of_lt (by omega)]
  · rw [h1, Nat.add_mul_div_left _ _ ha, Nat.div_eq_of_lt (by omega), Nat.zero_add]

theorem last_tile_size [FloorRing F] (x : F) (hx : 0 < x) :
    face_tile_size (x - ((Int.toNat ⌈x⌉ - 1 : Nat) : F)) = x - (((⌈x⌉ : ℤ) : F) - 1) := by
  have hpos := toNat_ceil_pos x hx
  have hc : ((Int.toNat ⌈x⌉ - 1 : Nat) : F) = ((⌈x⌉ : ℤ) : F) - 1 := by
    rw [Nat.cast_sub hpos, cast_toNat_ceil x hx]; simp
  rw [hc]
  apply face_tile_size_of_le_one
  have := Int.le_ceil x
  linarith

end face_last_tile_lemmas

section kept_lemmas

set_option linter.unusedSectionVars false

variable {F : Type} [LinearOrderedField F]

theorem mb_kept_refl (mb : mb_t F) (h : mb_parallel mb) : mb_kept mb mb :=
  ⟨h, ⟨0, mb_grows_refl mb⟩, fun _ _ => rfl⟩

theorem mb_kept_trans {a b c : mb_t F} (h1 : mb_kept a b) (h2 : mb_kept b c) :
    mb_kept a c := by
  obtain ⟨_, ⟨n, hn⟩, f1⟩ := h1
  obtain ⟨p2, ⟨k, hk⟩, f2⟩ := h2
  refine ⟨p2, ⟨n + k, ?_⟩, fun i hi => ?_⟩
  · have h := mb_grows_trans hn hk
    rwa [← Nat.mul_add] at h
  · have hle : a.positions.count ≤ b.positions.count := by have := hn.1; omega
    rw [f2 i (by omega), f1 i hi]

theorem mb_kept_if_refl (mb : mb_t F) (h : mb_parallel mb) : mb_kept_if mb mb :=
  fun _ => mb_kept_refl mb h

theorem u32_fits_of_extends {a b : mb_t F} (h : mb_extends a b) (hb : u32_fits b) :
    u32_fits a := by
  have := mb_extends_le h
  unfold u32_fits at *
  omega

/-- Appending a multiple of three vertices to a buffer with equal-length sequences
continues it. -/
theorem mb_kept_vertices (mb : mb_t F) (vs : List (vertex_t F)) (hpar : mb_parallel mb)
    (h3 : 3 ∣ vs.length) : mb_kept mb (mb_vertices mb vs) := by
  obtain ⟨k, hk⟩ := h3
  have hg := mb_vertices_grows mb vs
  obtain ⟨fp, fn, ft⟩ := mb_vertices_frame mb vs
  refine ⟨mb_grows_parallel hg hpar, ⟨k, by rwa [← hk]⟩, fun i hi => ?_⟩
  obtain ⟨e1, e2⟩ := hpar
  exact vertex_t.ext (fp i hi) (fn i (by omega)) (ft i (by omega))

theorem mb_kept_if_vertices {mb0 mb : mb_t F} (vs : List (vertex_t F))
    (h : mb_kept_if mb0 mb) (h3 : 3 ∣ vs.length) : mb_kept_if mb0 (mb_vertices mb vs) := by
  intro hfit
  have hk := h (u32_fits_of_extends ⟨_, mb_vertices_grows mb vs⟩ hfit)
  exact mb_kept_trans hk (mb_kept_vertices mb vs hk.1 h3)

theorem mb_kept_if_transform {mb0 mb : mb_t F} {v : mb_view_t} (M : Matrix F)
    (h : mb_kept_if mb0 mb) (hv : mb_view_good_if mb0 mb v) :
    mb_kept_if mb0 (mb_view_transform mb v M) := by
  intro hfit
  have hg := mb_view_transform_grows mb v M
  have hfit0 : u32_fits mb := u32_fits_of_extends ⟨0, hg⟩ hfit
  obtain ⟨hp, ⟨n, hn⟩, hf⟩ := h hfit0
  obtain ⟨hs, _, _⟩ := hv hfit0
  refine ⟨mb_grows_parallel hg hp, ⟨n, ?_⟩, fun i hi => ?_⟩
  · have := mb_grows_trans hn hg
    simpa using this
  · have hni : ¬ mb_view_mem v i := by unfold mb_view_mem; omega
    rw [mb_view_transform_get, if_neg hni, hf i hi]

theorem mb_kept_if_dupe {mb0 mb : mb_t F} {v : mb_view_t} (M : Matrix F)
    (h : mb_kept_if mb0 mb) (hv : mb_view_good_if mb0 mb v) :
    mb_kept_if mb0 (mb_view_dupe mb v M).1 := by
  intro hfit
  have hg := mb_view_dupe_grows mb v M
  have hfit0 : u32_fits mb := u32_fits_of_extends ⟨_, hg⟩ hfit
  obtain ⟨hp, ⟨n, hn⟩, hf⟩ := h hfit0
  obtain ⟨_, ⟨k, hk⟩, _⟩ := hv hfit0
  refine ⟨mb_grows_parallel hg hp, ⟨n + k, ?_⟩, fun i hi => ?_⟩
  · have := mb_grows_trans hn hg
    rwa [hk, ← Nat.mul_add] at this
  · have hle : mb0.positions.count ≤ mb.positions.count := by have := hn.1; omega
    rw [mb_view_dupe_frame mb v M i (by omega), hf i hi]

theorem mb_view_good_if_extends {mb0 mb mb2 : mb_t F} {v : mb_view_t}
    (hv : mb_view_good_if mb0 mb v) (he : mb_extends mb mb2) : mb_view_good_if mb0 mb2 v := by
  intro hfit
  obtain ⟨h1, h2, h3⟩ := hv (u32_fits_of_extends he hfit)
  have := mb_extends_le he
  exact ⟨h1, h2, by omega⟩

theorem mb_view_good_if_transform {mb0 mb : mb_t F} {v : mb_view_t} (v2 : mb_view_t)
    (M : Matrix F) (hv : mb_view_good_if mb0 mb v) :
    mb_view_good_if mb0 (mb_view_transform mb v2 M) v :=
  mb_view_good_if_extends hv (mb_view_transform_extends mb v2 M)

/-- Running a generator that meets its specification keeps what was kept, and its
view is good. -/
theorem mb_kept_if_gen {mb0 mb : mb_t F} {r : mb_t F × mb_view_t} (hr : mb_gen_spec mb r)
    (h : mb_kept_if mb0 mb) : mb_kept_if mb0 r.1 ∧ mb_view_good_if mb0 r.1 r.2 := by
  obtain ⟨he, hs⟩ := hr
  constructor
  · intro hfit
    have hk := h (u32_fits_of_extends he hfit)
    exact mb_kept_trans hk (hs hk.1 hfit).1
  · intro hfit
    have hk := h (u32_fits_of_extends he hfit)
    obtain ⟨⟨_, ⟨n, hn⟩, _⟩, s1, s2⟩ := hs hk.1 hfit
    obtain ⟨_, ⟨k, hk2⟩, _⟩ := hk
    have hp := hn.1
    have hp0 := hk2.1
    refine ⟨by omega, ⟨n, by omega⟩, by omega⟩

/-- The view that mb_view_end returns for a bracket that began at `mb` and ends at
`mb2` is good. -/
theorem mb_view_good_if_bracket {mb0 mb mb2 : mb_t F} (h1 : mb_kept_if mb0 mb)
    (h2 : mb_kept_if mb0 mb2) (he : mb_extends mb mb2) :
    mb_view_good_if mb0 mb2 (mb_view_end mb2 (mb_view_begin mb)) := by
  intro hfit
  obtain ⟨_, ⟨n, hn⟩, _⟩ := h1 (u32_fits_of_extends he hfit)
  obtain ⟨_, ⟨k, hk⟩, _⟩ := h2 hfit
  obtain ⟨d, hd, _⟩ := he
  have hp1 := hn.1
  have hp2 := hk.1
  have hc : (mb_view_end mb2 (mb_view_begin mb)).vertex_count = d := by
    simp only [mb_view_end, mb_view_begin, hd]
    exact u32_sub_add _ _ (by unfold u32_fits at hfit; omega)
  refine ⟨by simp only [mb_view_end, mb_view_begin]; omega, ?_, ?_⟩
  · rw [hc]; exact ⟨k - n, by omega⟩
  · rw [hc]; simp only [mb_view_end, mb_view_begin]; omega

/-- A generator that brackets its work with mb_view_begin and mb_view_end meets the
specification when its work continues the buffer. -/
theorem mb_gen_spec_of_kept (mb mbf : mb_t F) (he : mb_extends mb mbf)
    (h : mb_parallel mb → mb_kept_if mb mbf) :
    mb_gen_spec mb (mbf, mb_view_end mbf (mb_view_begin mb)) := by
  refine ⟨he, fun hpar hfit => ?_⟩
  have hfit2 : mbf.positions.count < 4294967296 := hfit
  have hk := h hpar hfit
  obtain ⟨_, ⟨n, hn⟩, _⟩ := hk
  have hp : mbf.positions.count = mb.positions.count + 3 * n := hn.1
  have hc : (mb_view_end mbf (mb_view_begin mb)).vertex_count = 3 * n := by
    simp only [mb_view_end, mb_view_begin, hp]
    exact u32_sub_add _ _ (by omega)
  refine ⟨h hpar hfit, rfl, ?_⟩
  show (mb_view_end mbf (mb_view_begin mb)).vertex_start +
    (mb_view_end mbf (mb_view_begin mb)).vertex_count = mbf.positions.count
  rw [hc]; simp only [mb_view_end, mb_view_begin]; omega

end kept_lemmas

section gen_spec_lemmas

set_option linter.unusedSectionVars false

variable {F : Type} [LinearOrderedField F] [FloorRing F]

theorem create_face_spec (mb : mb_t F) (xs ys : F) : mb_gen_spec mb (create_face mb xs ys) := by
  refine ⟨create_face_extends mb xs ys, fun hpar hfit => ?_⟩
  have hg := create_face_grows mb xs ys
  have hfit2 : (create_face mb xs ys).1.positions.count < 4294967296 := hfit
  have hk : mb_kept mb (create_face mb xs ys).1 := by
    rw [create_face_mb]
    refine mb_kept_vertices mb _ hpar ?_
    rw [face_rows_vertices_length]
    exact ⟨2 * Int.toNat ⌈xs⌉ * Int.toNat ⌈ys⌉, by ring⟩
  refine ⟨hk, by rw [create_face_view], ?_⟩
  rw [create_face_view]
  simp only
  rw [hg.1] at hfit2 ⊢
  rw [u32_sub_add _ _ hfit2]

theorem create_plank_spec (m : math_h F) (mb : mb_t F) (xs ys zs : F) :
    mb_gen_spec mb (create_plank m mb xs ys zs) := by
  refine mb_gen_spec_of_kept mb _ (create_plank_extends m mb xs ys zs) (fun hpar => ?_)
  have h0 := mb_kept_if_refl mb hpar
  have f1 := mb_kept_if_gen (create_face_spec mb xs ys) h0
  have h2 := mb_kept_if_dupe (matrix_from m ⟨0, ys, -zs⟩ ⟨1, 0, 0⟩ 180 ⟨1, 1, 1⟩) f1.1 f1.2
  have f3 := mb_kept_if_gen (create_face_spec _ xs zs) h2
  have h4 := mb_kept_if_transform (matrix_from m ⟨0, 0, -zs⟩ ⟨1, 0, 0⟩ 90 ⟨1, 1, 1⟩) f3.1 f3.2
  have h5 := mb_kept_if_dupe (matrix_from m ⟨0, ys, -zs⟩ ⟨1, 0, 0⟩ 180 ⟨1, 1, 1⟩) h4
    (mb_view_good_if_transform _ _ f3.2)
  have f6 := mb_kept_if_gen (create_face_spec _ zs ys) h5
  have h7 := mb_kept_if_transform (matrix_from m ⟨0, 0, -zs⟩ ⟨0, 1, 0⟩ (-90) ⟨1, 1, 1⟩)
    f6.1 f6.2
  have h8 := mb_kept_if_dupe (matrix_from m ⟨xs, 0, -zs⟩ ⟨0, 1, 0⟩ 180 ⟨1, 1, 1⟩) h7
    (mb_view_good_if_transform _ _ f6.2)
  exact h8

theorem create_plank_angled_spec (m : math_h F) (mb : mb_t F) (xs ys zs a1 a2 : F) :
    mb_gen_spec mb (create_plank_angled m mb xs ys zs a1 a2) := by
  refine mb_gen_spec_of_kept mb _ (create_plank_angled_extends m mb xs ys zs a1 a2)
    (fun hpar => ?_)
  have h0 := mb_kept_if_refl mb hpar
  have f1 := mb_kept_if_gen (create_face_spec mb xs zs) h0
  have h2 := mb_kept_if_transform (matrix_from m ⟨0, 0, -zs⟩ ⟨1, 0, 0⟩ 90 ⟨1, 1, 1⟩) f1.1 f1.2
  have h3 := mb_kept_if_vertices
    (plank_angled_cap_vertices xs ys zs (miter_width m ys a1) (miter_width m ys a2)) h2
    ⟨4, rfl⟩
  have f4 := mb_kept_if_gen (create_face_spec _ zs ys) h3
  have h5 := mb_kept_if_transform
    (matrix_from m ⟨0, 0, -zs⟩ ⟨0, 1, 0⟩ (-90) ⟨1, miter_ratio m ys (miter_width m ys a1), 1⟩)
    f4.1 f4.2
  have h6 := mb_kept_if_transform (matrix_from m ⟨0, 0, 0⟩ ⟨0, 0, 1⟩ (-a1) ⟨1, 1, 1⟩) h5
    (mb_view_good_if_transform _ _ f4.2)
  have f7 := mb_kept_if_gen (create_face_spec _ zs ys) h6
  have h8 := mb_kept_if_transform
    (matrix_from m ⟨0, 0, 0⟩ ⟨0, 1, 0⟩ 90 ⟨1, miter_ratio m ys (miter_width m ys a2), 1⟩)
    f7.1 f7.2
  have h9 := mb_kept_if_transform (matrix_from m ⟨xs, 0, 0⟩ ⟨0, 0, 1⟩ a2 ⟨1, 1, 1⟩) h8
    (mb_view_good_if_transform _ _ f7.2)
  have f10 := mb_kept_if_gen
    (create_face_spec _ (xs - miter_width m ys a1 - miter_width m ys a2) ys) h9
  have h11 := mb_kept_if_transform
    (matrix_from m ⟨miter_width m ys a1, 0, 0⟩ ⟨0, 0, 1⟩ 0 ⟨1, 1, 1⟩) f10.1 f10.2
  have h12 := mb_kept_if_dupe (matrix_from m ⟨0, ys, -zs⟩ ⟨1, 0, 0⟩ 180 ⟨1, 1, 1⟩) h11
    (mb_view_good_if_transform _ _ f10.2)
  have f13 := mb_kept_if_gen
    (create_face_spec _ (xs - miter_width m ys a1 - miter_width m ys a2) zs) h12
  have h14 := mb_kept_if_transform
    (matrix_from m ⟨miter_width m ys a1, ys, 0⟩ ⟨1, 0, 0⟩ (-90) ⟨1, 1, 1⟩) f13.1 f13.2
  exact h14

theorem create_wall_side_spec (m : math_h F) (mb : mb_t F) (lw sw height : F) :
    mb_gen_spec mb (create_wall_side m mb lw sw height) := by
  refine mb_gen_spec_of_kept mb _ (create_wall_side_extends m mb lw sw height) (fun hpar => ?_)
  have h0 := mb_kept_if_refl mb hpar
  have p1 := mb_kept_if_gen (create_plank_spec m mb height lw sw) h0
  have h2 := mb_kept_if_transform (matrix_from m ⟨lw, 0, 0⟩ ⟨0, 0, 1⟩ 90 ⟨1, 1, 1⟩) p1.1 p1.2
  have h3 := mb_kept_if_dupe (matrix_from m ⟨0, 0, -(lw + sw)⟩ ⟨0, 1, 0⟩ 0 ⟨1, 1, 1⟩) h2
    (mb_view_good_if_transform _ _ p1.2)
  have p4 := mb_kept_if_gen (create_plank_spec m _ (height - 2 * (lw - sw)) sw lw) h3
  have h5 := mb_kept_if_transform (matrix_from m ⟨lw, lw - sw, -sw⟩ ⟨0, 0, 1⟩ 90 ⟨1, 1, 1⟩)
    p4.1 p4.2
  exact h5

theorem create_wall_bottom_spec (m : math_h F) (mb : mb_t F) (lw sw width : F) :
    mb_gen_spec mb (create_wall_bottom m mb lw sw width) := by
  refine mb_gen_spec_of_kept mb _ (create_wall_bottom_extends m mb lw sw width) (fun hpar => ?_)
  have h0 := mb_kept_if_refl mb hpar
  have p1 := mb_kept_if_gen (create_plank_spec m mb width lw sw) h0
  have h2 := mb_kept_if_transform (matrix_from m ⟨lw, 0, 0⟩ ⟨0, 1, 0⟩ 0 ⟨1, 1, 1⟩) p1.1 p1.2
  have g2 := mb_view_good_if_transform (create_plank m mb width lw sw).2
    (matrix_from m ⟨lw, 0, 0⟩ ⟨0, 1, 0⟩ 0 ⟨1, 1, 1⟩) p1.2
  have h3 := mb_kept_if_dupe (matrix_from m ⟨0, lw - sw, -(sw + lw)⟩ ⟨1, 0, 0⟩ 90 ⟨1, 1, 1⟩)
    h2 g2
  have g3 := mb_view_good_if_extends g2 (mb_view_dupe_extends _ (create_plank m mb width lw sw).2
    (matrix_from m ⟨0, lw - sw, -(sw + lw)⟩ ⟨1, 0, 0⟩ 90 ⟨1, 1, 1⟩))
  have h4 := mb_kept_if_dupe (matrix_from m ⟨0, 0, -(sw + lw)⟩ ⟨0, 1, 0⟩ 0 ⟨1, 1, 1⟩) h3 g3
  exact h4

theorem create_wall_angleds_spec (m : math_h F) (mb : mb_t F)
    (lw sw height angled_width angled_length : F) :
    mb_gen_spec mb (create_wall_angleds m mb lw sw height angled_width angled_length) := by
  refine mb_gen_spec_of_kept mb _
    (create_wall_angleds_extends m mb lw sw height angled_width angled_length) (fun hpar => ?_)
  have h0 := mb_kept_if_refl mb hpar
  have p1 := mb_kept_if_gen (create_plank_angled_spec m mb angled_length lw sw 45 45) h0
  have h2 := mb_kept_if_transform
    (matrix_from m ⟨lw + angled_width, lw, -(sw + (lw - sw) * 0.5)⟩ ⟨0, 0, 1⟩ (90 + 45)
      ⟨1, 1, 1⟩) p1.1 p1.2
  have p3 := mb_kept_if_gen (create_plank_angled_spec m _ angled_length lw sw 45 45) h2
  have h4 := mb_kept_if_transform
    (matrix_from m ⟨lw, height - lw - angled_width, -(sw + (lw - sw) * 0.5)⟩ ⟨0, 0, 1⟩ 45
      ⟨1, 1, 1⟩) p3.1 p3.2
  exact h4

theorem create_wall_spec (m : math_h F) (mb : mb_t F) : mb_gen_spec mb (create_wall m mb) := by
  refine mb_gen_spec_of_kept mb _ (create_wall_extends m mb) (fun hpar => ?_)
  have h0 := mb_kept_if_refl mb hpar
  have s1 := mb_kept_if_gen (create_wall_side_spec m mb 0.12 0.06 2) h0
  have h2 := mb_kept_if_dupe
    (matrix_from m ⟨1.5 - 0.12 * 2 + 0.12 * 2, 0, -(0.12 + 2 * 0.06)⟩ ⟨0, 1, 0⟩ 180 ⟨1, 1, 1⟩)
    s1.1 s1.2
  have b3 := mb_kept_if_gen (create_wall_bottom_spec m _ 0.12 0.06 (1.5 - 0.12 * 2)) h2
  have h4 := mb_kept_if_dupe
    (matrix_from m ⟨0, 2, -(0.12 + 2 * 0.06)⟩ ⟨1, 0, 0⟩ 180 ⟨1, 1, 1⟩) b3.1 b3.2
  have a5 := mb_kept_if_gen (create_wall_angleds_spec m _ 0.12 0.06 2 ((1.5 - 0.12 * 2) / 4)
    (m.sqrtf ((1.5 - 0.12 * 2) / 4 * ((1.5 - 0.12 * 2) / 4) * 2))) h4
  have h6 := mb_kept_if_dupe
    (matrix_from m ⟨1.5 - 0.12 * 2 + 0.12 * 2, 0, -(0.12 + 0.06 * 2)⟩ ⟨0, 1, 0⟩ 180 ⟨1, 1, 1⟩)
    a5.1 a5.2
  exact h6

end gen_spec_lemmas

section count_lemmas

set_option linter.unusedSectionVars false

variable {F : Type} [LinearOrderedField F]

/-- Counting forward through create_face: the buffer has grown by `k + 6ab` since
`mb0`, and when that fits the `u32` counter the view holds `6ab` vertices. -/
theorem create_face_count_step [FloorRing F] {mb0 mb : mb_t F} {k : Nat} (xs ys : F)
    (h : mb_grows mb0 mb k)
    (hfit : mb0.positions.count + (k + 6 * (Int.toNat ⌈xs⌉ * Int.toNat ⌈ys⌉)) < 4294967296) :
    mb_grows mb0 (create_face mb xs ys).1 (k + 6 * (Int.toNat ⌈xs⌉ * Int.toNat ⌈ys⌉)) ∧
    (create_face mb xs ys).2.vertex_count = 6 * (Int.toNat ⌈xs⌉ * Int.toNat ⌈ys⌉) := by
  have hg := create_face_grows mb xs ys
  rw [Nat.mul_assoc] at hg
  refine ⟨mb_grows_trans h hg, ?_⟩
  rw [create_face_view, hg.1, h.1]
  exact u32_sub_add _ _ (by omega)

/-- Counting forward through mb_view_transform on the view `v` (named by the proof of
its count). -/
theorem mb_view_transform_count_step {mb0 mb : mb_t F} {k n : Nat} {v : mb_view_t}
    (M : Matrix F) (h : mb_grows mb0 mb k) (_hv : v.vertex_count = n) :
    mb_grows mb0 (mb_view_transform mb v M) k :=
  mb_grows_trans h (mb_view_transform_grows mb v M)

theorem mb_view_dupe_count_step {mb0 mb : mb_t F} {k n : Nat} {v : mb_view_t}
    (M : Matrix F) (h : mb_grows mb0 mb k) (hv : v.vertex_count = n) :
    mb_grows mb0 (mb_view_dupe mb v M).1 (k + n) := by
  rw [← hv]; exact mb_grows_trans h (mb_view_dupe_grows mb v M)

/-- The number of vertices that create_plank appends, when it fits the `u32`
counter. -/
theorem create_plank_count [FloorRing F] (m : math_h F) (mb : mb_t F) (xs ys zs : F)
    (hfit : mb.positions.count +
      12 * (Int.toNat ⌈xs⌉ * Int.toNat ⌈ys⌉ + Int.toNat ⌈xs⌉ * Int.toNat ⌈zs⌉ +
        Int.toNat ⌈zs⌉ * Int.toNat ⌈ys⌉) < 4294967296) :
    mb_grows mb (create_plank m mb xs ys zs).1
      (12 * (Int.toNat ⌈xs⌉ * Int.toNat ⌈ys⌉ + Int.toNat ⌈xs⌉ * Int.toNat ⌈zs⌉ +
        Int.toNat ⌈zs⌉ * Int.toNat ⌈ys⌉)) := by
  have h0 := mb_grows_refl mb
  obtain ⟨g1, v1⟩ := create_face_count_step xs ys h0 (by omega)
  have g2 := mb_view_dupe_count_step (matrix_from m ⟨0, ys, -zs⟩ ⟨1, 0, 0⟩ 180 ⟨1, 1, 1⟩) g1 v1
  obtain ⟨g3, v3⟩ := create_face_count_step xs zs g2 (by omega)
  have g4 := mb_view_transform_count_step (matrix_from m ⟨0, 0, -zs⟩ ⟨1, 0, 0⟩ 90 ⟨1, 1, 1⟩)
    g3 v3
  have g5 := mb_view_dupe_count_step (matrix_from m ⟨0, ys, -zs⟩ ⟨1, 0, 0⟩ 180 ⟨1, 1, 1⟩) g4 v3
  obtain ⟨g6, v6⟩ := create_face_count_step zs ys g5 (by omega)
  have g7 := mb_view_transform_count_step
    (matrix_from m ⟨0, 0, -zs⟩ ⟨0, 1, 0⟩ (-90) ⟨1, 1, 1⟩) g6 v6
  have g8 := mb_view_dupe_count_step (matrix_from m ⟨xs, 0, -zs⟩ ⟨0, 1, 0⟩ 180 ⟨1, 1, 1⟩) g7 v6
  have e : 0 + 6 * (Int.toNat ⌈xs⌉ * Int.toNat ⌈ys⌉) + 6 * (Int.toNat ⌈xs⌉ * Int.toNat ⌈ys⌉) +
      6 * (Int.toNat ⌈xs⌉ * Int.toNat ⌈zs⌉) + 6 * (Int.toNat ⌈xs⌉ * Int.toNat ⌈zs⌉) +
      6 * (Int.toNat ⌈zs⌉ * Int.toNat ⌈ys⌉) + 6 * (Int.toNat ⌈zs⌉ * Int.toNat ⌈ys⌉) =
      12 * (Int.toNat ⌈xs⌉ * Int.toNat ⌈ys⌉ + Int.toNat ⌈xs⌉ * Int.toNat ⌈zs⌉ +
        Int.toNat ⌈zs⌉ * Int.toNat ⌈ys⌉) := by omega
  rw [e] at g8
  exact g8

/-- The number of vertices that create_plank_angled appends, when it fits the `u32`
counter: the bottom face, the twelve direct vertices, the two end faces, the side
face and its duplicate, and the top face. -/
theorem create_plank_angled_count [FloorRing F] (m : math_h F) (mb : mb_t F)
    (xs ys zs a1 a2 : F)
    (hfit : mb.positions.count +
      (6 * (Int.toNat ⌈xs⌉ * Int.toNat ⌈zs⌉) + 12 + 12 * (Int.toNat ⌈zs⌉ * Int.toNat ⌈ys⌉) +
        12 * (Int.toNat ⌈xs - miter_width m ys a1 - miter_width m ys a2⌉ * Int.toNat ⌈ys⌉) +
        6 * (Int.toNat ⌈xs - miter_width m ys a1 - miter_width m ys a2⌉ * Int.toNat ⌈zs⌉))
      < 4294967296) :
    mb_grows mb (create_plank_angled m mb xs ys zs a1 a2).1
      (6 * (Int.toNat ⌈xs⌉ * Int.toNat ⌈zs⌉) + 12 + 12 * (Int.toNat ⌈zs⌉ * Int.toNat ⌈ys⌉) +
        12 * (Int.toNat ⌈xs - miter_width m ys a1 - miter_width m ys a2⌉ * Int.toNat ⌈ys⌉) +
        6 * (Int.toNat ⌈xs - miter_width m ys a1 - miter_width m ys a2⌉ * Int.toNat ⌈zs⌉)) := by
  have h0 := mb_grows_refl mb
  obtain ⟨g1, v1⟩ := create_face_count_step xs zs h0 (by omega)
  have g2 := mb_view_transform_count_step (matrix_from m ⟨0, 0, -zs⟩ ⟨1, 0, 0⟩ 90 ⟨1, 1, 1⟩)
    g1 v1
  have g3 := mb_grows_trans g2 (create_plank_angled_caps_grows _ xs ys zs
    (miter_width m ys a1) (miter_width m ys a2))
  obtain ⟨g4, v4⟩ := create_face_count_step zs ys g3 (by omega)
  have g5 := mb_view_transform_count_step
    (matrix_from m ⟨0, 0, -zs⟩ ⟨0, 1, 0⟩ (-90) ⟨1, miter_ratio m ys (miter_width m ys a1), 1⟩)
    g4 v4
  have g6 := mb_view_transform_count_step (matrix_from m ⟨0, 0, 0⟩ ⟨0, 0, 1⟩ (-a1) ⟨1, 1, 1⟩)
    g5 v4
  obtain ⟨g7, v7⟩ := create_face_count_step zs ys g6 (by omega)
  have g8 := mb_view_transform_count_step
    (matrix_from m ⟨0, 0, 0⟩ ⟨0, 1, 0⟩ 90 ⟨1, miter_ratio m ys (miter_width m ys a2), 1⟩)
    g7 v7
  have g9 := mb_view_transform_count_step (matrix_from m ⟨xs, 0, 0⟩ ⟨0, 0, 1⟩ a2 ⟨1, 1, 1⟩)
    g8 v7
  obtain ⟨g10, v10⟩ := create_face_count_step
    (xs - miter_width m ys a1 - miter_width m ys a2) ys g9 (by omega)
  have g11 := mb_view_transform_count_step
    (matrix_from m ⟨miter_width m ys a1, 0, 0⟩ ⟨0, 0, 1⟩ 0 ⟨1, 1, 1⟩) g10 v10
  have g12 := mb_view_dupe_count_step (matrix_from m ⟨0, ys, -zs⟩ ⟨1, 0, 0⟩ 180 ⟨1, 1, 1⟩)
    g11 v10
  obtain ⟨g13, v13⟩ := create_face_count_step
    (xs - miter_width m ys a1 - miter_width m ys a2) zs g12 (by omega)
  have g14 := mb_view_transform_count_step
    (matrix_from m ⟨miter_width m ys a1, ys, 0⟩ ⟨1, 0, 0⟩ (-90) ⟨1, 1, 1⟩) g13 v13
  have e : 0 + 6 * (Int.toNat ⌈xs⌉ * Int.toNat ⌈zs⌉) + 12 +
      6 * (Int.toNat ⌈zs⌉ * Int.toNat ⌈ys⌉) + 6 * (Int.toNat ⌈zs⌉ * Int.toNat ⌈ys⌉) +
      6 * (Int.toNat ⌈xs - miter_width m ys a1 - miter_width m ys a2⌉ * Int.toNat ⌈ys⌉) +
      6 * (Int.toNat ⌈xs - miter_width m ys a1 - miter_width m ys a2⌉ * Int.toNat ⌈ys⌉) +
      6 * (Int.toNat ⌈xs - miter_width m ys a1 - miter_width m ys a2⌉ * Int.toNat ⌈zs⌉) =
      6 * (Int.toNat ⌈xs⌉ * Int.toNat ⌈zs⌉) + 12 + 12 * (Int.toNat ⌈zs⌉ * Int.toNat ⌈ys⌉) +
        12 * (Int.toNat ⌈xs - miter_width m ys a1 - miter_width m ys a2⌉ * Int.toNat ⌈ys⌉) +
        6 * (Int.toNat ⌈xs - miter_width m ys a1 - miter_width m ys a2⌉ * Int.toNat ⌈zs⌉) := by
    omega
  rw [e] at g14
  exact g14

end count_lemmas

section block_lemmas

set_option linter.unusedSectionVars false

variable {F : Type} [LinearOrderedField F]

/-- Positions after mb_view_dupe: the count grows by the count of the view, nothing
below the old count changes, and the new position `i` is the image of the position at
`view.vertex_start + i`. -/
theorem mb_view_dupe_positions (mb : mb_t F) (v : mb_view_t) (M : Matrix F) :
    (mb_view_dupe mb v M).1.positions.count = mb.positions.count + v.vertex_count ∧
    (∀ j, j < mb.positions.count →
      (mb_view_dupe mb v M).1.positions.data j = mb.positions.data j) ∧
    (∀ i, i < v.vertex_count →
      (mb_view_dupe mb v M).1.positions.data (mb.positions.count + i) =
        Vector3Transform (mb.positions.data (v.vertex_start + i)) M) := by
  refine ⟨(mb_view_dupe_grows mb v M).1, fun j hj => ?_, fun i hi => ?_⟩
  · exact congrArg vertex_t.position (mb_view_dupe_frame mb v M j hj)
  · have hmem : mb_view_mem (mb_view_copy mb mb v).2 (mb.positions.count + i) := by
      simp only [mb_view_copy_view, mb_view_mem]; omega
    have h := mb_view_transform_get (mb_view_copy mb mb v).1 (mb_view_copy mb mb v).2 M
      (mb.positions.count + i)
    rw [if_pos hmem] at h
    have h2 := congrArg vertex_t.position h
    have hc := mb_view_copy_get mb mb v (mb.positions.count + i)
    rw [if_pos (by omega), Nat.add_sub_cancel_left] at hc
    have h3 := congrArg vertex_t.position hc
    simp only [mb_get] at h2 h3
    simp only [mb_view_dupe]
    rw [h2, h3]

/-- Positions after mb_view_transform. -/
theorem mb_view_transform_positions (mb : mb_t F) (v : mb_view_t) (M : Matrix F) :
    (mb_view_transform mb v M).positions.count = mb.positions.count ∧
    (∀ j, ¬ mb_view_mem v j →
      (mb_view_transform mb v M).positions.data j = mb.positions.data j) ∧
    (∀ j, mb_view_mem v j →
      (mb_view_transform mb v M).positions.data j =
        Vector3Transform (mb.positions.data j) M) := by
  refine ⟨(mb_view_transform_grows mb v M).1, fun j hj => ?_, fun j hj => ?_⟩
  · have h := mb_view_transform_get mb v M j
    rw [if_neg hj] at h
    exact congrArg vertex_t.position h
  · have h := mb_view_transform_get mb v M j
    rw [if_pos hj] at h
    exact congrArg vertex_t.position h

variable [FloorRing F]

/-- Positions after create_face, when the new count fits the `u32` counter. -/
theorem create_face_positions (mb : mb_t F) (xs ys : F)
    (hfit : u32_fits (create_face mb xs ys).1) :
    (create_face mb xs ys).2 =
      { vertex_start := mb.positions.count
        vertex_count := 6 * (Int.toNat ⌈xs⌉ * Int.toNat ⌈ys⌉) } ∧
    (create_face mb xs ys).1.positions.count =
      mb.positions.count + 6 * (Int.toNat ⌈xs⌉ * Int.toNat ⌈ys⌉) ∧
    (∀ j, j < mb.positions.count →
      (create_face mb xs ys).1.positions.data j = mb.positions.data j) ∧
    (∀ i, i < 6 * (Int.toNat ⌈xs⌉ * Int.toNat ⌈ys⌉) →
      (create_face mb xs ys).1.positions.data (mb.positions.count + i) =
        (face_vertex xs ys (Int.toNat ⌈xs⌉) i).position) := by
  have hg := (create_face_grows mb xs ys).1
  rw [Nat.mul_assoc] at hg
  unfold u32_fits at hfit
  refine ⟨?_, hg, fun j hj => ?_, fun i hi => ?_⟩
  · rw [create_face_view, hg, u32_sub_add _ _ (by omega)]
  · rw [create_face_mb]
    exact (mb_vertices_frame mb _).1 j hj
  · have h := create_face_emitted mb xs ys i (by rw [Nat.mul_assoc]; exact hi)
    exact congrArg vertex_t.position h

theorem face_transform_extends (mb : mb_t F) (xs ys : F) (Mt : Matrix F) :
    mb_extends mb (face_transform mb xs ys Mt) :=
  mb_extends_trans (create_face_extends mb xs ys) (mb_view_transform_extends _ _ _)

theorem face_transform2_extends (mb : mb_t F) (xs ys : F) (M1 M2 : Matrix F) :
    mb_extends mb (face_transform2 mb xs ys M1 M2) :=
  mb_extends_trans (mb_extends_trans (create_face_extends mb xs ys)
    (mb_view_transform_extends _ _ _)) (mb_view_transform_extends _ _ _)

theorem face_dupe_extends (mb : mb_t F) (xs ys : F) (Md : Matrix F) :
    mb_extends mb (face_dupe mb xs ys Md) :=
  mb_extends_trans (create_face_extends mb xs ys) (mb_view_dupe_extends _ _ _)

theorem face_transform_dupe_extends (mb : mb_t F) (xs ys : F) (Mt Md : Matrix F) :
    mb_extends mb (face_transform_dupe mb xs ys Mt Md) :=
  mb_extends_trans (mb_extends_trans (create_face_extends mb xs ys)
    (mb_view_transform_extends _ _ _)) (mb_view_dupe_extends _ _ _)

/-- Positions after a face and a transform of its view. -/
theorem face_transform_positions (mb : mb_t F) (xs ys : F) (Mt : Matrix F)
    (hfit : u32_fits (face_transform mb xs ys Mt)) :
    (face_transform mb xs ys Mt).positions.count =
      mb.positions.count + 6 * (Int.toNat ⌈xs⌉ * Int.toNat ⌈ys⌉) ∧
    (∀ j, j < mb.positions.count →
      (face_transform mb xs ys Mt).positions.data j = mb.positions.data j) ∧
    (∀ i, i < 6 * (Int.toNat ⌈xs⌉ * Int.toNat ⌈ys⌉) →
      (face_transform mb xs ys Mt).positions.data (mb.positions.count + i) =
        Vector3Transform (face_vertex xs ys (Int.toNat ⌈xs⌉) i).position Mt) := by
  have hf : u32_fits (create_face mb xs ys).1 :=
    u32_fits_of_extends (mb_view_transform_extends _ _ _) hfit
  obtain ⟨hv, hc, hfr, hnew⟩ := create_face_positions mb xs ys hf
  obtain ⟨tc, tout, tin⟩ := mb_view_transform_positions (create_face mb xs ys).1
    (create_face mb xs ys).2 Mt
  simp only [face_transform]
  refine ⟨by rw [tc, hc], fun j hj => ?_, fun i hi => ?_⟩
  · rw [tout j (by rw [hv]; unfold mb_view_mem; simp only; omega), hfr j hj]
  · rw [tin _ (by rw [hv]; unfold mb_view_mem; simp only; omega), hnew i hi]

/-- Positions after a face and two transforms of its view. -/
theorem face_transform2_positions (mb : mb_t F) (xs ys : F) (M1 M2 : Matrix F)
    (hfit : u32_fits (face_transform2 mb xs ys M1 M2)) :
    (face_transform2 mb xs ys M1 M2).positions.count =
      mb.positions.count + 6 * (Int.toNat ⌈xs⌉ * Int.toNat ⌈ys⌉) ∧
    (∀ j, j < mb.positions.count →
      (face_transform2 mb xs ys M1 M2).positions.data j = mb.positions.data j) ∧
    (∀ i, i < 6 * (Int.toNat ⌈xs⌉ * Int.toNat ⌈ys⌉) →
      (face_transform2 mb xs ys M1 M2).positions.data (mb.positions.count + i) =
        Vector3Transform
          (Vector3Transform (face_vertex xs ys (Int.toNat ⌈xs⌉) i).position M1) M2) := by
  have hf1 : u32_fits (face_transform mb xs ys M1) :=
    u32_fits_of_extends (mb_view_transform_extends _ _ _) hfit
  have hf : u32_fits (create_face mb xs ys).1 :=
    u32_fits_of_extends (mb_view_transform_extends _ _ _) hf1
  obtain ⟨hv, _, _, _⟩ := create_face_positions mb xs ys hf
  obtain ⟨hc, hfr, hnew⟩ := face_transform_positions mb xs ys M1 hf1
  obtain ⟨tc, tout, tin⟩ := mb_view_transform_positions (face_transform mb xs ys M1)
    (create_face mb xs ys).2 M2
  have e : face_transform2 mb xs ys M1 M2 =
      mb_view_transform (face_transform mb xs ys M1) (create_face mb xs ys).2 M2 := rfl
  rw [e]
  refine ⟨by rw [tc, hc], fun j hj => ?_, fun i hi => ?_⟩
  · rw [tout j (by rw [hv]; unfold mb_view_mem; simp only; omega), hfr j hj]
  · rw [tin _ (by rw [hv]; unfold mb_view_mem; simp only; omega), hnew i hi]

/-- Positions after a face, a transform and a duplicate of its view. -/
theorem face_transform_dupe_positions (mb : mb_t F) (xs ys : F) (Mt Md : Matrix F)
    (hfit : u32_fits (face_transform_dupe mb xs ys Mt Md)) :
    (face_transform_dupe mb xs ys Mt Md).positions.count =
      mb.positions.count + 6 * (Int.toNat ⌈xs⌉ * Int.toNat ⌈ys⌉) +
        6 * (Int.toNat ⌈xs⌉ * Int.toNat ⌈ys⌉) ∧
    (∀ j, j < mb.positions.count →
      (face_transform_dupe mb xs ys Mt Md).positions.data j = mb.positions.data j) ∧
    (∀ i, i < 6 * (Int.toNat ⌈xs⌉ * Int.toNat ⌈ys⌉) →
      (face_transform_dupe mb xs ys Mt Md).positions.data (mb.positions.count + i) =
        Vector3Transform (face_vertex xs ys (Int.toNat ⌈xs⌉) i).position Mt ∧
      (face_transform_dupe mb xs ys Mt Md).positions.data
          (mb.positions.count + 6 * (Int.toNat ⌈xs⌉ * Int.toNat ⌈ys⌉) + i) =
        Vector3Transform
          (Vector3Transform (face_vertex xs ys (Int.toNat ⌈xs⌉) i).position Mt) Md) := by
  have hf1 : u32_fits (face_transform mb xs ys Mt) :=
    u32_fits_of_extends (mb_view_dupe_extends _ _ _) hfit
  have hf : u32_fits (create_face mb xs ys).1 :=
    u32_fits_of_extends (mb_view_transform_extends _ _ _) hf1
  obtain ⟨hv, _, _, _⟩ := create_face_positions mb xs ys hf
  obtain ⟨hc, hfr, hnew⟩ := face_transform_positions mb xs ys Mt hf1
  obtain ⟨dc, dfr, dnew⟩ := mb_view_dupe_positions (face_transform mb xs ys Mt)
    (create_face mb xs ys).2 Md
  have e : face_transform_dupe mb xs ys Mt Md =
      (mb_view_dupe (face_transform mb xs ys Mt) (create_face mb xs ys).2 Md).1 := rfl
  rw [e]
  have hvs : (create_face mb xs ys).2.vertex_start = mb.positions.count := by rw [hv]
  have hvc : (create_face mb xs ys).2.vertex_count =
      6 * (Int.toNat ⌈xs⌉ * Int.toNat ⌈ys⌉) := by rw [hv]
  rw [hvc] at dc dnew
  simp only [hvs] at dnew
  refine ⟨by rw [dc, hc], fun j hj => ?_, fun i hi => ⟨?_, ?_⟩⟩
  · rw [dfr j (by omega), hfr j hj]
  · rw [dfr _ (by omega), hnew i hi]
  · have h := dnew i hi
    rw [hc] at h
    rw [h, hnew i hi]

/-- Positions after a face and a duplicate of its view. -/
theorem face_dupe_positions (mb : mb_t F) (xs ys : F) (Md : Matrix F)
    (hfit : u32_fits (face_dupe mb xs ys Md)) :
    (face_dupe mb xs ys Md).positions.count =
      mb.positions.count + 6 * (Int.toNat ⌈xs⌉ * Int.toNat ⌈ys⌉) +
        6 * (Int.toNat ⌈xs⌉ * Int.toNat ⌈ys⌉) ∧
    (∀ j, j < mb.positions.count →
      (face_dupe mb xs ys Md).positions.data j = mb.positions.data j) ∧
    (∀ i, i < 6 * (Int.toNat ⌈xs⌉ * Int.toNat ⌈ys⌉) →
      (face_dupe mb xs ys Md).positions.data (mb.positions.count + i) =
        (face_vertex xs ys (Int.toNat ⌈xs⌉) i).position ∧
      (face_dupe mb xs ys Md).positions.data
          (mb.positions.count + 6 * (Int.toNat ⌈xs⌉ * Int.toNat ⌈ys⌉) + i) =
        Vector3Transform (face_vertex xs ys (Int.toNat ⌈xs⌉) i).position Md) := by
  have hf : u32_fits (create_face mb xs ys).1 :=
    u32_fits_of_extends (mb_view_dupe_extends _ _ _) hfit
  obtain ⟨hv, hc, hfr, hnew⟩ := create_face_positions mb xs ys hf
  obtain ⟨dc, dfr, dnew⟩ := mb_view_dupe_positions (create_face mb xs ys).1
    (create_face mb xs ys).2 Md
  simp only [face_dupe]
  have hvs : (create_face mb xs ys).2.vertex_start = mb.positions.count := by rw [hv]
  have hvc : (create_face mb xs ys).2.vertex_count =
      6 * (Int.toNat ⌈xs⌉ * Int.toNat ⌈ys⌉) := by rw [hv]
  rw [hvc] at dc dnew
  simp only [hvs] at dnew
  refine ⟨by rw [dc, hc], fun j hj => ?_, fun i hi => ⟨?_, ?_⟩⟩
  · rw [dfr j (by omega), hfr j hj]
  · rw [dfr _ (by omega), hnew i hi]
  · have h := dnew i hi
    rw [hc] at h
    rw [h, hnew i hi]

end block_lemmas

section matrix_from_lemmas

set_option linter.unusedSectionVars false

variable {F : Type} [LinearOrderedField F]

/-- The placement `matrix_from` about the x axis: scale, rotate in the yz-plane,
translate. -/
theorem matrix_from_x_apply (m : math_h F) (pos scale p : Vector3 F) (ang : F) :
    Vector3Transform p (matrix_from m pos ⟨1, 0, 0⟩ ang scale) =
      ⟨scale.x * p.x + pos.x,
       m.cosf (ang * m.DEG2RAD) * (scale.y * p.y) - m.sinf (ang * m.DEG2RAD) * (scale.z * p.z)
         + pos.y,
       m.sinf (ang * m.DEG2RAD) * (scale.y * p.y) + m.cosf (ang * m.DEG2RAD) * (scale.z * p.z)
         + pos.z⟩ := by
  ext <;>
    simp [Vector3Transform, matrix_from, MatrixMultiply, MatrixScale, MatrixRotate,
      MatrixTranslate] <;>
    ring

/-- The placement `matrix_from` about the y axis. -/
theorem matrix_from_y_apply (m : math_h F) (pos scale p : Vector3 F) (ang : F) :
    Vector3Transform p (matrix_from m pos ⟨0, 1, 0⟩ ang scale) =
      ⟨m.cosf (ang * m.DEG2RAD) * (scale.x * p.x) + m.sinf (ang * m.DEG2RAD) * (scale.z * p.z)
         + pos.x,
       scale.y * p.y + pos.y,
       -(m.sinf (ang * m.DEG2RAD) * (scale.x * p.x)) +
         m.cosf (ang * m.DEG2RAD) * (scale.z * p.z) + pos.z⟩ := by
  ext <;>
    simp [Vector3Transform, matrix_from, MatrixMultiply, MatrixScale, MatrixRotate,
      MatrixTranslate] <;>
    ring

/-- The placement `matrix_from` about the z axis. -/
theorem matrix_from_z_apply (m : math_h F) (pos scale p : Vector3 F) (ang : F) :
    Vector3Transform p (matrix_from m pos ⟨0, 0, 1⟩ ang scale) =
      ⟨m.cosf (ang * m.DEG2RAD) * (scale.x * p.x) - m.sinf (ang * m.DEG2RAD) * (scale.y * p.y)
         + pos.x,
       m.sinf (ang * m.DEG2RAD) * (scale.x * p.x) + m.cosf (ang * m.DEG2RAD) * (scale.y * p.y)
         + pos.y,
       scale.z * p.z + pos.z⟩ := by
  ext <;>
    simp [Vector3Transform, matrix_from, MatrixMultiply, MatrixScale, MatrixRotate,
      MatrixTranslate] <;>
    ring

end matrix_from_lemmas

section plank_positions_lemmas

set_option linter.unusedSectionVars false

variable {F : Type} [LinearOrderedField F] [FloorRing F]

/-- The function create_plank is three blocks: the front face and its duplicate, the
bottom face with transform and duplicate, the end face with transform and
duplicate. -/
theorem create_plank_blocks (m : math_h F) (mb : mb_t F) (xs ys zs : F) :
    (create_plank m mb xs ys zs).1 =
      face_transform_dupe
        (face_transform_dupe
          (face_dupe mb xs ys (matrix_from m ⟨0, ys, -zs⟩ ⟨1, 0, 0⟩ 180 ⟨1, 1, 1⟩))
          xs zs (matrix_from m ⟨0, 0, -zs⟩ ⟨1, 0, 0⟩ 90 ⟨1, 1, 1⟩)
          (matrix_from m ⟨0, ys, -zs⟩ ⟨1, 0, 0⟩ 180 ⟨1, 1, 1⟩))
        zs ys (matrix_from m ⟨0, 0, -zs⟩ ⟨0, 1, 0⟩ (-90) ⟨1, 1, 1⟩)
        (matrix_from m ⟨xs, 0, -zs⟩ ⟨0, 1, 0⟩ 180 ⟨1, 1, 1⟩) := rfl

/-- Every vertex of a face lies in the rectangle `[0, xs] x [0, ys]` of the plane
`z = 0`. -/
theorem face_vertex_position_bounds (xs ys : F) (i : Nat) (hi : i < face_count xs ys) :
    (0 ≤ (face_vertex xs ys (Int.toNat ⌈xs⌉) i).position.x ∧
      (face_vertex xs ys (Int.toNat ⌈xs⌉) i).position.x ≤ xs) ∧
    (0 ≤ (face_vertex xs ys (Int.toNat ⌈xs⌉) i).position.y ∧
      (face_vertex xs ys (Int.toNat ⌈xs⌉) i).position.y ≤ ys) ∧
    (face_vertex xs ys (Int.toNat ⌈xs⌉) i).position.z = 0 := by
  have hi2 : i < 6 * Int.toNat ⌈xs⌉ * Int.toNat ⌈ys⌉ := by
    rw [Nat.mul_assoc]; exact hi
  obtain ⟨_, _, htx, hty⟩ := face_tile_index_lt xs ys i hi2
  have hw := face_tile_size_pos _ (sub_pos.mpr htx)
  have hh := face_tile_size_pos _ (sub_pos.mpr hty)
  have hw1 := face_tile_size_le (xs - (((i / 6) % Int.toNat ⌈xs⌉ : Nat) : F))
  have hh1 := face_tile_size_le (ys - (((i / 6) / Int.toNat ⌈xs⌉ : Nat) : F))
  have ht0 : (0 : F) ≤ (((i / 6) % Int.toNat ⌈xs⌉ : Nat) : F) := Nat.cast_nonneg _
  have hr0 : (0 : F) ≤ (((i / 6) / Int.toNat ⌈xs⌉ : Nat) : F) := Nat.cast_nonneg _
  have h6 : i % 6 = 0 ∨ i % 6 = 1 ∨ i % 6 = 2 ∨ i % 6 = 3 ∨ i % 6 = 4 ∨ i % 6 = 5 := by omega
  rcases h6 with h | h | h | h | h | h <;>
    simp only [face_vertex, h, face_tile_vertex] <;>
    refine ⟨⟨by linarith, by linarith⟩, ⟨by linarith, by linarith⟩, trivial⟩

/-- The first vertex of a face is the origin. -/
theorem face_vertex_first (xs ys : F) (hx : 0 < xs) :
    (face_vertex xs ys (Int.toNat ⌈xs⌉) 0).position = ⟨0, 0, 0⟩ := by
  have ha := toNat_ceil_pos xs hx
  simp [face_vertex, face_tile_vertex, Nat.mod_eq_of_lt ha]

/-- The fourth vertex of the last tile of a face is the corner `(xs, ys, 0)`. -/
theorem face_vertex_corner (xs ys : F) (hx : 0 < xs) (hy : 0 < ys) :
    (face_vertex xs ys (Int.toNat ⌈xs⌉) (face_count xs ys - 3)).position = ⟨xs, ys, 0⟩ ∧
    face_count xs ys - 3 < face_count xs ys := by
  have ha := toNat_ceil_pos xs hx
  have hb := toNat_ceil_pos ys hy
  have hab : 0 < Int.toNat ⌈xs⌉ * Int.toNat ⌈ys⌉ := Nat.mul_pos ha hb
  obtain ⟨e1, e2, e3, e4⟩ := last_tile_index _ _ 3 ha hb (by norm_num)
  have hidx : face_count xs ys - 3 = 6 * (Int.toNat ⌈xs⌉ * Int.toNat ⌈ys⌉ - 1) + 3 := by
    unfold face_count; omega
  refine ⟨?_, by unfold face_count; omega⟩
  rw [hidx]
  simp only [face_vertex, e1, e2, e3, e4, last_tile_size xs hx, last_tile_size ys hy,
    face_tile_vertex]
  have hcx : ((Int.toNat ⌈xs⌉ - 1 : Nat) : F) = ((⌈xs⌉ : ℤ) : F) - 1 := by
    rw [Nat.cast_sub ha, cast_toNat_ceil xs hx]; simp
  have hcy : ((Int.toNat ⌈ys⌉ - 1 : Nat) : F) = ((⌈ys⌉ : ℤ) : F) - 1 := by
    rw [Nat.cast_sub hb, cast_toNat_ceil ys hy]; simp
  rw [hcx, hcy]
  congr 1 <;> ring

theorem face_count_pos (xs ys : F) (hx : 0 < xs) (hy : 0 < ys) : 0 < face_count xs ys := by
  have := Nat.mul_pos (toNat_ceil_pos xs hx) (toNat_ceil_pos ys hy)
  unfold face_count; omega

end plank_positions_lemmas

section plank_positions_main

set_option linter.unusedSectionVars false

set_option linter.unnecessarySeqFocus false

variable {F : Type} [LinearOrderedField F] [FloorRing F]

/-- Every position that create_plank writes, when the rotations by 90, -90 and 180
degrees are exact and the new count fits the `u32` counter: the six faces, in the
order front, back, bottom, top, end, far end, as images of the vertices of the three
generated faces. -/
theorem create_plank_positions (m : math_h F) (mb : mb_t F) (xs ys zs : F)
    (h90 : m.sinf (90 * m.DEG2RAD) = 1 ∧ m.cosf (90 * m.DEG2RAD) = 0)
    (hm90 : m.sinf (-90 * m.DEG2RAD) = -1 ∧ m.cosf (-90 * m.DEG2RAD) = 0)
    (h180 : m.sinf (180 * m.DEG2RAD) = 0 ∧ m.cosf (180 * m.DEG2RAD) = -1)
    (hfit : u32_fits (create_plank m mb xs ys zs).1) :
    (create_plank m mb xs ys zs).1.positions.count =
      mb.positions.count + face_count xs ys + face_count xs ys + face_count xs zs +
        face_count xs zs + face_count zs ys + face_count zs ys ∧
    (∀ j, j < mb.positions.count →
      (create_plank m mb xs ys zs).1.positions.data j = mb.positions.data j) ∧
    (∀ i, i < face_count xs ys →
      (create_plank m mb xs ys zs).1.positions.data (mb.positions.count + i) =
        (face_vertex xs ys (Int.toNat ⌈xs⌉) i).position ∧
      (create_plank m mb xs ys zs).1.positions.data
          (mb.positions.count + face_count xs ys + i) =
        ⟨(face_vertex xs ys (Int.toNat ⌈xs⌉) i).position.x,
         ys - (face_vertex xs ys (Int.toNat ⌈xs⌉) i).position.y,
         -zs - (face_vertex xs ys (Int.toNat ⌈xs⌉) i).position.z⟩) ∧
    (∀ i, i < face_count xs zs →
      (create_plank m mb xs ys zs).1.positions.data
          (mb.positions.count + face_count xs ys + face_count xs ys + i) =
        ⟨(face_vertex xs zs (Int.toNat ⌈xs⌉) i).position.x,
         -(face_vertex xs zs (Int.toNat ⌈xs⌉) i).position.z,
         (face_vertex xs zs (Int.toNat ⌈xs⌉) i).position.y - zs⟩ ∧
      (create_plank m mb xs ys zs).1.positions.data
          (mb.positions.count + face_count xs ys + face_count xs ys + face_count xs zs + i) =
        ⟨(face_vertex xs zs (Int.toNat ⌈xs⌉) i).position.x,
         ys + (face_vertex xs zs (Int.toNat ⌈xs⌉) i).position.z,
         -(face_vertex xs zs (Int.toNat ⌈xs⌉) i).position.y⟩) ∧
    (∀ i, i < face_count zs ys →
      (create_plank m mb xs ys zs).1.positions.data
          (mb.positions.count + face_count xs ys + face_count xs ys + face_count xs zs +
            face_count xs zs + i) =
        ⟨-(face_vertex zs ys (Int.toNat ⌈zs⌉) i).position.z,
         (face_vertex zs ys (Int.toNat ⌈zs⌉) i).position.y,
         (face_vertex zs ys (Int.toNat ⌈zs⌉) i).position.x - zs⟩ ∧
      (create_plank m mb xs ys zs).1.positions.data
          (mb.positions.count + face_count xs ys + face_count xs ys + face_count xs zs +
            face_count xs zs + face_count zs ys + i) =
        ⟨xs + (face_vertex zs ys (Int.toNat ⌈zs⌉) i).position.z,
         (face_vertex zs ys (Int.toNat ⌈zs⌉) i).position.y,
         -(face_vertex zs ys (Int.toNat ⌈zs⌉) i).position.x⟩) := by
  rw [create_plank_blocks] at hfit ⊢
  have hf2 := u32_fits_of_extends (face_transform_dupe_extends _ _ _ _ _) hfit
  have hf1 := u32_fits_of_extends (face_transform_dupe_extends _ _ _ _ _) hf2
  obtain ⟨c1, fr1, new1⟩ := face_dupe_positions _ _ _ _ hf1
  obtain ⟨c2, fr2, new2⟩ := face_transform_dupe_positions _ _ _ _ _ hf2
  obtain ⟨c3, fr3, new3⟩ := face_transform_dupe_positions _ _ _ _ _ hfit
  simp only [face_count]
  rw [c1] at c2 fr2 new2
  rw [c2] at c3 fr3 new3
  obtain ⟨s90, k90⟩ := h90
  obtain ⟨sm90, km90⟩ := hm90
  obtain ⟨s180, k180⟩ := h180
  refine ⟨c3, fun j hj => ?_, fun i hi => ⟨?_, ?_⟩, fun i hi => ⟨?_, ?_⟩,
    fun i hi => ⟨?_, ?_⟩⟩
  · rw [fr3 j (by omega), fr2 j (by omega), fr1 j hj]
  · rw [fr3 _ (by omega), fr2 _ (by omega), (new1 i hi).1]
  · rw [fr3 _ (by omega), fr2 _ (by omega), (new1 i hi).2, matrix_from_x_apply, s180, k180]
    ext <;> simp <;> ring
  · rw [fr3 _ (by omega), (new2 i hi).1, matrix_from_x_apply, s90, k90]
    ext <;> simp <;> ring
  · rw [fr3 _ (by omega), (new2 i hi).2, matrix_from_x_apply, matrix_from_x_apply, s90, k90,
      s180, k180]
    ext <;> simp <;> ring
  · rw [(new3 i hi).1, matrix_from_y_apply, sm90, km90]
    ext <;> simp <;> ring
  · rw [(new3 i hi).2, matrix_from_y_apply, matrix_from_y_apply, sm90, km90, s180, k180]
    ext <;> simp <;> ring

end plank_positions_main

section plank_angled_positions

set_option linter.unusedSectionVars false

set_option linter.unnecessarySeqFocus false

variable {F : Type} [LinearOrderedField F] [FloorRing F]

/-- The function create_plank_angled as a chain of blocks: a transformed face, the
twelve direct vertices, two twice-transformed faces, a transformed and duplicated face,
a transformed face. -/
theorem create_plank_angled_blocks (m : math_h F) (mb : mb_t F) (xs ys zs a1 a2 : F) :
    (create_plank_angled m mb xs ys zs a1 a2).1 =
      face_transform
        (face_transform_dupe
          (face_transform2
            (face_transform2
              (mb_vertices
                (face_transform mb xs zs (matrix_from m ⟨0, 0, -zs⟩ ⟨1, 0, 0⟩ 90 ⟨1, 1, 1⟩))
                (plank_angled_cap_vertices xs ys zs (miter_width m ys a1)
                  (miter_width m ys a2)))
              zs ys
              (matrix_from m ⟨0, 0, -zs⟩ ⟨0, 1, 0⟩ (-90)
                ⟨1, miter_ratio m ys (miter_width m ys a1), 1⟩)
              (matrix_from m ⟨0, 0, 0⟩ ⟨0, 0, 1⟩ (-a1) ⟨1, 1, 1⟩))
            zs ys
            (matrix_from m ⟨0, 0, 0⟩ ⟨0, 1, 0⟩ 90
              ⟨1, miter_ratio m ys (miter_width m ys a2), 1⟩)
            (matrix_from m ⟨xs, 0, 0⟩ ⟨0, 0, 1⟩ a2 ⟨1, 1, 1⟩))
          (xs - miter_width m ys a1 - miter_width m ys a2) ys
          (matrix_from m ⟨miter_width m ys a1, 0, 0⟩ ⟨0, 0, 1⟩ 0 ⟨1, 1, 1⟩)
          (matrix_from m ⟨0, ys, -zs⟩ ⟨1, 0, 0⟩ 180 ⟨1, 1, 1⟩))
        (xs - miter_width m ys a1 - miter_width m ys a2) zs
        (matrix_from m ⟨miter_width m ys a1, ys, 0⟩ ⟨1, 0, 0⟩ (-90) ⟨1, 1, 1⟩) := rfl

/-- The positions of the direct vertices and of the two end faces in the buffer that
create_plank_angled returns, when the new count fits the `u32` counter: the twelve
direct vertices follow the bottom face, then come the vertices of the first end face
and of the second end face, each the image of a vertex of `create_face(zs, ys)` under
the two placements of that face. -/
theorem create_plank_angled_positions (m : math_h F) (mb : mb_t F) (xs ys zs a1 a2 : F)
    (hfit : u32_fits (create_plank_angled m mb xs ys zs a1 a2).1) :
    (∀ j, j < mb.positions.count →
      (create_plank_angled m mb xs ys zs a1 a2).1.positions.data j = mb.positions.data j) ∧
    (∀ k v, (plank_angled_cap_vertices xs ys zs (miter_width m ys a1)
        (miter_width m ys a2))[k]? = some v →
      (create_plank_angled m mb xs ys zs a1 a2).1.positions.data
        (mb.positions.count + face_count xs zs + k) = v.position) ∧
    (∀ i, i < face_count zs ys →
      (create_plank_angled m mb xs ys zs a1 a2).1.positions.data
          (mb.positions.count + face_count xs zs + 12 + i) =
        Vector3Transform
          (Vector3Transform (face_vertex zs ys (Int.toNat ⌈zs⌉) i).position
            (matrix_from m ⟨0, 0, -zs⟩ ⟨0, 1, 0⟩ (-90)
              ⟨1, miter_ratio m ys (miter_width m ys a1), 1⟩))
          (matrix_from m ⟨0, 0, 0⟩ ⟨0, 0, 1⟩ (-a1) ⟨1, 1, 1⟩) ∧
      (create_plank_angled m mb xs ys zs a1 a2).1.positions.data
          (mb.positions.count + face_count xs zs + 12 + face_count zs ys + i) =
        Vector3Transform
          (Vector3Transform (face_vertex zs ys (Int.toNat ⌈zs⌉) i).position
            (matrix_from m ⟨0, 0, 0⟩ ⟨0, 1, 0⟩ 90
              ⟨1, miter_ratio m ys (miter_width m ys a2), 1⟩))
          (matrix_from m ⟨xs, 0, 0⟩ ⟨0, 0, 1⟩ a2 ⟨1, 1, 1⟩)) := by
  rw [create_plank_angled_blocks] at hfit ⊢
  have hf5 := u32_fits_of_extends (face_transform_extends _ _ _ _) hfit
  have hf4 := u32_fits_of_extends (face_transform_dupe_extends _ _ _ _ _) hf5
  have hf3 := u32_fits_of_extends (face_transform2_extends _ _ _ _ _) hf4
  have hf2 := u32_fits_of_extends (face_transform2_extends _ _ _ _ _) hf3
  have hf1 := u32_fits_of_extends ⟨_, mb_vertices_grows _ _⟩ hf2
  obtain ⟨c1, fr1, -⟩ := face_transform_positions _ _ _ _ hf1
  have c2 := (mb_vertices_grows
    (face_transform mb xs zs (matrix_from m ⟨0, 0, -zs⟩ ⟨1, 0, 0⟩ 90 ⟨1, 1, 1⟩))
    (plank_angled_cap_vertices xs ys zs (miter_width m ys a1) (miter_width m ys a2))).1
  have fr2 := (mb_vertices_frame
    (face_transform mb xs zs (matrix_from m ⟨0, 0, -zs⟩ ⟨1, 0, 0⟩ 90 ⟨1, 1, 1⟩))
    (plank_angled_cap_vertices xs ys zs (miter_width m ys a1) (miter_width m ys a2))).1
  have new2 := fun k v h => (mb_vertices_new
    (face_transform mb xs zs (matrix_from m ⟨0, 0, -zs⟩ ⟨1, 0, 0⟩ 90 ⟨1, 1, 1⟩))
    (plank_angled_cap_vertices xs ys zs (miter_width m ys a1) (miter_width m ys a2))
    k v h).1
  have hlen : (plank_angled_cap_vertices xs ys zs (miter_width m ys a1)
      (miter_width m ys a2)).length = 12 := rfl
  obtain ⟨c3, fr3, new3⟩ := face_transform2_positions _ _ _ _ _ hf3
  obtain ⟨c4, fr4, new4⟩ := face_transform2_positions _ _ _ _ _ hf4
  obtain ⟨c5, fr5, -⟩ := face_transform_dupe_positions _ _ _ _ _ hf5
  obtain ⟨-, fr6, -⟩ := face_transform_positions _ _ _ _ hfit
  simp only [face_count]
  rw [hlen, c1] at c2
  rw [c1] at fr2 new2
  rw [c2] at c3 fr3 new3
  rw [c3] at c4 fr4 new4
  rw [c4] at c5 fr5
  rw [c5] at fr6
  refine ⟨fun j hj => ?_, fun k v hk => ?_, fun i hi => ⟨?_, ?_⟩⟩
  · rw [fr6 j (by omega), fr5 j (by omega), fr4 j (by omega), fr3 j (by omega),
      fr2 j (by omega), fr1 j hj]
  · have hk12 : k < 12 := by
      rw [← hlen]; exact (List.getElem?_eq_some_iff.1 hk).1
    rw [fr6 _ (by omega), fr5 _ (by omega), fr4 _ (by omega), fr3 _ (by omega)]
    exact new2 k v hk
  · rw [fr6 _ (by omega), fr5 _ (by omega), fr4 _ (by omega), new3 i hi]
  · rw [fr6 _ (by omega), fr5 _ (by omega), new4 i hi]

/-- The two end faces of create_plank_angled when the rotations by 90 and -90 degrees
are exact: vertex `(px, py, 0)` of the first end face ends at
`(-sin(-a1) rat1 py, cos(-a1) rat1 py, px - zs)` and of the second end face at
`(xs - sin(a2) rat2 py, cos(a2) rat2 py, -px)`. -/
theorem create_plank_angled_end_positions (m : math_h F) (mb : mb_t F)
    (xs ys zs a1 a2 : F)
    (h90 : m.sinf (90 * m.DEG2RAD) = 1 ∧ m.cosf (90 * m.DEG2RAD) = 0)
    (hm90 : m.sinf (-90 * m.DEG2RAD) = -1 ∧ m.cosf (-90 * m.DEG2RAD) = 0)
    (hfit : u32_fits (create_plank_angled m mb xs ys zs a1 a2).1) :
    ∀ i, i < face_count zs ys →
      (create_plank_angled m mb xs ys zs a1 a2).1.positions.data
          (mb.positions.count + face_count xs zs + 12 + i) =
        ⟨-(m.sinf (-a1 * m.DEG2RAD) * (miter_ratio m ys (miter_width m ys a1) *
            (face_vertex zs ys (Int.toNat ⌈zs⌉) i).position.y)),
         m.cosf (-a1 * m.DEG2RAD) * (miter_ratio m ys (miter_width m ys a1) *
            (face_vertex zs ys (Int.toNat ⌈zs⌉) i).position.y),
         (face_vertex zs ys (Int.toNat ⌈zs⌉) i).position.x - zs⟩ ∧
      (create_plank_angled m mb xs ys zs a1 a2).1.positions.data
          (mb.positions.count + face_count xs zs + 12 + face_count zs ys + i) =
        ⟨xs - m.sinf (a2 * m.DEG2RAD) * (miter_ratio m ys (miter_width m ys a2) *
            (face_vertex zs ys (Int.toNat ⌈zs⌉) i).position.y),
         m.cosf (a2 * m.DEG2RAD) * (miter_ratio m ys (miter_width m ys a2) *
            (face_vertex zs ys (Int.toNat ⌈zs⌉) i).position.y),
         -(face_vertex zs ys (Int.toNat ⌈zs⌉) i).position.x⟩ := by
  intro i hi
  obtain ⟨-, -, hend⟩ := create_plank_angled_positions m mb xs ys zs a1 a2 hfit
  obtain ⟨s90, k90⟩ := h90
  obtain ⟨sm90, km90⟩ := hm90
  have hz0 := (face_vertex_position_bounds zs ys i hi).2.2
  constructor
  · rw [(hend i hi).1, matrix_from_y_apply, matrix_from_z_apply, sm90, km90, hz0]
    ext <;> simp <;> ring
  · rw [(hend i hi).2, matrix_from_y_apply, matrix_from_z_apply, s90, k90, hz0]
    ext <;> simp <;> ring

/-- The miter width for 45 degrees is `ys`, as `90 - 45 = 45`. -/
theorem miter_width_45 (m : math_h F) (ys : F) (hs : m.sinf (45 * m.DEG2RAD) ≠ 0) :
    miter_width m ys 45 = ys := by
  unfold miter_width
  rw [show (90 - 45 : F) = 45 by norm_num]
  exact div_mul_cancel₀ ys hs

end plank_angled_positions

section miter_lemmas

set_option linter.unusedSectionVars false

variable {F : Type} [LinearOrderedField F]

/-- With exact arithmetic the quarter turns have sines 1 and -1 and cosine 0. -/
theorem math_exact_quarter (m : math_h F) (hm : math_exact m) :
    (m.sinf (90 * m.DEG2RAD) = 1 ∧ m.cosf (90 * m.DEG2RAD) = 0) ∧
    (m.sinf (-90 * m.DEG2RAD) = -1 ∧ m.cosf (-90 * m.DEG2RAD) = 0) := by
  obtain ⟨hodd, heven, hpy, -, h90, -⟩ := hm
  have hc : m.cosf (90 * m.DEG2RAD) = 0 := by
    have h := hpy (90 * m.DEG2RAD)
    rw [h90] at h
    have h2 : m.cosf (90 * m.DEG2RAD) ^ 2 = 0 := by linarith
    exact pow_eq_zero_iff (by norm_num) |>.1 h2
  refine ⟨⟨h90, hc⟩, ?_, ?_⟩
  · rw [neg_mul, hodd, h90]
  · rw [neg_mul, heven, hc]

/-- With exact arithmetic and a positive `sin(a)`, the scale `rat` of an end face of
create_plank_angled is `1 / sin(a)`: the slanted edge has length `ys / sin(a)`. -/
theorem miter_ratio_exact (m : math_h F) (hm : math_exact m) (ys a : F) (hy : 0 < ys)
    (hs : 0 < m.sinf (a * m.DEG2RAD)) :
    miter_ratio m ys (miter_width m ys a) = 1 / m.sinf (a * m.DEG2RAD) ∧
    miter_width m ys a / ys = m.cosf (a * m.DEG2RAD) / m.sinf (a * m.DEG2RAD) := by
  obtain ⟨-, -, hpy, hco, -, hsq⟩ := hm
  have hsne : m.sinf (a * m.DEG2RAD) ≠ 0 := ne_of_gt hs
  have hyne : ys ≠ 0 := ne_of_gt hy
  have hw : miter_width m ys a = ys * m.cosf (a * m.DEG2RAD) / m.sinf (a * m.DEG2RAD) := by
    unfold miter_width
    rw [hco a]
    field_simp
  have hsum : miter_width m ys a * miter_width m ys a + ys * ys =
      (ys / m.sinf (a * m.DEG2RAD)) * (ys / m.sinf (a * m.DEG2RAD)) := by
    have h := hpy (a * m.DEG2RAD)
    rw [hw, div_mul_div_comm, div_mul_div_comm, div_add' _ _ _ (mul_ne_zero hsne hsne)]
    congr 1
    linear_combination (ys * ys) * h
  have hpos : 0 < ys / m.sinf (a * m.DEG2RAD) := div_pos hy hs
  obtain ⟨hr0, hrr⟩ := hsq (miter_width m ys a * miter_width m ys a + ys * ys)
    (by rw [hsum]; positivity)
  have hroot : m.sqrtf (miter_width m ys a * miter_width m ys a + ys * ys) =
      ys / m.sinf (a * m.DEG2RAD) := by
    rw [hsum] at hrr
    rw [hsum]
    rw [hsum] at hr0
    rcases mul_self_eq_mul_self_iff.1 hrr with h | h
    · exact h
    · linarith
  constructor
  · unfold miter_ratio
    rw [hroot]
    field_simp
    ring
  · rw [hw]
    field_simp
    ring

end miter_lemmas

section strip_window_lemmas

set_option linter.unusedSectionVars false

variable {F : Type} [LinearOrderedField F]

/-- One call on a strip whose fill count is at most 3 leaves the fill count at most 3
and writes no window slot of index 4 or more. -/
theorem mb_strip_call_run_window (s : mb_strip_t F) (call : mb_strip_call F)
    (h : s.count ≤ 3) :
    (mb_strip_call_run s call).count ≤ 3 ∧
    ∀ i, 4 ≤ i →
      (mb_strip_call_run s call).positions i = s.positions i ∧
      (mb_strip_call_run s call).normals i = s.normals i ∧
      (mb_strip_call_run s call).texcoords i = s.texcoords i := by
  cases call with
  | reset => exact ⟨Nat.zero_le 3, fun i _ => ⟨rfl, rfl, rfl⟩⟩
  | push v =>
    by_cases h3 : s.count = 3
    · refine ⟨?_, fun i hi => ?_⟩
      · simp [mb_strip_call_run, mb_strip_push, h3]
      · have h0 : i ≠ 0 := by omega
        have h1 : i ≠ 1 := by omega
        have h4 : i ≠ 3 := by omega
        simp [mb_strip_call_run, mb_strip_push, h3, store, h0, h1, h4]
    · have hlt : s.count + 1 ≠ 4 := by omega
      have e : mb_strip_call_run s (mb_strip_call.push v) =
          mb_strip_push s v.position v.normal v.texcoord := rfl
      rw [e, mb_strip_push_below s _ _ _ hlt]
      refine ⟨by show s.count + 1 ≤ 3; omega, fun i hi => ?_⟩
      have hne : i ≠ s.count := by omega
      simp [store, hne]

/-- Any sequence of calls on a strip whose fill count is at most 3 leaves the fill
count at most 3 and writes no window slot of index 4 or more. -/
theorem mb_strip_calls_run_window (s : mb_strip_t F) (calls : List (mb_strip_call F))
    (h : s.count ≤ 3) :
    (mb_strip_calls_run s calls).count ≤ 3 ∧
    ∀ i, 4 ≤ i →
      (mb_strip_calls_run s calls).positions i = s.positions i ∧
      (mb_strip_calls_run s calls).normals i = s.normals i ∧
      (mb_strip_calls_run s calls).texcoords i = s.texcoords i := by
  induction calls generalizing s with
  | nil => exact ⟨h, fun i _ => ⟨rfl, rfl, rfl⟩⟩
  | cons call calls ih =>
    obtain ⟨hc, hw⟩ := mb_strip_call_run_window s call h
    obtain ⟨hc2, hw2⟩ := ih (mb_strip_call_run s call) hc
    have e : mb_strip_calls_run s (call :: calls) =
        mb_strip_calls_run (mb_strip_call_run s call) calls := rfl
    rw [e]
    refine ⟨hc2, fun i hi => ?_⟩
    obtain ⟨a1, a2, a3⟩ := hw2 i hi
    obtain ⟨b1, b2, b3⟩ := hw i hi
    exact ⟨a1.trans b1, a2.trans b2, a3.trans b3⟩

end strip_window_lemmas

/-! ## Claims -/

section claims_parallel

set_option linter.unusedSectionVars false

variable {F : Type} [LinearOrderedField F]

/-- C1, parallelism invariant.  On a buffer whose three sequences have equal length,
each of mb_vertex, mb_clear, mb_view_copy (as destination), mb_view_transform,
mb_view_dupe, mb_strip_push (through any strip that points to the buffer),
create_face, create_plank, create_plank_angled and create_wall leaves the three
lengths equal; hence every buffer reachable from the zeroed buffer by these
operations has sequences of equal length. -/
theorem C1_parallelism_invariant [FloorRing F] (m : math_h F) :
    (∀ mb : mb_t F, mb_parallel mb →
      (∀ p n t, mb_parallel (mb_vertex mb p n t)) ∧
      mb_parallel (mb_clear mb) ∧
      (∀ src view, mb_parallel (mb_view_copy mb src view).1) ∧
      (∀ view M, mb_parallel (mb_view_transform mb view M)) ∧
      (∀ view M, mb_parallel (mb_view_dupe mb view M).1) ∧
      (∀ (s : mb_strip_t F) p n t, s.mb = mb → mb_parallel (mb_strip_push s p n t).mb) ∧
      (∀ xs ys, mb_parallel (create_face mb xs ys).1) ∧
      (∀ xs ys zs, mb_parallel (create_plank m mb xs ys zs).1) ∧
      (∀ xs ys zs a1 a2, mb_parallel (create_plank_angled m mb xs ys zs a1 a2).1) ∧
      mb_parallel (create_wall m mb).1) ∧
    (∀ mb : mb_t F, mb_reachable m mb → mb_parallel mb) := by
  have hclear : ∀ mb : mb_t F, mb_parallel (mb_clear mb) := fun mb => ⟨rfl, rfl⟩
  refine ⟨fun mb h => ⟨?_, hclear mb, ?_, ?_, ?_, ?_, ?_, ?_, ?_, ?_⟩, ?_⟩
  · exact fun p n t => mb_extends_parallel (mb_vertex_extends mb p n t) h
  · exact fun src view => mb_extends_parallel (mb_view_copy_extends mb src view) h
  · exact fun view M => mb_extends_parallel (mb_view_transform_extends mb view M) h
  · exact fun view M => mb_extends_parallel (mb_view_dupe_extends mb view M) h
  · intro s p n t hs
    subst hs
    exact mb_extends_parallel (mb_strip_push_extends s p n t) h
  · exact fun xs ys => mb_extends_parallel (create_face_extends mb xs ys) h
  · exact fun xs ys zs => mb_extends_parallel (create_plank_extends m mb xs ys zs) h
  · exact fun xs ys zs a1 a2 =>
      mb_extends_parallel (create_plank_angled_extends m mb xs ys zs a1 a2) h
  · exact mb_extends_parallel (create_wall_extends m mb) h
  · intro mb hr
    induction hr with
    | zero => exact ⟨rfl, rfl⟩
    | vertex mb p n t _ ih => exact mb_extends_parallel (mb_vertex_extends mb p n t) ih
    | clear mb _ _ => exact hclear mb
    | view_copy mb src view _ ih =>
      exact mb_extends_parallel (mb_view_copy_extends mb src view) ih
    | view_transform mb view M _ ih =>
      exact mb_extends_parallel (mb_view_transform_extends mb view M) ih
    | view_dupe mb view M _ ih =>
      exact mb_extends_parallel (mb_view_dupe_extends mb view M) ih
    | strip_push s p n t _ ih => exact mb_extends_parallel (mb_strip_push_extends s p n t) ih
    | face mb xs ys _ ih => exact mb_extends_parallel (create_face_extends mb xs ys) ih
    | plank mb xs ys zs _ ih =>
      exact mb_extends_parallel (create_plank_extends m mb xs ys zs) ih
    | plank_angled mb xs ys zs a1 a2 _ ih =>
      exact mb_extends_parallel (create_plank_angled_extends m mb xs ys zs a1 a2) ih
    | wall mb _ ih => exact mb_extends_parallel (create_wall_extends m mb) ih

/-- Witness of C1: the one-vertex buffer `mb_one` has parallel sequences, and so has
the buffer that create_wall makes of it. -/
theorem C1_parallelism_invariant_witness :
    mb_parallel mb_one ∧ mb_parallel (create_wall math_rat mb_one).1 :=
  ⟨by decide, ((C1_parallelism_invariant math_rat).1 mb_one (by decide)).2.2.2.2.2.2.2.2.2⟩

end claims_parallel

section claims_views

set_option linter.unusedSectionVars false

variable {F : Type} [LinearOrderedField F]

/-- C2, mb_view_copy.  For a destination with sequences of equal length and a view in
range of the source (the source may be the destination itself), the call adds
`view.vertex_count` to the vertex count of each sequence (which stay of equal
length), leaves every vertex below the old count unchanged, makes the vertex at `old count + i` equal to the source vertex at
`view.vertex_start + i` in position, normal and texcoord, and returns the view
`(old count, view.vertex_count)`. -/
theorem C2_mb_view_copy (dst src : mb_t F) (view : mb_view_t)
    (hpar : mb_parallel dst) (_hrange : mb_view_in_range src view) :
    mb_grows dst (mb_view_copy dst src view).1 view.vertex_count ∧
    mb_parallel (mb_view_copy dst src view).1 ∧
    (∀ i, i < dst.positions.count → mb_get (mb_view_copy dst src view).1 i = mb_get dst i) ∧
    (∀ i, i < view.vertex_count →
      mb_get (mb_view_copy dst src view).1 (dst.positions.count + i) =
        mb_get src (view.vertex_start + i)) ∧
    (mb_view_copy dst src view).2 =
      { vertex_start := dst.positions.count, vertex_count := view.vertex_count } := by
  refine ⟨mb_view_copy_grows dst src view,
    mb_grows_parallel (mb_view_copy_grows dst src view) hpar, fun i hi => ?_, fun i hi => ?_, rfl⟩
  · have h : ¬ (dst.positions.count ≤ i ∧ i < dst.positions.count + view.vertex_count) := by
      omega
    rw [mb_view_copy_get, if_neg h]
  · have h : dst.positions.count ≤ dst.positions.count + i ∧
        dst.positions.count + i < dst.positions.count + view.vertex_count := by omega
    rw [mb_view_copy_get, if_pos h, Nat.add_sub_cancel_left]

/-- Witness of C2: copying the view `(0, 2)` of `mb_two` into `mb_two` itself. -/
theorem C2_mb_view_copy_witness :
    (mb_parallel mb_two ∧ mb_view_in_range mb_two ⟨0, 2⟩) ∧
    (mb_view_copy mb_two mb_two ⟨0, 2⟩).1.positions.count = 4 ∧
    mb_get (mb_view_copy mb_two mb_two ⟨0, 2⟩).1 3 = mb_get mb_two 1 ∧
    (mb_view_copy mb_two mb_two ⟨0, 2⟩).2 = ⟨2, 2⟩ :=
  have h := C2_mb_view_copy mb_two mb_two ⟨0, 2⟩ (by decide) (by decide)
  ⟨⟨by decide, by decide⟩, h.1.1, h.2.2.2.1 1 (by decide), h.2.2.2.2⟩

/-- C3, mb_view_dupe.  For an in-range view the call adds `view.vertex_count` to the
vertex count, leaves every vertex that existed before the call unchanged in position,
normal and texcoord (in particular the vertices of the original view), and returns
the view `(old count, view.vertex_count)` over the appended copies: the vertex at
offset `i` of the returned view is the copy of vertex `i` of the original view, with
its position transformed by `M`, its normal by the transpose of the inverse of `M` and
its texcoord as it was, and the returned view ends at the new vertex count. -/
theorem C3_mb_view_dupe (mb : mb_t F) (view : mb_view_t) (M : Matrix F)
    (hrange : mb_view_in_range mb view) :
    mb_grows mb (mb_view_dupe mb view M).1 view.vertex_count ∧
    (∀ i, i < mb.positions.count → mb_get (mb_view_dupe mb view M).1 i = mb_get mb i) ∧
    (∀ i, mb_view_mem view i → mb_get (mb_view_dupe mb view M).1 i = mb_get mb i) ∧
    (mb_view_dupe mb view M).2 =
      { vertex_start := mb.positions.count, vertex_count := view.vertex_count } ∧
    (∀ i, i < view.vertex_count →
      mb_get (mb_view_dupe mb view M).1 ((mb_view_dupe mb view M).2.vertex_start + i) =
        { position := Vector3Transform (mb_get mb (view.vertex_start + i)).position M
          normal := Vector3Transform (mb_get mb (view.vertex_start + i)).normal
            (MatrixTranspose (MatrixInvert M))
          texcoord := (mb_get mb (view.vertex_start + i)).texcoord }) ∧
    mb_view_in_range (mb_view_dupe mb view M).1 (mb_view_dupe mb view M).2 ∧
    (mb_view_dupe mb view M).2.vertex_start + (mb_view_dupe mb view M).2.vertex_count =
      (mb_view_dupe mb view M).1.positions.count := by
  have hg := (mb_view_dupe_grows mb view M).1
  refine ⟨mb_view_dupe_grows mb view M, fun i hi => mb_view_dupe_frame mb view M i hi,
    fun i hi => mb_view_dupe_frame mb view M i ?_, rfl,
    fun i hi => mb_view_dupe_new mb view M i hi, ?_, ?_⟩
  · unfold mb_view_in_range at hrange
    unfold mb_view_mem at hi
    omega
  · unfold mb_view_in_range
    rw [mb_view_dupe_view, hg]
  · rw [mb_view_dupe_view, hg]

/-- Witness of C3: duplicating the view `(1, 1)` of `mb_two` under a translation by
`(1, 0, 0)`: the copy of vertex 1, `((6,7,8), (0,1,0), (9,10))`, is at index 2 with
position `(7,7,8)` and texcoord `(9,10)`. -/
theorem C3_mb_view_dupe_witness :
    mb_view_in_range mb_two ⟨1, 1⟩ ∧
    (mb_view_dupe mb_two ⟨1, 1⟩ (MatrixTranslate 1 0 0)).1.positions.count = 3 ∧
    mb_get (mb_view_dupe mb_two ⟨1, 1⟩ (MatrixTranslate 1 0 0)).1 1 = mb_get mb_two 1 ∧
    (mb_view_dupe mb_two ⟨1, 1⟩ (MatrixTranslate 1 0 0)).2 = ⟨2, 1⟩ ∧
    (mb_get (mb_view_dupe mb_two ⟨1, 1⟩ (MatrixTranslate 1 0 0)).1 2).position = ⟨7, 7, 8⟩ ∧
    (mb_get (mb_view_dupe mb_two ⟨1, 1⟩ (MatrixTranslate 1 0 0)).1 2).texcoord = ⟨9, 10⟩ := by
  have h := C3_mb_view_dupe mb_two ⟨1, 1⟩ (MatrixTranslate 1 0 0) (by decide)
  have h5 := h.2.2.2.2.1 0 (by decide)
  refine ⟨by decide, h.1.1, h.2.1 1 (by decide), h.2.2.2.1,
    (congrArg vertex_t.position h5).trans ?_, (congrArg vertex_t.texcoord h5).trans ?_⟩
  · simp [mb_get, Vector3Transform, MatrixTranslate, mb_two, mb_one, mb_zero, mb_vertex,
      store]
    norm_num
  · simp [mb_get, mb_two, mb_one, mb_zero, mb_vertex, store]

/-- Counterexample to C4 as stated: duplicating the only vertex of `mb_one` (view
`(0, 1)`, in range) under the identity matrix changes the vertex count from 1
to 2. -/
theorem C4_counterexample :
    mb_view_in_range mb_one ⟨0, 1⟩ ∧
    mb_one.positions.count = 1 ∧
    (mb_view_dupe mb_one ⟨0, 1⟩ MatrixIdentity).1.positions.count = 2 ∧
    (mb_view_dupe mb_one ⟨0, 1⟩ MatrixIdentity).1.positions.count ≠ mb_one.positions.count := by
  refine ⟨by decide, rfl, ?_, ?_⟩
  · exact (mb_view_dupe_grows mb_one ⟨0, 1⟩ MatrixIdentity).1
  · rw [(mb_view_dupe_grows mb_one ⟨0, 1⟩ MatrixIdentity).1]; decide

/-- C4 as amended.  For an in-range view, mb_view_dupe adds exactly
`view.vertex_count` to the vertex count of each sequence, so the vertex count after
the call equals the count before it exactly when the view is empty. -/
theorem C4_mb_view_dupe_count (mb : mb_t F) (view : mb_view_t) (M : Matrix F)
    (_hrange : mb_view_in_range mb view) :
    (mb_view_dupe mb view M).1.positions.count = mb.positions.count + view.vertex_count ∧
    (mb_view_dupe mb view M).1.normals.count = mb.normals.count + view.vertex_count ∧
    (mb_view_dupe mb view M).1.texcoords.count = mb.texcoords.count + view.vertex_count ∧
    ((mb_view_dupe mb view M).1.positions.count = mb.positions.count ↔
      view.vertex_count = 0) := by
  obtain ⟨hp, hn, ht⟩ := mb_view_dupe_grows mb view M
  exact ⟨hp, hn, ht, by omega⟩

/-- Witness of C4 as amended: duplicating the view `(0, 2)` of `mb_two`. -/
theorem C4_mb_view_dupe_count_witness :
    mb_view_in_range mb_two ⟨0, 2⟩ ∧
    (mb_view_dupe mb_two ⟨0, 2⟩ MatrixIdentity).1.positions.count = 4 :=
  ⟨by decide, (C4_mb_view_dupe_count mb_two ⟨0, 2⟩ MatrixIdentity (by decide)).1⟩

/-- C5, mb_view_transform.  For an in-range view the call changes no count and no
texcoord, changes no position and no normal outside the range of the view, replaces
each position in the range by its image under `M` (`Vector3Transform`) and each normal
in the range by its image under `MatrixTranspose (MatrixInvert M)`, which is the
transpose of the two-sided inverse of `M` whenever the determinant of `M` is not
zero. -/
theorem C5_mb_view_transform (mb : mb_t F) (view : mb_view_t) (M : Matrix F)
    (_hrange : mb_view_in_range mb view) :
    mb_grows mb (mb_view_transform mb view M) 0 ∧
    (mb_view_transform mb view M).texcoords = mb.texcoords ∧
    (∀ i, ¬ mb_view_mem view i →
      (mb_view_transform mb view M).positions.data i = mb.positions.data i ∧
      (mb_view_transform mb view M).normals.data i = mb.normals.data i) ∧
    (∀ i, mb_view_mem view i →
      (mb_view_transform mb view M).positions.data i =
        Vector3Transform (mb.positions.data i) M ∧
      (mb_view_transform mb view M).normals.data i =
        Vector3Transform (mb.normals.data i) (MatrixTranspose (MatrixInvert M))) ∧
    (MatrixDeterminant M ≠ 0 →
      MatrixMultiply (MatrixInvert M) M = MatrixIdentity ∧
      MatrixMultiply M (MatrixInvert M) = MatrixIdentity) := by
  refine ⟨mb_view_transform_grows mb view M, ?_, fun i hi => ?_, fun i hi => ?_,
    MatrixInvert_mul M⟩
  · simp [mb_view_transform]
  · have h := mb_view_transform_get mb view M i
    rw [if_neg hi] at h
    exact ⟨congrArg vertex_t.position h, congrArg vertex_t.normal h⟩
  · have h := mb_view_transform_get mb view M i
    rw [if_pos hi] at h
    exact ⟨congrArg vertex_t.position h, congrArg vertex_t.normal h⟩

/-- Witness of C5: scaling the second vertex of `mb_two` by `(2, 2, 2)`. -/
theorem C5_mb_view_transform_witness :
    mb_view_in_range mb_two ⟨1, 1⟩ ∧
    (mb_view_transform mb_two ⟨1, 1⟩ (MatrixScale 2 2 2)).positions.count = 2 ∧
    (mb_view_transform mb_two ⟨1, 1⟩ (MatrixScale 2 2 2)).positions.data 0 =
      mb_two.positions.data 0 ∧
    (mb_view_transform mb_two ⟨1, 1⟩ (MatrixScale 2 2 2)).positions.data 1 =
      Vector3Transform (mb_two.positions.data 1) (MatrixScale 2 2 2) :=
  have h := C5_mb_view_transform mb_two ⟨1, 1⟩ (MatrixScale 2 2 2) (by decide)
  ⟨by decide, h.1.1, (h.2.2.1 0 (by decide)).1, (h.2.2.2.1 1 (by decide)).1⟩

/-- The normal matrix of a translation: the identity, with the negated offsets in the
fourth row, which `Vector3Transform` does not read. -/
theorem MatrixTranslate_normal_matrix (dx dy dz : F) :
    MatrixTranspose (MatrixInvert (MatrixTranslate dx dy dz)) =
      { m0 := 1, m4 := 0, m8 := 0, m12 := 0
        m1 := 0, m5 := 1, m9 := 0, m13 := 0
        m2 := 0, m6 := 0, m10 := 1, m14 := 0
        m3 := -dx, m7 := -dy, m11 := -dz, m15 := 1 } := by
  simp [MatrixTranspose, MatrixInvert, MatrixTranslate]

/-- C6, transform by a translation.  For an in-range view, mb_view_transform with
`MatrixTranslate dx dy dz` replaces every position `p` in the view by
`p + (dx, dy, dz)` and leaves every normal in the view unchanged: the normal matrix is
the identity but for its fourth row, which holds `(-dx, -dy, -dz, 1)` and is not read
by `Vector3Transform`. -/
theorem C6_transform_translate (mb : mb_t F) (view : mb_view_t) (dx dy dz : F)
    (_hrange : mb_view_in_range mb view) :
    (∀ i, mb_view_mem view i →
      (mb_view_transform mb view (MatrixTranslate dx dy dz)).positions.data i =
        { x := (mb.positions.data i).x + dx
          y := (mb.positions.data i).y + dy
          z := (mb.positions.data i).z + dz } ∧
      (mb_view_transform mb view (MatrixTranslate dx dy dz)).normals.data i =
        mb.normals.data i) ∧
    MatrixTranspose (MatrixInvert (MatrixTranslate dx dy dz)) =
      { m0 := 1, m4 := 0, m8 := 0, m12 := 0
        m1 := 0, m5 := 1, m9 := 0, m13 := 0
        m2 := 0, m6 := 0, m10 := 1, m14 := 0
        m3 := -dx, m7 := -dy, m11 := -dz, m15 := 1 } := by
  refine ⟨fun i hi => ?_, MatrixTranslate_normal_matrix dx dy dz⟩
  have h := mb_view_transform_get mb view (MatrixTranslate dx dy dz) i
  rw [if_pos hi, MatrixTranslate_normal_matrix] at h
  refine ⟨(congrArg vertex_t.position h).trans ?_, (congrArg vertex_t.normal h).trans ?_⟩
  · simp [Vector3Transform, MatrixTranslate]
  · simp [Vector3Transform]

/-- Witness of C6: translating both vertices of `mb_two` by `(10, 20, 30)`. -/
theorem C6_transform_translate_witness :
    mb_view_in_range mb_two ⟨0, 2⟩ ∧
    (mb_view_transform mb_two ⟨0, 2⟩ (MatrixTranslate 10 20 30)).positions.data 1 =
      ⟨16, 27, 38⟩ ∧
    (mb_view_transform mb_two ⟨0, 2⟩ (MatrixTranslate 10 20 30)).normals.data 1 =
      ⟨0, 1, 0⟩ := by
  have h := (C6_transform_translate mb_two ⟨0, 2⟩ 10 20 30 (by decide)).1 1 (by decide)
  refine ⟨by decide, h.1.trans ?_, h.2.trans ?_⟩
  · simp [mb_two, mb_one, mb_zero, mb_vertex, store]; norm_num
  · simp [mb_two, mb_one, mb_zero, mb_vertex, store]

end claims_views

section claims_bracket

set_option linter.unusedSectionVars false

variable {F : Type} [LinearOrderedField F]

theorem mb_call_run_extends [FloorRing F] (m : math_h F) (mb : mb_t F) (call : mb_call F) :
    mb_extends mb (mb_call_run m mb call) := by
  cases call with
  | vertex p n t => exact mb_vertex_extends mb p n t
  | strip_push s p n t => exact mb_strip_push_extends { s with mb := mb } p n t
  | view_copy src v => exact mb_view_copy_extends mb src v
  | view_copy_self v => exact mb_view_copy_extends mb mb v
  | view_dupe v M => exact mb_view_dupe_extends mb v M
  | face xs ys => exact create_face_extends mb xs ys
  | plank xs ys zs => exact create_plank_extends m mb xs ys zs
  | plank_angled xs ys zs a1 a2 => exact create_plank_angled_extends m mb xs ys zs a1 a2
  | wall => exact create_wall_extends m mb
  | view_begin => exact mb_extends_refl mb
  | view_end v => exact mb_extends_refl mb

theorem mb_calls_run_extends [FloorRing F] (m : math_h F) (mb : mb_t F)
    (calls : List (mb_call F)) : mb_extends mb (mb_calls_run m mb calls) := by
  induction calls generalizing mb with
  | nil => exact mb_extends_refl mb
  | cons call calls ih =>
    exact mb_extends_trans (mb_call_run_extends m mb call) (ih (mb_call_run m mb call))

/-- C7, view bracketing.  Let `v = mb_view_begin(mb)`, let any sequence of append-only
calls (mb_vertex, mb_strip_push, mb_view_copy, mb_view_dupe, the four generators, and
nested mb_view_begin and mb_view_end calls) run, and let `w = mb_view_end(mb, v)` on
the buffer they leave, whose count fits the `u32` counter.  Then `w.vertex_start` is
the vertex count at begin, each of the three sequences has grown by exactly
`w.vertex_count`, and `w.vertex_start + w.vertex_count` is the vertex count at
end. -/
theorem C7_view_bracketing [FloorRing F] (m : math_h F) (mb : mb_t F)
    (calls : List (mb_call F))
    (hfit : (mb_calls_run m mb calls).positions.count < 4294967296) :
    (mb_view_end (mb_calls_run m mb calls) (mb_view_begin mb)).vertex_start =
      mb.positions.count ∧
    mb_grows mb (mb_calls_run m mb calls)
      (mb_view_end (mb_calls_run m mb calls) (mb_view_begin mb)).vertex_count ∧
    (mb_view_end (mb_calls_run m mb calls) (mb_view_begin mb)).vertex_start +
      (mb_view_end (mb_calls_run m mb calls) (mb_view_begin mb)).vertex_count =
      (mb_calls_run m mb calls).positions.count := by
  obtain ⟨n, hn⟩ := mb_calls_run_extends m mb calls
  have hp := hn.1
  have hc : (mb_view_end (mb_calls_run m mb calls) (mb_view_begin mb)).vertex_count = n := by
    simp only [mb_view_end, mb_view_begin, hp]
    exact u32_sub_add _ _ (by omega)
  rw [hc]
  exact ⟨rfl, hn, by simp only [mb_view_end, mb_view_begin]; omega⟩

end claims_bracket

section claims_bracket_witness

set_option linter.unusedSectionVars false

variable {F : Type} [LinearOrderedField F]

theorem ceil_five_halves [FloorRing F] : Int.toNat ⌈(5 / 2 : F)⌉ = 3 := by
  have h : ⌈(5 / 2 : F)⌉ = 3 := by
    rw [Int.ceil_eq_iff]
    constructor <;> norm_num
  rw [h]; rfl

theorem calls_example_count :
    (mb_calls_run math_rat mb_one calls_example).positions.count = 21 := by
  simp only [calls_example, mb_calls_run, List.foldl, mb_call_run]
  rw [(mb_view_dupe_grows _ _ _).1, (mb_vertex_grows _ _ _ _).1, (create_face_grows _ _ _).1,
    ceil_five_halves, Int.ceil_one]
  rfl

/-- Witness of C7: the bracket `calls_example` run on the one-vertex buffer `mb_one`
ends at 21 vertices and yields the view `(1, 20)`. -/
theorem C7_view_bracketing_witness :
    (mb_calls_run math_rat mb_one calls_example).positions.count < 4294967296 ∧
    (mb_view_end (mb_calls_run math_rat mb_one calls_example) (mb_view_begin mb_one)).vertex_start
      = 1 ∧
    (mb_view_end (mb_calls_run math_rat mb_one calls_example) (mb_view_begin mb_one)).vertex_start
      + (mb_view_end (mb_calls_run math_rat mb_one calls_example)
          (mb_view_begin mb_one)).vertex_count = 21 := by
  have hfit : (mb_calls_run math_rat mb_one calls_example).positions.count < 4294967296 := by
    rw [calls_example_count]; decide
  have h := C7_view_bracketing math_rat mb_one calls_example hfit
  exact ⟨hfit, h.1, h.2.2.trans calls_example_count⟩

end claims_bracket_witness

section claims_flush

set_option linter.unusedSectionVars false

variable {F : Type} [LinearOrderedField F]

/-- C8, strip flush.  When the window holds three corners (fill count 3), pushing a
fourth appends exactly the six vertices `c0, c1, c2, c3, c2, c1` to the target
buffer, each with its own position, normal and texcoord, and changes nothing that was
there; afterwards slot 0 holds `c2`, slot 1 holds `c3` and the fill count is 2.  A
push that leaves the fill count below 4 leaves the buffer as it was. -/
theorem C8_strip_flush (s : mb_strip_t F) (p n : Vector3 F) (t : Vector2 F) :
    (s.count = 3 →
      (mb_strip_push s p n t).mb =
        mb_vertices s.mb [mb_strip_slot s 0, mb_strip_slot s 1, mb_strip_slot s 2, ⟨p, n, t⟩,
          mb_strip_slot s 2, mb_strip_slot s 1] ∧
      mb_grows s.mb (mb_strip_push s p n t).mb 6 ∧
      (∀ i v, [mb_strip_slot s 0, mb_strip_slot s 1, mb_strip_slot s 2, ⟨p, n, t⟩,
          mb_strip_slot s 2, mb_strip_slot s 1][i]? = some v →
        (mb_strip_push s p n t).mb.positions.data (s.mb.positions.count + i) = v.position ∧
        (mb_strip_push s p n t).mb.normals.data (s.mb.normals.count + i) = v.normal ∧
        (mb_strip_push s p n t).mb.texcoords.data (s.mb.texcoords.count + i) = v.texcoord) ∧
      ((∀ j, j < s.mb.positions.count →
          (mb_strip_push s p n t).mb.positions.data j = s.mb.positions.data j) ∧
        (∀ j, j < s.mb.normals.count →
          (mb_strip_push s p n t).mb.normals.data j = s.mb.normals.data j) ∧
        (∀ j, j < s.mb.texcoords.count →
          (mb_strip_push s p n t).mb.texcoords.data j = s.mb.texcoords.data j)) ∧
      mb_strip_slot (mb_strip_push s p n t) 0 = mb_strip_slot s 2 ∧
      mb_strip_slot (mb_strip_push s p n t) 1 = ⟨p, n, t⟩ ∧
      (mb_strip_push s p n t).count = 2) ∧
    (s.count + 1 < 4 →
      (mb_strip_push s p n t).mb = s.mb ∧ (mb_strip_push s p n t).count = s.count + 1) := by
  constructor
  · intro h
    obtain ⟨e, s0, s1, hc, _⟩ := mb_strip_push_flush s p n t h
    refine ⟨e, ?_, ?_, ?_, s0, s1, hc⟩
    · rw [e]; exact mb_vertices_grows _ _
    · intro i v hv
      rw [e]; exact mb_vertices_new _ _ i v hv
    · rw [e]; exact mb_vertices_frame _ _
  · intro h
    rw [mb_strip_push_below s p n t (by omega)]
    exact ⟨rfl, rfl⟩

end claims_flush

section claims_recurrence

set_option linter.unusedSectionVars false

variable {F : Type} [LinearOrderedField F]

/-- Witness of C8: `strip_example` holds three corners; the push of a fourth takes the
buffer from 1 to 7 vertices, writes corner 3 at index 4 and leaves fill count 2, and
a push into the freshly created strip leaves the buffer alone. -/
theorem C8_strip_flush_witness :
    (strip_example.count = 3 ∧ (mb_strip_create mb_one).count + 1 < 4) ∧
    (mb_strip_push strip_example ⟨3, 0, 0⟩ ⟨0, 0, 1⟩ ⟨3, 0⟩).mb.positions.count =
      strip_example.mb.positions.count + 6 ∧
    (mb_strip_push strip_example ⟨3, 0, 0⟩ ⟨0, 0, 1⟩ ⟨3, 0⟩).mb.positions.data
      (strip_example.mb.positions.count + 3) = ⟨3, 0, 0⟩ ∧
    (mb_strip_push strip_example ⟨3, 0, 0⟩ ⟨0, 0, 1⟩ ⟨3, 0⟩).count = 2 ∧
    (mb_strip_push (mb_strip_create mb_one) ⟨3, 0, 0⟩ ⟨0, 0, 1⟩ ⟨3, 0⟩).mb = mb_one :=
  have h := C8_strip_flush strip_example ⟨3, 0, 0⟩ ⟨0, 0, 1⟩ ⟨3, 0⟩
  have h3 : strip_example.count = 3 := rfl
  have h1 : (mb_strip_create mb_one).count + 1 < 4 := by decide
  ⟨⟨h3, h1⟩, (h.1 h3).2.1.1, ((h.1 h3).2.2.1 3 _ rfl).1, (h.1 h3).2.2.2.2.2.2,
    ((C8_strip_flush (mb_strip_create mb_one) ⟨3, 0, 0⟩ ⟨0, 0, 1⟩ ⟨3, 0⟩).2 h1).1⟩

theorem mb_strip_calls_run_spec (s : mb_strip_t F) (calls : List (mb_strip_call F)) :
    (mb_strip_calls_run s calls).vertex_start = s.vertex_start ∧
    mb_extends s.mb (mb_strip_calls_run s calls).mb := by
  induction calls generalizing s with
  | nil => exact ⟨rfl, mb_extends_refl _⟩
  | cons call calls ih =>
    obtain ⟨h1, h2⟩ := ih (mb_strip_call_run s call)
    have e : mb_strip_calls_run s (call :: calls) =
        mb_strip_calls_run (mb_strip_call_run s call) calls := rfl
    rw [e, h1]
    cases call with
    | push v =>
      exact ⟨mb_strip_push_vertex_start _ _ _ _,
        mb_extends_trans (mb_strip_push_extends s v.position v.normal v.texcoord) h2⟩
    | reset => exact ⟨rfl, h2⟩

/-- C9, strip recurrence.  Push the corners `c 0 .. c (2k+1)` one at a time into a
strip that was just created or just reset, whatever its window held.  Exactly `6k`
vertices are appended to each sequence of the buffer, the `j`-th group of six is
`c (2j), c (2j+1), c (2j+2), c (2j+3), c (2j+2), c (2j+1)` for every `j < k`, nothing
that was in the buffer changes, and `vertex_start` stays.  The emitted vertices depend
on `c` alone, so a corner pushed before the reset appears in no quad emitted after
it.  mb_strip_reset changes neither the buffer nor `vertex_start` nor the view, and
after any sequence of pushes and resets on a created strip mb_strip_get_view starts
at the vertex count at creation and ends at the current vertex count. -/
theorem C9_strip_recurrence (s : mb_strip_t F) (c : Nat → vertex_t F) (k : Nat)
    (hs : (∃ mb, s = mb_strip_create mb) ∨ (∃ s0, s = mb_strip_reset s0)) :
    mb_grows s.mb (mb_strip_pushes s ((List.range (2 * k + 2)).map c)).mb (6 * k) ∧
    (∀ j i v, j < k → (strip_quad c j)[i]? = some v →
      (mb_strip_pushes s ((List.range (2 * k + 2)).map c)).mb.positions.data
        (s.mb.positions.count + (6 * j + i)) = v.position ∧
      (mb_strip_pushes s ((List.range (2 * k + 2)).map c)).mb.normals.data
        (s.mb.normals.count + (6 * j + i)) = v.normal ∧
      (mb_strip_pushes s ((List.range (2 * k + 2)).map c)).mb.texcoords.data
        (s.mb.texcoords.count + (6 * j + i)) = v.texcoord) ∧
    ((∀ j, j < s.mb.positions.count →
        (mb_strip_pushes s ((List.range (2 * k + 2)).map c)).mb.positions.data j =
          s.mb.positions.data j) ∧
      (∀ j, j < s.mb.normals.count →
        (mb_strip_pushes s ((List.range (2 * k + 2)).map c)).mb.normals.data j =
          s.mb.normals.data j) ∧
      (∀ j, j < s.mb.texcoords.count →
        (mb_strip_pushes s ((List.range (2 * k + 2)).map c)).mb.texcoords.data j =
          s.mb.texcoords.data j)) ∧
    (mb_strip_pushes s ((List.range (2 * k + 2)).map c)).vertex_start = s.vertex_start ∧
    (∀ s0 : mb_strip_t F,
      (mb_strip_reset s0).mb = s0.mb ∧
      (mb_strip_reset s0).vertex_start = s0.vertex_start ∧
      mb_strip_get_view (mb_strip_reset s0) = mb_strip_get_view s0) ∧
    (∀ (mb : mb_t F) (calls : List (mb_strip_call F)),
      (mb_strip_get_view (mb_strip_calls_run (mb_strip_create mb) calls)).vertex_start =
        mb.positions.count ∧
      mb_extends mb (mb_strip_calls_run (mb_strip_create mb) calls).mb ∧
      ((mb_strip_calls_run (mb_strip_create mb) calls).mb.positions.count < 4294967296 →
        (mb_strip_get_view (mb_strip_calls_run (mb_strip_create mb) calls)).vertex_start +
          (mb_strip_get_view (mb_strip_calls_run (mb_strip_create mb) calls)).vertex_count =
          (mb_strip_calls_run (mb_strip_create mb) calls).mb.positions.count)) := by
  have h0 : s.count = 0 := by
    rcases hs with ⟨mb, rfl⟩ | ⟨s0, rfl⟩ <;> rfl
  obtain ⟨_, _, _, hv, hmb⟩ := mb_strip_pushes_pairs s c k h0
  refine ⟨?_, ?_, ?_, hv, fun s0 => ⟨rfl, rfl, rfl⟩, fun mb calls => ?_⟩
  · have h := mb_vertices_grows s.mb (strip_quads c k)
    rwa [strip_quads_length, ← hmb] at h
  · intro j i v hj hv
    have hi : i < 6 := by
      by_contra hcon
      have hlen : (strip_quad c j).length ≤ i := by simp [strip_quad]; omega
      rw [List.getElem?_eq_none hlen] at hv
      exact absurd hv (by simp)
    rw [hmb]
    exact mb_vertices_new s.mb (strip_quads c k) (6 * j + i) v
      ((strip_quads_get c k j i hj hi).trans hv)
  · rw [hmb]; exact mb_vertices_frame _ _
  · obtain ⟨h1, h2⟩ := mb_strip_calls_run_spec (mb_strip_create mb) calls
    refine ⟨h1, h2, fun hfit => ?_⟩
    obtain ⟨n, hn, _⟩ := h2
    have hn2 : (mb_strip_calls_run (mb_strip_create mb) calls).mb.positions.count =
        mb.positions.count + n := hn
    simp only [mb_strip_get_view, h1, hn2]
    have hstart : (mb_strip_create mb).vertex_start = mb.positions.count := rfl
    rw [hstart, u32_sub_add _ _ (by omega)]

/-- Witness of C9: `strip_example`, which holds corners 0, 1 and 2, is reset and then
receives corners 0 to 5 (`k = 2`): twelve vertices are appended, and the vertex at
offset `6 * 1 + 3` is corner 5. -/
theorem C9_strip_recurrence_witness :
    (∃ s0, mb_strip_reset strip_example = mb_strip_reset s0) ∧
    (mb_strip_pushes (mb_strip_reset strip_example)
        ((List.range (2 * 2 + 2)).map corner_example)).mb.positions.count =
      (mb_strip_reset strip_example).mb.positions.count + 6 * 2 ∧
    (mb_strip_pushes (mb_strip_reset strip_example)
        ((List.range (2 * 2 + 2)).map corner_example)).mb.positions.data
      ((mb_strip_reset strip_example).mb.positions.count + (6 * 1 + 3)) =
      (corner_example 5).position :=
  have h := C9_strip_recurrence (mb_strip_reset strip_example) corner_example 2
    (Or.inr ⟨strip_example, rfl⟩)
  ⟨⟨strip_example, rfl⟩, h.1.1, (h.2.1 1 3 (corner_example 5) (by decide) rfl).1⟩

end claims_recurrence

section claims_face

set_option linter.unusedSectionVars false

variable {F : Type} [LinearOrderedField F]

theorem face_row_vertices_zero (yi : Nat) (height : F) (xi : Nat) (x_left : F) :
    face_row_vertices yi height xi x_left 0 = [] := rfl

theorem face_rows_vertices_empty (xs : F) (k yi : Nat) (y_left : F) :
    face_rows_vertices xs 0 yi y_left k = [] := by
  induction k generalizing yi y_left with
  | zero => rfl
  | succ k ih => simp [face_rows_vertices, face_row_vertices_zero, ih]

theorem toNat_ceil_of_nonpos [FloorRing F] (x : F) (h : x ≤ 0) : Int.toNat ⌈x⌉ = 0 := by
  have h1 : ⌈x⌉ ≤ 0 := Int.ceil_le.mpr (by simpa using h)
  omega

/-- C10, face tile count.  For all `xs` and `ys` both loops of create_face terminate:
the call runs `max 0 (ceil ys)` rows of `max 0 (ceil xs)` tiles each and appends the
six vertices of every tile (`face_rows_vertices`; the last tile of a row has width
`x_left <= 1`, the last row height `y_left <= 1`), so it appends exactly
`6 * max 0 (ceil xs) * max 0 (ceil ys)` vertices to each sequence.
`create_face(2.5, 1.0)` appends exactly 18 vertices, and when a dimension is zero or
negative the buffer is returned as it was, with a view of count 0.  The returned view
starts at the old vertex count and, when the new count fits the `u32` counter, its
count is the number of appended vertices. -/
theorem C10_face_tile_count [FloorRing F] (mb : mb_t F) (xs ys : F) :
    (create_face mb xs ys).1 =
      mb_vertices mb (face_rows_vertices xs (Int.toNat ⌈xs⌉) 0 ys (Int.toNat ⌈ys⌉)) ∧
    mb_grows mb (create_face mb xs ys).1 (6 * Int.toNat ⌈xs⌉ * Int.toNat ⌈ys⌉) ∧
    (((create_face mb xs ys).1.positions.count : ℤ) =
      (mb.positions.count : ℤ) + 6 * max 0 ⌈xs⌉ * max 0 ⌈ys⌉) ∧
    mb_grows mb (create_face mb (5 / 2) 1).1 18 ∧
    (xs ≤ 0 ∨ ys ≤ 0 →
      (create_face mb xs ys).1 = mb ∧ (create_face mb xs ys).2.vertex_count = 0) ∧
    (create_face mb xs ys).2.vertex_start = mb.positions.count ∧
    ((create_face mb xs ys).1.positions.count < 4294967296 →
      (create_face mb xs ys).2.vertex_count = 6 * Int.toNat ⌈xs⌉ * Int.toNat ⌈ys⌉) := by
  have hg := create_face_grows mb xs ys
  have hview := create_face_view mb xs ys
  refine ⟨create_face_mb mb xs ys, hg, ?_, ?_, ?_, ?_, ?_⟩
  · rw [hg.1]
    push_cast
    rw [Int.toNat_eq_max, Int.toNat_eq_max, max_comm (⌈xs⌉) 0, max_comm (⌈ys⌉) 0]
  · have h := create_face_grows mb (5 / 2 : F) 1
    rwa [ceil_five_halves, Int.ceil_one] at h
  · intro h
    have hnil : face_rows_vertices xs (Int.toNat ⌈xs⌉) 0 ys (Int.toNat ⌈ys⌉) = [] := by
      rcases h with h | h
      · rw [toNat_ceil_of_nonpos xs h]; exact face_rows_vertices_empty xs _ 0 ys
      · rw [toNat_ceil_of_nonpos ys h]; rfl
    have hmb : (create_face mb xs ys).1 = mb := by
      rw [create_face_mb, hnil]; rfl
    refine ⟨hmb, ?_⟩
    rw [hview, hmb]
    simp [u32_sub]
  · rw [hview]
  · intro hfit
    rw [hview]
    rw [hg.1] at hfit ⊢
    exact u32_sub_add _ _ hfit

/-- Witness of C10: on the one-vertex buffer `mb_one`, `create_face(2.5, 1.0)` appends
18 vertices and `create_face(-1, 1)` appends none. -/
theorem C10_face_tile_count_witness :
    (create_face mb_one (5 / 2) 1).1.positions.count = mb_one.positions.count + 18 ∧
    (create_face mb_one (-1) 1).1 = mb_one ∧
    (create_face mb_one (-1) 1).2.vertex_count = 0 :=
  ⟨(C10_face_tile_count mb_one (5 / 2) 1).2.2.2.1.1,
    ((C10_face_tile_count mb_one (-1) 1).2.2.2.2.1 (Or.inl (by norm_num))).1,
    ((C10_face_tile_count mb_one (-1) 1).2.2.2.2.1 (Or.inl (by norm_num))).2⟩

end claims_face

section claims_face_geometry

set_option linter.unusedSectionVars false

variable {F : Type} [LinearOrderedField F]

/-- C11, face texture coordinates.  For positive `xs` and `ys`, the `i`-th vertex that
create_face emits (`i` below the number `6 * ceil xs * ceil ys` of emitted vertices)
has a texcoord equal to its position minus the integer origin `(xi, yi)` of its tile
(column `(i / 6) % ceil xs`, row `(i / 6) / ceil xs`), and the texcoord lies in
`[0,1] x [0,1]`.  In the last tile no texcoord exceeds
`(xs - (ceil xs - 1), ys - (ceil ys - 1))`, and the fourth vertex of the tile has
exactly that texcoord; for `create_face(2.5, 1.0)` it is `(0.5, 1.0)`. -/
theorem C11_face_texcoords [FloorRing F] (mb : mb_t F) (xs ys : F) (hx : 0 < xs) (hy : 0 < ys) :
    (∀ i, i < 6 * Int.toNat ⌈xs⌉ * Int.toNat ⌈ys⌉ →
      (mb_emitted mb (create_face mb xs ys).1 i).texcoord.x =
        (mb_emitted mb (create_face mb xs ys).1 i).position.x -
          (((i / 6) % Int.toNat ⌈xs⌉ : Nat) : F) ∧
      (mb_emitted mb (create_face mb xs ys).1 i).texcoord.y =
        (mb_emitted mb (create_face mb xs ys).1 i).position.y -
          (((i / 6) / Int.toNat ⌈xs⌉ : Nat) : F) ∧
      (0 ≤ (mb_emitted mb (create_face mb xs ys).1 i).texcoord.x ∧
        (mb_emitted mb (create_face mb xs ys).1 i).texcoord.x ≤ 1) ∧
      (0 ≤ (mb_emitted mb (create_face mb xs ys).1 i).texcoord.y ∧
        (mb_emitted mb (create_face mb xs ys).1 i).texcoord.y ≤ 1)) ∧
    (∀ j, j < 6 →
      (mb_emitted mb (create_face mb xs ys).1
          (6 * (Int.toNat ⌈xs⌉ * Int.toNat ⌈ys⌉ - 1) + j)).texcoord.x ≤
        xs - (((⌈xs⌉ : ℤ) : F) - 1) ∧
      (mb_emitted mb (create_face mb xs ys).1
          (6 * (Int.toNat ⌈xs⌉ * Int.toNat ⌈ys⌉ - 1) + j)).texcoord.y ≤
        ys - (((⌈ys⌉ : ℤ) : F) - 1)) ∧
    (mb_emitted mb (create_face mb xs ys).1
        (6 * (Int.toNat ⌈xs⌉ * Int.toNat ⌈ys⌉ - 1) + 3)).texcoord =
      ⟨xs - (((⌈xs⌉ : ℤ) : F) - 1), ys - (((⌈ys⌉ : ℤ) : F) - 1)⟩ ∧
    (mb_emitted mb (create_face mb (5 / 2) 1).1 15).texcoord = ⟨1 / 2, 1⟩ := by
  have key : ∀ (xs ys : F), 0 < xs → 0 < ys → ∀ j, j < 6 →
      mb_emitted mb (create_face mb xs ys).1
          (6 * (Int.toNat ⌈xs⌉ * Int.toNat ⌈ys⌉ - 1) + j) =
        face_tile_vertex (Int.toNat ⌈xs⌉ - 1) (Int.toNat ⌈ys⌉ - 1)
          (xs - (((⌈xs⌉ : ℤ) : F) - 1)) (ys - (((⌈ys⌉ : ℤ) : F) - 1)) j := by
    intro xs ys hx hy j hj
    have ha := toNat_ceil_pos xs hx
    have hb := toNat_ceil_pos ys hy
    have hab : 0 < Int.toNat ⌈xs⌉ * Int.toNat ⌈ys⌉ := Nat.mul_pos ha hb
    obtain ⟨e1, e2, e3, e4⟩ := last_tile_index _ _ j ha hb hj
    rw [create_face_emitted mb xs ys _ (by
      have : 6 * Int.toNat ⌈xs⌉ * Int.toNat ⌈ys⌉ = 6 * (Int.toNat ⌈xs⌉ * Int.toNat ⌈ys⌉) := by
        ring
      omega)]
    simp only [face_vertex, e1, e2, e3, e4, last_tile_size xs hx, last_tile_size ys hy]
  refine ⟨fun i hi => ?_, fun j hj => ?_, ?_, ?_⟩
  · obtain ⟨_, _, htx, hty⟩ := face_tile_index_lt xs ys i hi
    have hw := face_tile_size_pos _ (sub_pos.mpr htx)
    have hh := face_tile_size_pos _ (sub_pos.mpr hty)
    have hw1 := face_tile_size_le_one (xs - (((i / 6) % Int.toNat ⌈xs⌉ : Nat) : F))
    have hh1 := face_tile_size_le_one (ys - (((i / 6) / Int.toNat ⌈xs⌉ : Nat) : F))
    rw [create_face_emitted mb xs ys i hi]
    have h6 : i % 6 = 0 ∨ i % 6 = 1 ∨ i % 6 = 2 ∨ i % 6 = 3 ∨ i % 6 = 4 ∨ i % 6 = 5 := by omega
    rcases h6 with h | h | h | h | h | h <;>
      simp only [face_vertex, h, face_tile_vertex] <;>
      refine ⟨by ring, by ring, ⟨?_, ?_⟩, ⟨?_, ?_⟩⟩ <;>
      first | exact le_rfl | exact zero_le_one | exact le_of_lt hw | exact le_of_lt hh
            | exact hw1 | exact hh1
  · have hx1 : 0 ≤ xs - (((⌈xs⌉ : ℤ) : F) - 1) := by
      have := Int.ceil_lt_add_one xs; linarith
    have hy1 : 0 ≤ ys - (((⌈ys⌉ : ℤ) : F) - 1) := by
      have := Int.ceil_lt_add_one ys; linarith
    rw [key xs ys hx hy j hj]
    have h6 : j = 0 ∨ j = 1 ∨ j = 2 ∨ j = 3 ∨ j = 4 ∨ j = 5 := by omega
    rcases h6 with rfl | rfl | rfl | rfl | rfl | rfl <;>
      simp only [face_tile_vertex] <;>
      exact ⟨by first | exact le_rfl | exact hx1, by first | exact le_rfl | exact hy1⟩
  · rw [key xs ys hx hy 3 (by norm_num)]
    simp only [face_tile_vertex]
  · have h := key (5 / 2 : F) 1 (by norm_num) (by norm_num) 3 (by norm_num)
    have hc : ⌈(5 / 2 : F)⌉ = 3 := by
      rw [Int.ceil_eq_iff]; constructor <;> norm_num
    rw [ceil_five_halves, Int.ceil_one, hc] at h
    have h15 : 6 * (3 * Int.toNat 1 - 1) + 3 = 15 := by decide
    rw [h15] at h
    rw [h]
    simp only [face_tile_vertex]
    congr 1 <;> norm_num

/-- Witness of C11: `create_face(2.5, 1.0)` on the one-vertex buffer `mb_one`; the
sixteenth emitted vertex (fourth vertex of the last tile) has texcoord `(0.5, 1.0)`,
and the texcoord of the second emitted vertex is its position minus the origin
`(0, 0)` of the first tile. -/
theorem C11_face_texcoords_witness :
    ((0 : ℚ) < 5 / 2 ∧ (0 : ℚ) < 1) ∧
    (mb_emitted mb_one (create_face mb_one (5 / 2) 1).1 15).texcoord = ⟨1 / 2, 1⟩ ∧
    (mb_emitted mb_one (create_face mb_one (5 / 2) 1).1 1).texcoord.x =
      (mb_emitted mb_one (create_face mb_one (5 / 2) 1).1 1).position.x -
        (((1 / 6) % Int.toNat ⌈(5 / 2 : ℚ)⌉ : Nat) : ℚ) := by
  have h := C11_face_texcoords mb_one (5 / 2) 1 (by norm_num) (by norm_num)
  refine ⟨⟨by norm_num, by norm_num⟩, h.2.2.2, (h.1 1 ?_).1⟩
  rw [ceil_five_halves, Int.ceil_one]; decide

end claims_face_geometry

section claims_face_winding

set_option linter.unusedSectionVars false

variable {F : Type} [LinearOrderedField F]

/-- C17, face orientation and winding.  For positive `xs` and `ys`, every vertex that
create_face emits has position `z = 0` and normal `(0, 0, 1)`, and every consecutive
triple of emitted vertices (vertices `3k`, `3k+1`, `3k+2`, for every `k` below the
number `2 * ceil xs * ceil ys` of triangles) is a non-degenerate triangle wound
counter-clockwise when seen from `+z`, so its geometric normal points along the
stored normal. -/
theorem C17_face_winding [FloorRing F] (mb : mb_t F) (xs ys : F) (hx : 0 < xs) (hy : 0 < ys) :
    (∀ i, i < 6 * Int.toNat ⌈xs⌉ * Int.toNat ⌈ys⌉ →
      (mb_emitted mb (create_face mb xs ys).1 i).position.z = 0 ∧
      (mb_emitted mb (create_face mb xs ys).1 i).normal = ⟨0, 0, 1⟩) ∧
    (∀ k, k < 2 * Int.toNat ⌈xs⌉ * Int.toNat ⌈ys⌉ →
      ccw_xy (mb_emitted mb (create_face mb xs ys).1 (3 * k)).position
        (mb_emitted mb (create_face mb xs ys).1 (3 * k + 1)).position
        (mb_emitted mb (create_face mb xs ys).1 (3 * k + 2)).position) ∧
    0 < 2 * Int.toNat ⌈xs⌉ * Int.toNat ⌈ys⌉ := by
  refine ⟨fun i hi => ?_, fun k hk => ?_, ?_⟩
  · rw [create_face_emitted mb xs ys i hi]
    have h6 : i % 6 = 0 ∨ i % 6 = 1 ∨ i % 6 = 2 ∨ i % 6 = 3 ∨ i % 6 = 4 ∨ i % 6 = 5 := by omega
    rcases h6 with h | h | h | h | h | h <;>
      simp only [face_vertex, h, face_tile_vertex, and_self]
  · have hlin : 2 * Int.toNat ⌈xs⌉ * Int.toNat ⌈ys⌉ = 2 * (Int.toNat ⌈xs⌉ * Int.toNat ⌈ys⌉) := by
      ring
    have hlin6 : 6 * Int.toNat ⌈xs⌉ * Int.toNat ⌈ys⌉ = 6 * (Int.toNat ⌈xs⌉ * Int.toNat ⌈ys⌉) := by
      ring
    have h0 : 3 * k < 6 * Int.toNat ⌈xs⌉ * Int.toNat ⌈ys⌉ := by omega
    have h1 : 3 * k + 1 < 6 * Int.toNat ⌈xs⌉ * Int.toNat ⌈ys⌉ := by omega
    have h2 : 3 * k + 2 < 6 * Int.toNat ⌈xs⌉ * Int.toNat ⌈ys⌉ := by omega
    obtain ⟨_, _, htx, hty⟩ := face_tile_index_lt xs ys (3 * k) h0
    have d0 : 3 * k / 6 = k / 2 := by omega
    have d1 : (3 * k + 1) / 6 = k / 2 := by omega
    have d2 : (3 * k + 2) / 6 = k / 2 := by omega
    rw [d0] at htx hty
    have hw := face_tile_size_pos _ (sub_pos.mpr htx)
    have hh := face_tile_size_pos _ (sub_pos.mpr hty)
    have hwh := mul_pos hw hh
    rw [create_face_emitted mb xs ys _ h0, create_face_emitted mb xs ys _ h1,
      create_face_emitted mb xs ys _ h2]
    have hpar : k % 2 = 0 ∨ k % 2 = 1 := by omega
    rcases hpar with hp | hp
    · have m0 : 3 * k % 6 = 0 := by omega
      have m1 : (3 * k + 1) % 6 = 1 := by omega
      have m2 : (3 * k + 2) % 6 = 2 := by omega
      simp only [face_vertex, d0, d1, d2, m0, m1, m2, face_tile_vertex, ccw_xy]
      nlinarith [hwh]
    · have m0 : 3 * k % 6 = 3 := by omega
      have m1 : (3 * k + 1) % 6 = 4 := by omega
      have m2 : (3 * k + 2) % 6 = 5 := by omega
      simp only [face_vertex, d0, d1, d2, m0, m1, m2, face_tile_vertex, ccw_xy]
      nlinarith [hwh]
  · have ha := toNat_ceil_pos xs hx
    have hb := toNat_ceil_pos ys hy
    have := Nat.mul_pos ha hb
    have hlin : 2 * Int.toNat ⌈xs⌉ * Int.toNat ⌈ys⌉ = 2 * (Int.toNat ⌈xs⌉ * Int.toNat ⌈ys⌉) := by
      ring
    omega

/-- Witness of C17: the second triangle of `create_face(2.5, 1.0)` on `mb_one`
(emitted vertices 3, 4, 5) is wound counter-clockwise, and the fourth emitted vertex
has normal `(0, 0, 1)`. -/
theorem C17_face_winding_witness :
    ((0 : ℚ) < 5 / 2 ∧ (0 : ℚ) < 1) ∧
    ccw_xy (mb_emitted mb_one (create_face mb_one (5 / 2) 1).1 (3 * 1)).position
      (mb_emitted mb_one (create_face mb_one (5 / 2) 1).1 (3 * 1 + 1)).position
      (mb_emitted mb_one (create_face mb_one (5 / 2) 1).1 (3 * 1 + 2)).position ∧
    (mb_emitted mb_one (create_face mb_one (5 / 2) 1).1 3).normal = ⟨0, 0, 1⟩ := by
  have h := C17_face_winding mb_one (5 / 2) 1 (by norm_num) (by norm_num)
  have hn : 2 * Int.toNat ⌈(5 / 2 : ℚ)⌉ * Int.toNat ⌈(1 : ℚ)⌉ = 6 := by
    rw [ceil_five_halves, Int.ceil_one]; decide
  have hm : 6 * Int.toNat ⌈(5 / 2 : ℚ)⌉ * Int.toNat ⌈(1 : ℚ)⌉ = 18 := by
    rw [ceil_five_halves, Int.ceil_one]; decide
  exact ⟨⟨by norm_num, by norm_num⟩, h.2.1 1 (by rw [hn]; decide),
    (h.1 3 (by rw [hm]; decide)).2⟩

end claims_face_winding

section plank_angled_stage_lemmas

set_option linter.unusedSectionVars false

variable {F : Type} [LinearOrderedField F]

/-- The function create_plank_angled runs its six stages in order: bottom face, direct
vertices, first end face, second end face, side faces, top face. -/
theorem create_plank_angled_stages [FloorRing F] (m : math_h F) (mb : mb_t F)
    (xs ys zs a1 a2 : F) :
    (create_plank_angled m mb xs ys zs a1 a2).1 =
      create_plank_angled_top m
        (create_plank_angled_side m
          (create_plank_angled_end2 m
            (create_plank_angled_end1 m
              (create_plank_angled_caps (create_plank_angled_bottom m mb xs zs) xs ys zs
                (miter_width m ys a1) (miter_width m ys a2))
              ys zs (miter_ratio m ys (miter_width m ys a1)) a1)
            xs ys zs (miter_ratio m ys (miter_width m ys a2)) a2)
          xs ys zs (miter_width m ys a1) (miter_width m ys a2))
        xs ys zs (miter_width m ys a1) (miter_width m ys a2) := rfl

theorem create_plank_angled_caps_eq (mb : mb_t F) (xs ys zs wd1 wd2 : F) :
    create_plank_angled_caps mb xs ys zs wd1 wd2 =
      mb_vertices mb (plank_angled_cap_vertices xs ys zs wd1 wd2) := rfl

end plank_angled_stage_lemmas

section claims_clear_caps

set_option linter.unusedSectionVars false

variable {F : Type} [LinearOrderedField F]

/-- C18, buffer clear.  mb_clear sets the count of all three sequences to 0 and leaves
their capacity and their stored elements as they were; a following
`mb_vertex(p, n, t)` gives a buffer of one vertex, which is `(p, n, t)` at index 0
whatever slot 0 held before, and leaves every other stored slot as it was. -/
theorem C18_buffer_clear (mb : mb_t F) (p n : Vector3 F) (t : Vector2 F) :
    ((mb_clear mb).positions.count = 0 ∧ (mb_clear mb).normals.count = 0 ∧
      (mb_clear mb).texcoords.count = 0) ∧
    ((mb_clear mb).positions.capacity = mb.positions.capacity ∧
      (mb_clear mb).normals.capacity = mb.normals.capacity ∧
      (mb_clear mb).texcoords.capacity = mb.texcoords.capacity) ∧
    ((mb_clear mb).positions.data = mb.positions.data ∧
      (mb_clear mb).normals.data = mb.normals.data ∧
      (mb_clear mb).texcoords.data = mb.texcoords.data) ∧
    ((mb_vertex (mb_clear mb) p n t).positions.count = 1 ∧
      (mb_vertex (mb_clear mb) p n t).normals.count = 1 ∧
      (mb_vertex (mb_clear mb) p n t).texcoords.count = 1) ∧
    mb_get (mb_vertex (mb_clear mb) p n t) 0 = ⟨p, n, t⟩ ∧
    (∀ i, i ≠ 0 → mb_get (mb_vertex (mb_clear mb) p n t) i = mb_get mb i) := by
  refine ⟨⟨rfl, rfl, rfl⟩, ⟨rfl, rfl, rfl⟩, ⟨rfl, rfl, rfl⟩, ?_, ?_, fun i hi => ?_⟩
  · simp [mb_vertex, mb_clear]
  · simp [mb_get, mb_vertex, mb_clear]
  · simp [mb_get, mb_vertex, mb_clear, store, hi]

/-- Counterexample to C19 as stated: after the bottom stage of
`create_plank_angled(3, 1, 1, 45, 45)` on the zeroed buffer, the direct mb_vertex
calls add twelve vertices to each sequence, not eight. -/
theorem C19_counterexample :
    mb_grows (create_plank_angled_bottom math_rat mb_zero 3 1)
      (create_plank_angled_caps (create_plank_angled_bottom math_rat mb_zero 3 1) 3 1 1
        (miter_width math_rat 1 45) (miter_width math_rat 1 45)) 12 ∧
    ¬ mb_grows (create_plank_angled_bottom math_rat mb_zero 3 1)
      (create_plank_angled_caps (create_plank_angled_bottom math_rat mb_zero 3 1) 3 1 1
        (miter_width math_rat 1 45) (miter_width math_rat 1 45)) 8 := by
  have h := create_plank_angled_caps_grows (create_plank_angled_bottom math_rat mb_zero 3 1)
    3 1 1 (miter_width math_rat 1 45) (miter_width math_rat 1 45)
  refine ⟨h, fun h8 => ?_⟩
  have h1 := h.1
  have h2 := h8.1
  omega

/-- C19 as amended.  For all arguments, the direct mb_vertex calls of
create_plank_angled run between the bottom stage and the first end face and append
exactly twelve vertices, the list `plank_angled_cap_vertices`: four triangles, of
which the first and third lie in `z = 0` with normal `(0, 0, 1)` (front end caps of
the first and second end) and the second and fourth lie in `z = -zs` with normal
`(0, 0, -1)` (back end caps); the triangles of the first end have `x` in
`{0, wd1}`, those of the second end have `x` in `{xs - wd2, xs}`. -/
theorem C19_end_cap_vertices [FloorRing F] (m : math_h F) (mb : mb_t F)
    (xs ys zs a1 a2 : F) :
    (create_plank_angled m mb xs ys zs a1 a2).1 =
      create_plank_angled_top m
        (create_plank_angled_side m
          (create_plank_angled_end2 m
            (create_plank_angled_end1 m
              (create_plank_angled_caps (create_plank_angled_bottom m mb xs zs) xs ys zs
                (miter_width m ys a1) (miter_width m ys a2))
              ys zs (miter_ratio m ys (miter_width m ys a1)) a1)
            xs ys zs (miter_ratio m ys (miter_width m ys a2)) a2)
          xs ys zs (miter_width m ys a1) (miter_width m ys a2))
        xs ys zs (miter_width m ys a1) (miter_width m ys a2) ∧
    (∀ (mb2 : mb_t F) (wd1 wd2 : F),
      create_plank_angled_caps mb2 xs ys zs wd1 wd2 =
        mb_vertices mb2 (plank_angled_cap_vertices xs ys zs wd1 wd2) ∧
      mb_grows mb2 (create_plank_angled_caps mb2 xs ys zs wd1 wd2) 12 ∧
      (plank_angled_cap_vertices xs ys zs wd1 wd2).length = 12 ∧
      (∀ i v, (plank_angled_cap_vertices xs ys zs wd1 wd2)[i]? = some v →
        mb_emitted mb2 (create_plank_angled_caps mb2 xs ys zs wd1 wd2) i = v ∧
        ((i / 3) % 2 = 0 → v.position.z = 0 ∧ v.normal = ⟨0, 0, 1⟩) ∧
        ((i / 3) % 2 = 1 → v.position.z = -zs ∧ v.normal = ⟨0, 0, -1⟩) ∧
        (i < 6 → v.position.x = 0 ∨ v.position.x = wd1) ∧
        (6 ≤ i → v.position.x = xs - wd2 ∨ v.position.x = xs))) := by
  refine ⟨rfl, fun mb2 wd1 wd2 => ⟨rfl, create_plank_angled_caps_grows mb2 xs ys zs wd1 wd2,
    rfl, fun i v hv => ⟨?_, ?_⟩⟩⟩
  · rw [create_plank_angled_caps_eq]
    exact mb_vertices_emitted mb2 _ i v hv
  · have hi : i < 12 := by
      by_contra hcon
      have hlen : (plank_angled_cap_vertices xs ys zs wd1 wd2).length ≤ i := by
        simp [plank_angled_cap_vertices]; omega
      rw [List.getElem?_eq_none hlen] at hv
      exact absurd hv (by simp)
    have h12 : i = 0 ∨ i = 1 ∨ i = 2 ∨ i = 3 ∨ i = 4 ∨ i = 5 ∨ i = 6 ∨ i = 7 ∨ i = 8 ∨
        i = 9 ∨ i = 10 ∨ i = 11 := by omega
    rcases h12 with rfl | rfl | rfl | rfl | rfl | rfl | rfl | rfl | rfl | rfl | rfl | rfl <;>
      simp [plank_angled_cap_vertices] at hv <;> subst hv <;> simp

end claims_clear_caps

section claims_generators

set_option linter.unusedSectionVars false

variable {F : Type} [LinearOrderedField F]

theorem mb_view_owns_of_spec {mb : mb_t F} {r : mb_t F × mb_view_t} (h : mb_gen_spec mb r)
    (hpar : mb_parallel mb) (hfit : u32_fits r.1) : mb_view_owns mb r := by
  obtain ⟨⟨_, _, hf⟩, s1, s2⟩ := h.2 hpar hfit
  exact ⟨s1, s2, fun i hi => hf i (by omega)⟩

theorem mb_grows_three_of_spec {mb : mb_t F} {r : mb_t F × mb_view_t} (h : mb_gen_spec mb r)
    (hpar : mb_parallel mb) (hfit : u32_fits r.1) :
    (∃ n, mb_grows mb r.1 (3 * n)) ∧ 3 ∣ r.2.vertex_count ∧ mb_parallel r.1 := by
  obtain ⟨⟨hp, ⟨n, hn⟩, _⟩, s1, s2⟩ := h.2 hpar hfit
  have := hn.1
  exact ⟨⟨n, hn⟩, ⟨n, by omega⟩, hp⟩

theorem mb_gen_view_three [FloorRing F] (m : math_h F) (v : mb_view_t) (h : mb_gen_view m v) :
    3 ∣ v.vertex_count := by
  cases h with
  | face mb xs ys hp hf => exact (mb_grows_three_of_spec (create_face_spec mb xs ys) hp hf).2.1
  | plank mb xs ys zs hp hf =>
    exact (mb_grows_three_of_spec (create_plank_spec m mb xs ys zs) hp hf).2.1
  | plank_angled mb xs ys zs a1 a2 hp hf =>
    exact (mb_grows_three_of_spec (create_plank_angled_spec m mb xs ys zs a1 a2) hp hf).2.1
  | wall mb hp hf => exact (mb_grows_three_of_spec (create_wall_spec m mb) hp hf).2.1

theorem mb_built_three [FloorRing F] (m : math_h F) (mb : mb_t F) (h : mb_built m mb) :
    mb_parallel mb ∧ 3 ∣ mb.positions.count := by
  induction h with
  | zero => exact ⟨⟨rfl, rfl⟩, ⟨0, rfl⟩⟩
  | face mb xs ys _ hf ih =>
    obtain ⟨⟨n, hn⟩, _, hp⟩ := mb_grows_three_of_spec (create_face_spec mb xs ys) ih.1 hf
    exact ⟨hp, by rw [hn.1]; exact Dvd.dvd.add ih.2 ⟨n, rfl⟩⟩
  | plank mb xs ys zs _ hf ih =>
    obtain ⟨⟨n, hn⟩, _, hp⟩ := mb_grows_three_of_spec (create_plank_spec m mb xs ys zs) ih.1 hf
    exact ⟨hp, by rw [hn.1]; exact Dvd.dvd.add ih.2 ⟨n, rfl⟩⟩
  | plank_angled mb xs ys zs a1 a2 _ hf ih =>
    obtain ⟨⟨n, hn⟩, _, hp⟩ :=
      mb_grows_three_of_spec (create_plank_angled_spec m mb xs ys zs a1 a2) ih.1 hf
    exact ⟨hp, by rw [hn.1]; exact Dvd.dvd.add ih.2 ⟨n, rfl⟩⟩
  | wall mb _ hf ih =>
    obtain ⟨⟨n, hn⟩, _, hp⟩ := mb_grows_three_of_spec (create_wall_spec m mb) ih.1 hf
    exact ⟨hp, by rw [hn.1]; exact Dvd.dvd.add ih.2 ⟨n, rfl⟩⟩
  | view_transform mb view M _ ih =>
    have hg := mb_view_transform_grows mb view M
    exact ⟨mb_grows_parallel hg ih.1, by rw [hg.1]; simpa using ih.2⟩
  | view_dupe mb view M _ hv ih =>
    have hg := mb_view_dupe_grows mb view M
    exact ⟨mb_grows_parallel hg ih.1, by
      rw [hg.1]; exact Dvd.dvd.add ih.2 (mb_gen_view_three m view hv)⟩

/-- C12, triangle-count invariant.  On a buffer with sequences of equal length, each of
create_face, create_plank, create_plank_angled and create_wall, for all dimension and
angle arguments, appends a multiple of three vertices (the new count fitting the
`u32` counter); mb_view_transform appends none; mb_view_dupe of a generator's view
appends the count of that view, a multiple of three.  Hence for every buffer built
from the zeroed buffer by these calls, the `vertexCount` that mb_to_mesh reports is
the buffer count, a multiple of three, and equals `3 * triangleCount`. -/
theorem C12_triangle_count [FloorRing F] (m : math_h F) :
    (∀ mb : mb_t F, mb_parallel mb →
      (∀ xs ys, u32_fits (create_face mb xs ys).1 →
        ∃ n, mb_grows mb (create_face mb xs ys).1 (3 * n)) ∧
      (∀ xs ys zs, u32_fits (create_plank m mb xs ys zs).1 →
        ∃ n, mb_grows mb (create_plank m mb xs ys zs).1 (3 * n)) ∧
      (∀ xs ys zs a1 a2, u32_fits (create_plank_angled m mb xs ys zs a1 a2).1 →
        ∃ n, mb_grows mb (create_plank_angled m mb xs ys zs a1 a2).1 (3 * n)) ∧
      (u32_fits (create_wall m mb).1 → ∃ n, mb_grows mb (create_wall m mb).1 (3 * n))) ∧
    (∀ (mb : mb_t F) view M, mb_grows mb (mb_view_transform mb view M) 0) ∧
    (∀ view, mb_gen_view m view →
      3 ∣ view.vertex_count ∧
      ∀ (mb : mb_t F) M, mb_grows mb (mb_view_dupe mb view M).1 view.vertex_count) ∧
    (∀ mb : mb_t F, mb_built m mb →
      (mb_to_mesh mb).1 = mb.positions.count ∧ 3 ∣ (mb_to_mesh mb).1 ∧
      (mb_to_mesh mb).1 = 3 * (mb_to_mesh mb).2) := by
  refine ⟨fun mb hpar => ⟨fun xs ys hf => ?_, fun xs ys zs hf => ?_,
    fun xs ys zs a1 a2 hf => ?_, fun hf => ?_⟩, fun mb view M => mb_view_transform_grows mb view M,
    fun view hv => ⟨mb_gen_view_three m view hv, fun mb M => mb_view_dupe_grows mb view M⟩,
    fun mb hb => ?_⟩
  · exact (mb_grows_three_of_spec (create_face_spec mb xs ys) hpar hf).1
  · exact (mb_grows_three_of_spec (create_plank_spec m mb xs ys zs) hpar hf).1
  · exact (mb_grows_three_of_spec (create_plank_angled_spec m mb xs ys zs a1 a2) hpar hf).1
  · exact (mb_grows_three_of_spec (create_wall_spec m mb) hpar hf).1
  · obtain ⟨_, k, hk⟩ := mb_built_three m mb hb
    refine ⟨rfl, ⟨k, hk⟩, ?_⟩
    simp only [mb_to_mesh, hk]
    omega

/-- C13, plank vertex count.  For positive `xs`, `ys`, `zs`, create_plank appends
exactly `12 * (ceil xs * ceil ys + ceil xs * ceil zs + ceil zs * ceil ys)` vertices
to each sequence (three faces, each duplicated once), provided the new count fits the
`u32` counter, and its view holds that many vertices from the old count on;
`create_plank(1, 1, 1)` appends exactly 36. -/
theorem C13_plank_vertex_count [FloorRing F] (m : math_h F) (mb : mb_t F) (xs ys zs : F)
    (hx : 0 < xs) (hy : 0 < ys) (hz : 0 < zs)
    (hfit : mb.positions.count +
      12 * (Int.toNat ⌈xs⌉ * Int.toNat ⌈ys⌉ + Int.toNat ⌈xs⌉ * Int.toNat ⌈zs⌉ +
        Int.toNat ⌈zs⌉ * Int.toNat ⌈ys⌉) < 4294967296) :
    mb_grows mb (create_plank m mb xs ys zs).1
      (12 * (Int.toNat ⌈xs⌉ * Int.toNat ⌈ys⌉ + Int.toNat ⌈xs⌉ * Int.toNat ⌈zs⌉ +
        Int.toNat ⌈zs⌉ * Int.toNat ⌈ys⌉)) ∧
    (((create_plank m mb xs ys zs).1.positions.count : ℤ) =
      (mb.positions.count : ℤ) + 12 * (⌈xs⌉ * ⌈ys⌉ + ⌈xs⌉ * ⌈zs⌉ + ⌈zs⌉ * ⌈ys⌉)) ∧
    (create_plank m mb xs ys zs).2 =
      { vertex_start := mb.positions.count
        vertex_count := 12 * (Int.toNat ⌈xs⌉ * Int.toNat ⌈ys⌉ +
          Int.toNat ⌈xs⌉ * Int.toNat ⌈zs⌉ + Int.toNat ⌈zs⌉ * Int.toNat ⌈ys⌉) } ∧
    (mb.positions.count + 36 < 4294967296 → mb_grows mb (create_plank m mb 1 1 1).1 36) := by
  have hg := create_plank_count m mb xs ys zs hfit
  have hcx : ((Int.toNat ⌈xs⌉ : Nat) : ℤ) = ⌈xs⌉ :=
    Int.toNat_of_nonneg (le_of_lt (Int.ceil_pos.mpr hx))
  have hcy : ((Int.toNat ⌈ys⌉ : Nat) : ℤ) = ⌈ys⌉ :=
    Int.toNat_of_nonneg (le_of_lt (Int.ceil_pos.mpr hy))
  have hcz : ((Int.toNat ⌈zs⌉ : Nat) : ℤ) = ⌈zs⌉ :=
    Int.toNat_of_nonneg (le_of_lt (Int.ceil_pos.mpr hz))
  refine ⟨hg, ?_, ?_, fun h36 => ?_⟩
  · rw [hg.1]; push_cast; rw [hcx, hcy, hcz]
  · show mb_view_end (create_plank m mb xs ys zs).1 (mb_view_begin mb) = _
    simp only [mb_view_end, mb_view_begin, hg.1]
    rw [u32_sub_add _ _ hfit]
  · have h := create_plank_count m mb (1 : F) 1 1 (by simpa [Int.ceil_one] using h36)
    simpa [Int.ceil_one] using h

end claims_generators

section claims_generators_range

set_option linter.unusedSectionVars false

variable {F : Type} [LinearOrderedField F]

theorem plank_example_count :
    mb_grows mb_one (create_plank math_rat mb_one 1 1 1).1 36 ∧
    mb_grows (mb_zero : mb_t ℚ) (create_plank math_rat mb_zero 1 1 1).1 36 := by
  constructor
  · have h := create_plank_count math_rat mb_one 1 1 1
      (by simp only [Int.ceil_one]; decide)
    simpa [Int.ceil_one] using h
  · have h := create_plank_count math_rat (mb_zero : mb_t ℚ) 1 1 1
      (by simp only [Int.ceil_one]; decide)
    simpa [Int.ceil_one] using h

/-- Witness of C12: `create_plank(1, 1, 1)` on the zeroed buffer is a built buffer of
36 vertices, which mb_to_mesh reports as 12 triangles. -/
theorem C12_triangle_count_witness :
    mb_built math_rat (create_plank math_rat mb_zero 1 1 1).1 ∧
    (mb_to_mesh (create_plank math_rat mb_zero 1 1 1).1).1 = 36 ∧
    (mb_to_mesh (create_plank math_rat mb_zero 1 1 1).1).1 =
      3 * (mb_to_mesh (create_plank math_rat mb_zero 1 1 1).1).2 := by
  have hc : (create_plank math_rat (mb_zero : mb_t ℚ) 1 1 1).1.positions.count = 36 := by
    rw [plank_example_count.2.1]; rfl
  have hb : mb_built math_rat (create_plank math_rat mb_zero 1 1 1).1 :=
    mb_built.plank mb_zero 1 1 1 mb_built.zero (by unfold u32_fits; rw [hc]; decide)
  have h := (C12_triangle_count math_rat).2.2.2 _ hb
  exact ⟨hb, h.1.trans hc, h.2.2⟩

/-- Witness of C13: `create_plank(1, 1, 1)` on the one-vertex buffer `mb_one` appends
36 vertices and returns the view `(1, 36)`. -/
theorem C13_plank_vertex_count_witness :
    ((0 : ℚ) < 1 ∧ mb_one.positions.count +
      12 * (Int.toNat ⌈(1 : ℚ)⌉ * Int.toNat ⌈(1 : ℚ)⌉ + Int.toNat ⌈(1 : ℚ)⌉ * Int.toNat ⌈(1 : ℚ)⌉ +
        Int.toNat ⌈(1 : ℚ)⌉ * Int.toNat ⌈(1 : ℚ)⌉) < 4294967296) ∧
    (create_plank math_rat mb_one 1 1 1).1.positions.count = mb_one.positions.count + 36 ∧
    (create_plank math_rat mb_one 1 1 1).2 = ⟨1, 36⟩ := by
  have hfit : mb_one.positions.count +
      12 * (Int.toNat ⌈(1 : ℚ)⌉ * Int.toNat ⌈(1 : ℚ)⌉ + Int.toNat ⌈(1 : ℚ)⌉ * Int.toNat ⌈(1 : ℚ)⌉ +
        Int.toNat ⌈(1 : ℚ)⌉ * Int.toNat ⌈(1 : ℚ)⌉) < 4294967296 := by
    simp only [Int.ceil_one]; decide
  have h := C13_plank_vertex_count math_rat mb_one 1 1 1 (by norm_num) (by norm_num)
    (by norm_num) hfit
  have hone : mb_one.positions.count = 1 := rfl
  have h36 : mb_one.positions.count + 36 < 4294967296 := by rw [hone]; norm_num
  have hg := h.2.2.2 h36
  have hv := h.2.2.1
  simp only [Int.ceil_one] at hv
  have hg1 := hg.1
  refine ⟨⟨by norm_num, hfit⟩, by with_reducible exact hg1, ?_⟩
  rw [hv]
  rfl

/-- C20, generators write only their own range.  On a buffer with sequences of equal
length, for each call of create_face, create_plank, create_plank_angled and
create_wall (any arguments) whose new count fits the `u32` counter, the returned view
starts at the vertex count before the call, `start + count` is the vertex count after
it, and every vertex at an index below the start is unchanged in position, normal and
texcoord. -/
theorem C20_generators_own_range [FloorRing F] (m : math_h F) (mb : mb_t F)
    (hpar : mb_parallel mb) :
    (∀ xs ys, u32_fits (create_face mb xs ys).1 → mb_view_owns mb (create_face mb xs ys)) ∧
    (∀ xs ys zs, u32_fits (create_plank m mb xs ys zs).1 →
      mb_view_owns mb (create_plank m mb xs ys zs)) ∧
    (∀ xs ys zs a1 a2, u32_fits (create_plank_angled m mb xs ys zs a1 a2).1 →
      mb_view_owns mb (create_plank_angled m mb xs ys zs a1 a2)) ∧
    (u32_fits (create_wall m mb).1 → mb_view_owns mb (create_wall m mb)) :=
  ⟨fun xs ys hf => mb_view_owns_of_spec (create_face_spec mb xs ys) hpar hf,
    fun xs ys zs hf => mb_view_owns_of_spec (create_plank_spec m mb xs ys zs) hpar hf,
    fun xs ys zs a1 a2 hf =>
      mb_view_owns_of_spec (create_plank_angled_spec m mb xs ys zs a1 a2) hpar hf,
    fun hf => mb_view_owns_of_spec (create_wall_spec m mb) hpar hf⟩

/-- Witness of C20: `create_plank(1, 1, 1)` on the one-vertex buffer `mb_one` returns a
view that starts at 1 and ends at the new count, and vertex 0 is unchanged. -/
theorem C20_generators_own_range_witness :
    (mb_parallel mb_one ∧ u32_fits (create_plank math_rat mb_one 1 1 1).1) ∧
    (create_plank math_rat mb_one 1 1 1).2.vertex_start = 1 ∧
    (create_plank math_rat mb_one 1 1 1).2.vertex_start +
      (create_plank math_rat mb_one 1 1 1).2.vertex_count =
      (create_plank math_rat mb_one 1 1 1).1.positions.count ∧
    mb_get (create_plank math_rat mb_one 1 1 1).1 0 = mb_get mb_one 0 := by
  have hf : u32_fits (create_plank math_rat mb_one 1 1 1).1 := by
    unfold u32_fits; rw [plank_example_count.1.1]; decide
  have h := (C20_generators_own_range math_rat mb_one (by decide)).2.1 1 1 1 hf
  exact ⟨⟨by decide, hf⟩, h.1, h.2.1, h.2.2 0 (by rw [h.1]; decide)⟩

end claims_generators_range

section claims_plank_box

set_option linter.unusedSectionVars false

variable {F : Type} [LinearOrderedField F]

/-- C14, plank bounding box.  With rotations by 90, -90 and 180 degrees exact, positive
`xs`, `ys`, `zs` and a new count that fits the `u32` counter, create_plank appends six
faces (front, back, bottom, top, end, far end); every appended position lies in the
box `[0,xs] x [0,ys] x [-zs,0]`; all vertices of the front face lie in the plane
`z = 0`, of the back face in `z = -zs`, of the bottom face in `y = 0`, of the top face
in `y = ys`, of the end face in `x = 0` and of the far end face in `x = xs`, each face
holding at least one tile; and the box is attained: `(0,0,0)`, `(xs,ys,0)` and
`(0,ys,-zs)` are appended positions. -/
theorem C14_plank_bounding_box [FloorRing F] (m : math_h F) (mb : mb_t F) (xs ys zs : F)
    (hx : 0 < xs) (hy : 0 < ys) (hz : 0 < zs)
    (h90 : m.sinf (90 * m.DEG2RAD) = 1 ∧ m.cosf (90 * m.DEG2RAD) = 0)
    (hm90 : m.sinf (-90 * m.DEG2RAD) = -1 ∧ m.cosf (-90 * m.DEG2RAD) = 0)
    (h180 : m.sinf (180 * m.DEG2RAD) = 0 ∧ m.cosf (180 * m.DEG2RAD) = -1)
    (hfit : u32_fits (create_plank m mb xs ys zs).1) :
    (create_plank m mb xs ys zs).1.positions.count =
      mb.positions.count + face_count xs ys + face_count xs ys + face_count xs zs +
        face_count xs zs + face_count zs ys + face_count zs ys ∧
    (∀ i, i < face_count xs ys + face_count xs ys + face_count xs zs + face_count xs zs +
        face_count zs ys + face_count zs ys →
      in_box ⟨0, 0, -zs⟩ ⟨xs, ys, 0⟩
        ((create_plank m mb xs ys zs).1.positions.data (mb.positions.count + i))) ∧
    (∀ i, i < face_count xs ys →
      ((create_plank m mb xs ys zs).1.positions.data (mb.positions.count + i)).z = 0 ∧
      ((create_plank m mb xs ys zs).1.positions.data
        (mb.positions.count + face_count xs ys + i)).z = -zs) ∧
    (∀ i, i < face_count xs zs →
      ((create_plank m mb xs ys zs).1.positions.data
        (mb.positions.count + face_count xs ys + face_count xs ys + i)).y = 0 ∧
      ((create_plank m mb xs ys zs).1.positions.data
        (mb.positions.count + face_count xs ys + face_count xs ys + face_count xs zs + i)).y
        = ys) ∧
    (∀ i, i < face_count zs ys →
      ((create_plank m mb xs ys zs).1.positions.data
        (mb.positions.count + face_count xs ys + face_count xs ys + face_count xs zs +
          face_count xs zs + i)).x = 0 ∧
      ((create_plank m mb xs ys zs).1.positions.data
        (mb.positions.count + face_count xs ys + face_count xs ys + face_count xs zs +
          face_count xs zs + face_count zs ys + i)).x = xs) ∧
    (0 < face_count xs ys ∧ 0 < face_count xs zs ∧ 0 < face_count zs ys) ∧
    (create_plank m mb xs ys zs).1.positions.data (mb.positions.count + 0) = ⟨0, 0, 0⟩ ∧
    (create_plank m mb xs ys zs).1.positions.data
      (mb.positions.count + (face_count xs ys - 3)) = ⟨xs, ys, 0⟩ ∧
    (create_plank m mb xs ys zs).1.positions.data
      (mb.positions.count + face_count xs ys + 0) = ⟨0, ys, -zs⟩ := by
  obtain ⟨hc, _, p1, p2, p3⟩ := create_plank_positions m mb xs ys zs h90 hm90 h180 hfit
  have n1 := face_count_pos xs ys hx hy
  have n2 := face_count_pos xs zs hx hz
  have n3 := face_count_pos zs ys hz hy
  refine ⟨hc, fun i hi => ?_, fun i hi => ?_, fun i hi => ?_, fun i hi => ?_, ⟨n1, n2, n3⟩,
    ?_, ?_, ?_⟩
  · by_cases h1 : i < face_count xs ys
    · obtain ⟨⟨a1, a2⟩, ⟨b1, b2⟩, cz⟩ := face_vertex_position_bounds xs ys i h1
      rw [(p1 i h1).1]
      refine ⟨⟨?_, ?_⟩, ⟨?_, ?_⟩, ⟨?_, ?_⟩⟩ <;> dsimp only <;> linarith
    by_cases h2 : i < face_count xs ys + face_count xs ys
    · have hk : i - face_count xs ys < face_count xs ys := by omega
      obtain ⟨⟨a1, a2⟩, ⟨b1, b2⟩, cz⟩ := face_vertex_position_bounds xs ys _ hk
      have e : mb.positions.count + i =
          mb.positions.count + face_count xs ys + (i - face_count xs ys) := by omega
      rw [e, (p1 _ hk).2]
      refine ⟨⟨?_, ?_⟩, ⟨?_, ?_⟩, ⟨?_, ?_⟩⟩ <;> dsimp only <;> linarith
    by_cases h3 : i < face_count xs ys + face_count xs ys + face_count xs zs
    · have hk : i - (face_count xs ys + face_count xs ys) < face_count xs zs := by omega
      obtain ⟨⟨a1, a2⟩, ⟨b1, b2⟩, cz⟩ := face_vertex_position_bounds xs zs _ hk
      have e : mb.positions.count + i = mb.positions.count + face_count xs ys +
          face_count xs ys + (i - (face_count xs ys + face_count xs ys)) := by omega
      rw [e, (p2 _ hk).1]
      refine ⟨⟨?_, ?_⟩, ⟨?_, ?_⟩, ⟨?_, ?_⟩⟩ <;> dsimp only <;> linarith
    by_cases h4 : i < face_count xs ys + face_count xs ys + face_count xs zs +
        face_count xs zs
    · have hk : i - (face_count xs ys + face_count xs ys + face_count xs zs) <
          face_count xs zs := by omega
      obtain ⟨⟨a1, a2⟩, ⟨b1, b2⟩, cz⟩ := face_vertex_position_bounds xs zs _ hk
      have e : mb.positions.count + i = mb.positions.count + face_count xs ys +
          face_count xs ys + face_count xs zs +
          (i - (face_count xs ys + face_count xs ys + face_count xs zs)) := by omega
      rw [e, (p2 _ hk).2]
      refine ⟨⟨?_, ?_⟩, ⟨?_, ?_⟩, ⟨?_, ?_⟩⟩ <;> dsimp only <;> linarith
    by_cases h5 : i < face_count xs ys + face_count xs ys + face_count xs zs +
        face_count xs zs + face_count zs ys
    · have hk : i - (face_count xs ys + face_count xs ys + face_count xs zs +
          face_count xs zs) < face_count zs ys := by omega
      obtain ⟨⟨a1, a2⟩, ⟨b1, b2⟩, cz⟩ := face_vertex_position_bounds zs ys _ hk
      have e : mb.positions.count + i = mb.positions.count + face_count xs ys +
          face_count xs ys + face_count xs zs + face_count xs zs +
          (i - (face_count xs ys + face_count xs ys + face_count xs zs +
            face_count xs zs)) := by omega
      rw [e, (p3 _ hk).1]
      refine ⟨⟨?_, ?_⟩, ⟨?_, ?_⟩, ⟨?_, ?_⟩⟩ <;> dsimp only <;> linarith
    · have hk : i - (face_count xs ys + face_count xs ys + face_count xs zs +
          face_count xs zs + face_count zs ys) < face_count zs ys := by omega
      obtain ⟨⟨a1, a2⟩, ⟨b1, b2⟩, cz⟩ := face_vertex_position_bounds zs ys _ hk
      have e : mb.positions.count + i = mb.positions.count + face_count xs ys +
          face_count xs ys + face_count xs zs + face_count xs zs + face_count zs ys +
          (i - (face_count xs ys + face_count xs ys + face_count xs zs +
            face_count xs zs + face_count zs ys)) := by omega
      rw [e, (p3 _ hk).2]
      refine ⟨⟨?_, ?_⟩, ⟨?_, ?_⟩, ⟨?_, ?_⟩⟩ <;> dsimp only <;> linarith
  · obtain ⟨_, _, cz⟩ := face_vertex_position_bounds xs ys i hi
    rw [(p1 i hi).1, (p1 i hi).2]
    exact ⟨cz, by simp only; rw [cz]; ring⟩
  · obtain ⟨_, _, cz⟩ := face_vertex_position_bounds xs zs i hi
    rw [(p2 i hi).1, (p2 i hi).2]
    exact ⟨by simp only; rw [cz]; ring, by simp only; rw [cz]; ring⟩
  · obtain ⟨_, _, cz⟩ := face_vertex_position_bounds zs ys i hi
    rw [(p3 i hi).1, (p3 i hi).2]
    exact ⟨by simp only; rw [cz]; ring, by simp only; rw [cz]; ring⟩
  · rw [(p1 0 n1).1, face_vertex_first xs ys hx]
  · rw [(p1 _ (face_vertex_corner xs ys hx hy).2).1, (face_vertex_corner xs ys hx hy).1]
  · rw [(p1 0 n1).2, face_vertex_first xs ys hx]
    ext <;> simp

end claims_plank_box

section claims_plank_box_witness

/-- The count of `create_plank(2, 1, 1)` on the zeroed buffer with the quarter-turn
table: 60 vertices. -/
theorem quarter_plank_count :
    mb_grows (mb_zero : mb_t ℚ) (create_plank math_quarter mb_zero 2 1 1).1 60 := by
  have h2 : ⌈(2 : ℚ)⌉ = 2 := by exact_mod_cast Int.ceil_intCast (2 : ℤ)
  have h := create_plank_count math_quarter (mb_zero : mb_t ℚ) 2 1 1
    (by simp only [Int.ceil_one, h2]; decide)
  simpa [Int.ceil_one, h2] using h

/-- Witness of C14: the plank `create_plank(2, 1, 1)` on the zeroed buffer, with the
quarter-turn table, has 60 vertices and attains the corners `(0,0,0)`, `(2,1,0)` and
`(0,1,-1)` of its box. -/
theorem C14_plank_bounding_box_witness :
    ((0 : ℚ) < 2 ∧ (0 : ℚ) < 1 ∧
      (math_quarter.sinf (90 * math_quarter.DEG2RAD) = 1 ∧
        math_quarter.cosf (90 * math_quarter.DEG2RAD) = 0) ∧
      (math_quarter.sinf (-90 * math_quarter.DEG2RAD) = -1 ∧
        math_quarter.cosf (-90 * math_quarter.DEG2RAD) = 0) ∧
      (math_quarter.sinf (180 * math_quarter.DEG2RAD) = 0 ∧
        math_quarter.cosf (180 * math_quarter.DEG2RAD) = -1) ∧
      u32_fits (create_plank math_quarter mb_zero 2 1 1).1) ∧
    (create_plank math_quarter mb_zero 2 1 1).1.positions.count = 60 ∧
    (create_plank math_quarter mb_zero 2 1 1).1.positions.data 0 = ⟨0, 0, 0⟩ ∧
    (create_plank math_quarter mb_zero 2 1 1).1.positions.data 9 = ⟨2, 1, 0⟩ ∧
    (create_plank math_quarter mb_zero 2 1 1).1.positions.data 12 = ⟨0, 1, -1⟩ ∧
    (∀ i, i < 60 → in_box ⟨0, 0, -1⟩ ⟨2, 1, 0⟩
      ((create_plank math_quarter mb_zero 2 1 1).1.positions.data i)) := by
  have h90 : math_quarter.sinf (90 * math_quarter.DEG2RAD) = 1 ∧
      math_quarter.cosf (90 * math_quarter.DEG2RAD) = 0 := by
    constructor <;> norm_num [math_quarter]
  have hm90 : math_quarter.sinf (-90 * math_quarter.DEG2RAD) = -1 ∧
      math_quarter.cosf (-90 * math_quarter.DEG2RAD) = 0 := by
    constructor <;> norm_num [math_quarter]
  have h180 : math_quarter.sinf (180 * math_quarter.DEG2RAD) = 0 ∧
      math_quarter.cosf (180 * math_quarter.DEG2RAD) = -1 := by
    constructor <;> norm_num [math_quarter]
  have hc := quarter_plank_count.1
  have hz : (mb_zero : mb_t ℚ).positions.count = 0 := rfl
  have hfit : u32_fits (create_plank math_quarter mb_zero 2 1 1).1 := by
    show (create_plank math_quarter mb_zero 2 1 1).1.positions.count < 4294967296
    rw [hc, hz]; norm_num
  have h2 : ⌈(2 : ℚ)⌉ = 2 := by exact_mod_cast Int.ceil_intCast (2 : ℤ)
  have f21 : face_count (2 : ℚ) 1 = 12 := by simp [face_count, h2, Int.ceil_one]
  have f11 : face_count (1 : ℚ) 1 = 6 := by simp [face_count, Int.ceil_one]
  have h := C14_plank_bounding_box math_quarter mb_zero 2 1 1 (by norm_num) (by norm_num)
    (by norm_num) h90 hm90 h180 hfit
  rw [f21, f11, hz] at h
  obtain ⟨_, hbox, _, _, _, _, c1, c2, c3⟩ := h
  refine ⟨⟨by norm_num, by norm_num, h90, hm90, h180, hfit⟩, ?_, ?_, ?_, ?_, ?_⟩
  · rw [hc, hz]
  · rw [Nat.zero_add] at c1; with_reducible exact c1
  · rw [show 0 + (12 - 3) = 9 from rfl] at c2; with_reducible exact c2
  · rw [show 0 + 12 + 0 = 12 from rfl] at c3; with_reducible exact c3
  · intro i hi
    have hb := hbox i (by omega)
    rw [Nat.zero_add] at hb; with_reducible exact hb

end claims_plank_box_witness

section claims_miter_45

set_option linter.unusedSectionVars false

variable {F : Type} [LinearOrderedField F]

/-- C15, miter consistency at 45 degrees.  For `a1 = a2 = 45`, positive `ys`, a
`sinf(45 deg)` that is not zero and a new count that fits the `u32` counter, the miter
widths `wd1` and `wd2` of create_plank_angled both equal `ys`; and of the twelve
directly emitted end-cap vertices (which follow the bottom face in the returned
buffer), those on the top edge `y = ys` are the vertices 2 and 4 of the first end, with
x-coordinate `wd1`, and the vertices 8 and 10 of the second end, with x-coordinate
`xs - wd2`. -/
theorem C15_miter_45 [FloorRing F] (m : math_h F) (mb : mb_t F) (xs ys zs : F)
    (hy : 0 < ys) (hs : m.sinf (45 * m.DEG2RAD) ≠ 0)
    (hfit : u32_fits (create_plank_angled m mb xs ys zs 45 45).1) :
    miter_width m ys 45 = ys ∧
    (∀ k, k < 12 →
      (((create_plank_angled m mb xs ys zs 45 45).1.positions.data
          (mb.positions.count + face_count xs zs + k)).y = ys ↔
        k = 2 ∨ k = 4 ∨ k = 8 ∨ k = 10)) ∧
    (∀ k, k = 2 ∨ k = 4 →
      ((create_plank_angled m mb xs ys zs 45 45).1.positions.data
        (mb.positions.count + face_count xs zs + k)).x = miter_width m ys 45) ∧
    (∀ k, k = 8 ∨ k = 10 →
      ((create_plank_angled m mb xs ys zs 45 45).1.positions.data
        (mb.positions.count + face_count xs zs + k)).x = xs - miter_width m ys 45) := by
  obtain ⟨-, hcap, -⟩ := create_plank_angled_positions m mb xs ys zs 45 45 hfit
  have hne : (0 : F) ≠ ys := ne_of_lt hy
  refine ⟨miter_width_45 m ys hs, fun k hk => ?_, fun k hk => ?_, fun k hk => ?_⟩
  · interval_cases k
    all_goals rw [hcap _ _ rfl]
    all_goals simp [plank_angled_cap_vertices, hne]
  · rcases hk with rfl | rfl
    all_goals rw [hcap _ _ rfl]
    all_goals rfl
  · rcases hk with rfl | rfl
    all_goals rw [hcap _ _ rfl]
    all_goals rfl

end claims_miter_45

section claims_miter_45_witness

/-- The count of `create_plank_angled(3, 1, 1, 45, 45)` on the zeroed buffer with the
rational stand-in for `math.h`: 60 vertices. -/
theorem plank_angled_example_count :
    math_rat.sinf (45 * math_rat.DEG2RAD) ≠ 0 ∧
    mb_grows (mb_zero : mb_t ℚ) (create_plank_angled math_rat mb_zero 3 1 1 45 45).1 60 := by
  have hs : math_rat.sinf (45 * math_rat.DEG2RAD) ≠ 0 := by
    norm_num [math_rat]
  have hw := miter_width_45 math_rat 1 hs
  have h3 : ⌈(3 : ℚ)⌉ = 3 := by exact_mod_cast Int.ceil_intCast (3 : ℤ)
  have h1 : ⌈(3 - 1 - 1 : ℚ)⌉ = 1 := by
    rw [show (3 - 1 - 1 : ℚ) = 1 by norm_num]; exact Int.ceil_one
  have h := create_plank_angled_count math_rat (mb_zero : mb_t ℚ) 3 1 1 45 45
    (by rw [hw, h1, h3]; simp only [Int.ceil_one]; decide)
  rw [hw, h1, h3] at h
  simp only [Int.ceil_one] at h
  exact ⟨hs, h⟩

/-- Witness of C15: in `create_plank_angled(3, 1, 1, 45, 45)` on the zeroed buffer both
miter widths are 1, the direct vertex 2 (index 20) is at `(1, 1, 0)` and the direct
vertex 8 (index 26) has x-coordinate `3 - 1`. -/
theorem C15_miter_45_witness :
    ((0 : ℚ) < 1 ∧ math_rat.sinf (45 * math_rat.DEG2RAD) ≠ 0 ∧
      u32_fits (create_plank_angled math_rat mb_zero 3 1 1 45 45).1) ∧
    miter_width math_rat 1 45 = 1 ∧
    ((create_plank_angled math_rat mb_zero 3 1 1 45 45).1.positions.data 20).y = 1 ∧
    ((create_plank_angled math_rat mb_zero 3 1 1 45 45).1.positions.data 20).x = 1 ∧
    ((create_plank_angled math_rat mb_zero 3 1 1 45 45).1.positions.data 26).x = 3 - 1 := by
  obtain ⟨hs, hc, -⟩ := plank_angled_example_count
  have hz : (mb_zero : mb_t ℚ).positions.count = 0 := rfl
  have hfit : u32_fits (create_plank_angled math_rat mb_zero 3 1 1 45 45).1 := by
    show (create_plank_angled math_rat mb_zero 3 1 1 45 45).1.positions.count < 4294967296
    rw [hc, hz]; norm_num
  have h3 : ⌈(3 : ℚ)⌉ = 3 := by exact_mod_cast Int.ceil_intCast (3 : ℤ)
  have f31 : face_count (3 : ℚ) 1 = 18 := by simp [face_count, h3, Int.ceil_one]
  have h := C15_miter_45 math_rat mb_zero 3 1 1 (by norm_num) hs hfit
  rw [f31, hz] at h
  obtain ⟨hw, hy, hx1, hx2⟩ := h
  have y20 := (hy 2 (by norm_num)).2 (Or.inl rfl)
  have x20 := hx1 2 (Or.inl rfl)
  have x26 := hx2 8 (Or.inl rfl)
  rw [hw] at x20 x26
  rw [show 0 + 18 + 2 = 20 from rfl] at y20 x20
  rw [show 0 + 18 + 8 = 26 from rfl] at x26
  refine ⟨⟨by norm_num, hs, hfit⟩, hw, ?_, ?_, ?_⟩
  · with_reducible exact y20
  · with_reducible exact x20
  · with_reducible exact x26

end claims_miter_45_witness

section claims_end_face

set_option linter.unusedSectionVars false

variable {F : Type} [LinearOrderedField F]

/-- C16, the slanted end faces against the miter cut.  With exact arithmetic, positive
`ys`, `zs`, positive `sin(a1)`, `sin(a2)` and a new count that fits the `u32` counter,
vertex `(px, py, 0)` of the first end face of create_plank_angled ends at
`(py, (wd1 / ys) py, px - zs)` and of the second end face at
`(xs - py, (wd2 / ys) py, -px)`: the bottom edge is at `y = 0`, but the top edge
(`py = ys`) is at `y = wd1` with `x = ys` (second end: `y = wd2`, `x = xs - ys`),
while the end-cap vertices that the face should meet are `(wd1, ys, 0)` and
`(xs - wd2, ys, -zs)`.  The face lies on the edge from `(0, 0)` to `(ys, wd1)`, which is
the edge to `(wd1, ys)` only when `wd1 = ys`. -/
theorem C16_end_face_off_miter [FloorRing F] (m : math_h F) (mb : mb_t F)
    (xs ys zs a1 a2 : F) (hm : math_exact m) (hy : 0 < ys) (hz : 0 < zs)
    (hs1 : 0 < m.sinf (a1 * m.DEG2RAD)) (hs2 : 0 < m.sinf (a2 * m.DEG2RAD))
    (hfit : u32_fits (create_plank_angled m mb xs ys zs a1 a2).1) :
    (∀ i, i < face_count zs ys →
      (create_plank_angled m mb xs ys zs a1 a2).1.positions.data
          (mb.positions.count + face_count xs zs + 12 + i) =
        ⟨(face_vertex zs ys (Int.toNat ⌈zs⌉) i).position.y,
         miter_width m ys a1 / ys * (face_vertex zs ys (Int.toNat ⌈zs⌉) i).position.y,
         (face_vertex zs ys (Int.toNat ⌈zs⌉) i).position.x - zs⟩ ∧
      (create_plank_angled m mb xs ys zs a1 a2).1.positions.data
          (mb.positions.count + face_count xs zs + 12 + face_count zs ys + i) =
        ⟨xs - (face_vertex zs ys (Int.toNat ⌈zs⌉) i).position.y,
         miter_width m ys a2 / ys * (face_vertex zs ys (Int.toNat ⌈zs⌉) i).position.y,
         -(face_vertex zs ys (Int.toNat ⌈zs⌉) i).position.x⟩) ∧
    ((create_plank_angled m mb xs ys zs a1 a2).1.positions.data
        (mb.positions.count + face_count xs zs + 12 + (face_count zs ys - 3)) =
      ⟨ys, miter_width m ys a1, 0⟩ ∧
     (create_plank_angled m mb xs ys zs a1 a2).1.positions.data
        (mb.positions.count + face_count xs zs + 2) = ⟨miter_width m ys a1, ys, 0⟩) ∧
    ((create_plank_angled m mb xs ys zs a1 a2).1.positions.data
        (mb.positions.count + face_count xs zs + 12 + face_count zs ys +
          (face_count zs ys - 3)) =
      ⟨xs - ys, miter_width m ys a2, -zs⟩ ∧
     (create_plank_angled m mb xs ys zs a1 a2).1.positions.data
        (mb.positions.count + face_count xs zs + 10) =
      ⟨xs - miter_width m ys a2, ys, -zs⟩) := by
  obtain ⟨h90, hm90⟩ := math_exact_quarter m hm
  have hend := create_plank_angled_end_positions m mb xs ys zs a1 a2 h90 hm90 hfit
  obtain ⟨-, hcap, -⟩ := create_plank_angled_positions m mb xs ys zs a1 a2 hfit
  obtain ⟨r1, w1⟩ := miter_ratio_exact m hm ys a1 hy hs1
  obtain ⟨r2, w2⟩ := miter_ratio_exact m hm ys a2 hy hs2
  have hodd := hm.1
  have heven := hm.2.1
  have hne1 : m.sinf (a1 * m.DEG2RAD) ≠ 0 := ne_of_gt hs1
  have hne2 : m.sinf (a2 * m.DEG2RAD) ≠ 0 := ne_of_gt hs2
  have hyne : ys ≠ 0 := ne_of_gt hy
  have hall : ∀ i, i < face_count zs ys →
      (create_plank_angled m mb xs ys zs a1 a2).1.positions.data
          (mb.positions.count + face_count xs zs + 12 + i) =
        ⟨(face_vertex zs ys (Int.toNat ⌈zs⌉) i).position.y,
         miter_width m ys a1 / ys * (face_vertex zs ys (Int.toNat ⌈zs⌉) i).position.y,
         (face_vertex zs ys (Int.toNat ⌈zs⌉) i).position.x - zs⟩ ∧
      (create_plank_angled m mb xs ys zs a1 a2).1.positions.data
          (mb.positions.count + face_count xs zs + 12 + face_count zs ys + i) =
        ⟨xs - (face_vertex zs ys (Int.toNat ⌈zs⌉) i).position.y,
         miter_width m ys a2 / ys * (face_vertex zs ys (Int.toNat ⌈zs⌉) i).position.y,
         -(face_vertex zs ys (Int.toNat ⌈zs⌉) i).position.x⟩ := by
    intro i hi
    obtain ⟨e1, e2⟩ := hend i hi
    rw [e1, e2, r1, r2, w1, w2, neg_mul, hodd, heven]
    constructor
    · ext
      · simp only; field_simp
      · simp only; field_simp
      · rfl
    · ext
      · simp only; field_simp
      · simp only; field_simp
      · rfl
  obtain ⟨hcorner, hidx⟩ := face_vertex_corner zs ys hz hy
  refine ⟨hall, ⟨?_, ?_⟩, ⟨?_, ?_⟩⟩
  · rw [(hall _ hidx).1, hcorner]
    ext
    · rfl
    · simp only; field_simp
    · simp
  · rw [hcap 2 _ rfl]; rfl
  · rw [(hall _ hidx).2, hcorner]
    ext
    · rfl
    · simp only; field_simp
    · rfl
  · rw [hcap 10 _ rfl]; rfl

end claims_end_face

section claims_end_face_witness

/-- The real functions `sin`, `cos`, `sqrt` with `DEG2RAD = pi / 180` are exact
arithmetic. -/
theorem real_math_exact (m : math_h ℝ) (h1 : m.sinf = Real.sin) (h2 : m.cosf = Real.cos)
    (h3 : m.sqrtf = Real.sqrt) (h4 : m.DEG2RAD = Real.pi / 180) : math_exact m := by
  unfold math_exact
  rw [h1, h2, h3, h4]
  refine ⟨Real.sin_neg, Real.cos_neg, Real.sin_sq_add_cos_sq, fun a => ?_, ?_,
    fun x hx => ⟨Real.sqrt_nonneg x, Real.mul_self_sqrt hx⟩⟩
  · rw [show (90 - a) * (Real.pi / 180) = Real.pi / 2 - a * (Real.pi / 180) by ring]
    exact Real.sin_pi_div_two_sub _
  · rw [show (90 : ℝ) * (Real.pi / 180) = Real.pi / 2 by ring]
    exact Real.sin_pi_div_two

/-- The call `create_plank_angled(10, 1, 1, 30, 30)` in real arithmetic: `sin(30 deg)`
is `1/2`, both miter widths are `sqrt 3`, and the count on the zeroed buffer fits the
`u32` counter. -/
theorem real_plank_angled_30 (m : math_h ℝ) (h1 : m.sinf = Real.sin)
    (h4 : m.DEG2RAD = Real.pi / 180) :
    m.sinf (30 * m.DEG2RAD) = 1 / 2 ∧ miter_width m 1 30 = Real.sqrt 3 ∧
    u32_fits (create_plank_angled m mb_zero 10 1 1 30 30).1 := by
  have hs : m.sinf (30 * m.DEG2RAD) = 1 / 2 := by
    rw [h1, h4, show (30 : ℝ) * (Real.pi / 180) = Real.pi / 6 by ring]
    exact Real.sin_pi_div_six
  have hw : miter_width m 1 30 = Real.sqrt 3 := by
    unfold miter_width
    rw [hs, h1, h4, show ((90 : ℝ) - 30) * (Real.pi / 180) = Real.pi / 3 by ring,
      Real.sin_pi_div_three]
    ring
  refine ⟨hs, hw, ?_⟩
  have h10 : ⌈(10 : ℝ)⌉ = 10 := by exact_mod_cast Int.ceil_intCast (10 : ℤ)
  have hT : Int.toNat ⌈(10 : ℝ) - miter_width m 1 30 - miter_width m 1 30⌉ ≤ 10 := by
    rw [hw]
    have h0 : (0 : ℝ) ≤ Real.sqrt 3 := Real.sqrt_nonneg 3
    have hc : ⌈(10 : ℝ) - Real.sqrt 3 - Real.sqrt 3⌉ ≤ 10 :=
      Int.ceil_le.2 (by push_cast; linarith)
    omega
  have hbound : (mb_zero : mb_t ℝ).positions.count +
      (6 * (Int.toNat ⌈(10 : ℝ)⌉ * Int.toNat ⌈(1 : ℝ)⌉) + 12 +
        12 * (Int.toNat ⌈(1 : ℝ)⌉ * Int.toNat ⌈(1 : ℝ)⌉) +
        12 * (Int.toNat ⌈(10 : ℝ) - miter_width m 1 30 - miter_width m 1 30⌉ *
          Int.toNat ⌈(1 : ℝ)⌉) +
        6 * (Int.toNat ⌈(10 : ℝ) - miter_width m 1 30 - miter_width m 1 30⌉ *
          Int.toNat ⌈(1 : ℝ)⌉)) < 4294967296 := by
    have hz : (mb_zero : mb_t ℝ).positions.count = 0 := rfl
    rw [hz, h10, Int.ceil_one]
    simp only [Int.toNat_one, Nat.mul_one]
    have : Int.toNat (10 : ℤ) = 10 := rfl
    omega
  have hg := (create_plank_angled_count m (mb_zero : mb_t ℝ) 10 1 1 30 30 hbound).1
  show (create_plank_angled m mb_zero 10 1 1 30 30).1.positions.count < 4294967296
  rw [hg]
  exact hbound

/-- Witness of C16: `create_plank_angled(10, 1, 1, 30, 30)` on the zeroed buffer in real
arithmetic.  The miter width is `sqrt 3`; the top corner of the first end face (index
75) is at `(1, sqrt 3, 0)`, but the end-cap vertex it should meet (index 62) is at
`(sqrt 3, 1, 0)`, and `sqrt 3` is not 1. -/
theorem C16_end_face_off_miter_witness :
    (math_exact (⟨Real.sin, Real.cos, Real.sqrt, Real.pi / 180⟩ : math_h ℝ) ∧
      (0 : ℝ) < 1 ∧ 0 < Real.sin (30 * (Real.pi / 180)) ∧
      u32_fits (create_plank_angled (⟨Real.sin, Real.cos, Real.sqrt, Real.pi / 180⟩ : math_h ℝ)
        mb_zero 10 1 1 30 30).1) ∧
    miter_width (⟨Real.sin, Real.cos, Real.sqrt, Real.pi / 180⟩ : math_h ℝ) 1 30 =
      Real.sqrt 3 ∧
    (create_plank_angled (⟨Real.sin, Real.cos, Real.sqrt, Real.pi / 180⟩ : math_h ℝ)
        mb_zero 10 1 1 30 30).1.positions.data 75 = ⟨1, Real.sqrt 3, 0⟩ ∧
    (create_plank_angled (⟨Real.sin, Real.cos, Real.sqrt, Real.pi / 180⟩ : math_h ℝ)
        mb_zero 10 1 1 30 30).1.positions.data 62 = ⟨Real.sqrt 3, 1, 0⟩ ∧
    Real.sqrt 3 ≠ 1 := by
  have hex := real_math_exact ⟨Real.sin, Real.cos, Real.sqrt, Real.pi / 180⟩ rfl rfl rfl rfl
  obtain ⟨hs, hw, hfit⟩ :=
    real_plank_angled_30 ⟨Real.sin, Real.cos, Real.sqrt, Real.pi / 180⟩ rfl rfl
  have hs0 : 0 < Real.sin (30 * (Real.pi / 180)) := by
    have h : Real.sin (30 * (Real.pi / 180)) = 1 / 2 := hs
    rw [h]; norm_num
  have h10 : ⌈(10 : ℝ)⌉ = 10 := by exact_mod_cast Int.ceil_intCast (10 : ℤ)
  have f1 : face_count (10 : ℝ) 1 = 60 := by simp [face_count, h10, Int.ceil_one]
  have f2 : face_count (1 : ℝ) 1 = 6 := by simp [face_count, Int.ceil_one]
  have hz : (mb_zero : mb_t ℝ).positions.count = 0 := rfl
  have h := C16_end_face_off_miter ⟨Real.sin, Real.cos, Real.sqrt, Real.pi / 180⟩ mb_zero
    10 1 1 30 30 hex (by norm_num) (by norm_num) hs0 hs0 hfit
  rw [f1, f2, hz, hw] at h
  obtain ⟨-, ⟨t1, p1⟩, -⟩ := h
  rw [show 0 + 60 + 12 + (6 - 3) = 75 from rfl] at t1
  rw [show 0 + 60 + 2 = 62 from rfl] at p1
  refine ⟨⟨hex, by norm_num, hs0, hfit⟩, hw, ?_, ?_, ?_⟩
  · with_reducible exact t1
  · with_reducible exact p1
  · intro h3
    have h9 : Real.sqrt 3 * Real.sqrt 3 = 3 := Real.mul_self_sqrt (by norm_num)
    rw [h3] at h9
    norm_num at h9

end claims_end_face_witness

section claims_strip_window

set_option linter.unusedSectionVars false

variable {F : Type} [LinearOrderedField F]

/-- C21, strip window bound.  Take the strip that mb_strip_create makes for any buffer
and run any finite sequence of mb_strip_push and mb_strip_reset calls on it.  The fill
count is then at most 3, so the slot index the next push writes is below 4, and the
incremented count inside that push is at most 4 (far from the end of `u32`); the next
push leaves the count at 2 when it was 3 and one higher otherwise, so 4 is never seen
between calls; the same holds after every prefix of the sequence; no window slot of
index 4 or more is ever written (each still holds the zero of mb_strip_create); and the
bound 3 is reached after three pushes. -/
theorem C21_strip_window_bound (mb : mb_t F) (calls : List (mb_strip_call F)) :
    (mb_strip_calls_run (mb_strip_create mb) calls).count ≤ 3 ∧
    (mb_strip_calls_run (mb_strip_create mb) calls).count < 4 ∧
    (mb_strip_calls_run (mb_strip_create mb) calls).count + 1 ≤ 4 ∧
    (mb_strip_calls_run (mb_strip_create mb) calls).count + 1 < 4294967296 ∧
    (∀ p n t,
      (mb_strip_push (mb_strip_calls_run (mb_strip_create mb) calls) p n t).count =
        if (mb_strip_calls_run (mb_strip_create mb) calls).count = 3 then 2
        else (mb_strip_calls_run (mb_strip_create mb) calls).count + 1) ∧
    (∀ k, (mb_strip_calls_run (mb_strip_create mb) (calls.take k)).count ≤ 3) ∧
    (∀ i, 4 ≤ i →
      (mb_strip_calls_run (mb_strip_create mb) calls).positions i = ⟨0, 0, 0⟩ ∧
      (mb_strip_calls_run (mb_strip_create mb) calls).normals i = ⟨0, 0, 0⟩ ∧
      (mb_strip_calls_run (mb_strip_create mb) calls).texcoords i = ⟨0, 0⟩) ∧
    (∀ v, (mb_strip_calls_run (mb_strip_create mb)
      [mb_strip_call.push v, mb_strip_call.push v, mb_strip_call.push v]).count = 3) := by
  have h0 : (mb_strip_create mb).count ≤ 3 := Nat.zero_le 3
  obtain ⟨hc, hw⟩ := mb_strip_calls_run_window (mb_strip_create mb) calls h0
  refine ⟨hc, by omega, by omega, by omega, fun p n t => ?_,
    fun k => (mb_strip_calls_run_window (mb_strip_create mb) (calls.take k) h0).1, hw,
    fun v => ?_⟩
  · by_cases h3 : (mb_strip_calls_run (mb_strip_create mb) calls).count = 3
    · rw [if_pos h3]
      exact (mb_strip_push_flush _ p n t h3).2.2.2.1
    · rw [if_neg h3, mb_strip_push_below _ p n t (by omega)]
  · simp [mb_strip_calls_run, mb_strip_call_run, mb_strip_push, mb_strip_create]

end claims_strip_window

end BadCad
